import Mathlib

/-!
# polyglot: finite-element mesh and its translation to a finite-volume mesh

A shallow embedding of `src/polyglot/fe_mesh.c`.

Conventions of the embedding.

* A C `int` is an `Int`; the arithmetic of the translation (offsets, counts, face
  ids) stays far below `2^31` for any mesh that fits in memory, so no wrap-around
  is modelled there.  The face count that `fe_mesh_add_block` infers is computed
  from face indices the caller chose, which may be as large as `2^31 - 1`: it is
  taken modulo `2^32` into the range of an `int` (`int_wrap`).
* An `int*` that may be `NULL` is an `Option (List Int)`; a buffer that is always
  allocated is a `List Int`.
* A function returns `none` where the C code stops on an `ASSERT` or reads or
  writes outside a buffer (undefined behaviour in C).
* An array that the C code fills front to back (entry `i+1` right after entry `i`)
  is the list of the entries written so far.
-/

namespace Polyglot

/-! ## Reading buffers -/

/-- Read `a[i]` for a C index `i`; `none` outside the buffer. -/
def read_int (a : List Int) (i : Int) : Option Int :=
  if i < 0 then none else a[i.toNat]?

/-- Read the `len` entries `a[offset .. offset+len)` as `memcpy` does; `none` when
the range leaves the buffer or the length is negative. -/
def read_slice (a : List Int) (offset len : Int) : Option (List Int) :=
  if offset < 0 ∨ len < 0 ∨ (a.length : Int) < offset + len then none
  else some ((a.drop offset.toNat).take len.toNat)

/-- Overwrite the first `src.length` entries of `dst` as `memcpy(dst, src, ...)`
does; `none` when `dst` is too short. -/
def copy_into (dst src : List Int) : Option (List Int) :=
  if dst.length < src.length then none else some (src ++ dst.drop src.length)

/-! ## Element blocks -/

/-- The element types `fe_mesh.c` dispatches on (`FE_INVALID`, `FE_TETRAHEDRON`,
`FE_PYRAMID`, `FE_WEDGE`, `FE_HEXAHEDRON`, `FE_POLYHEDRON`). -/
inductive fe_mesh_element_t where
  | FE_INVALID
  | FE_TETRAHEDRON
  | FE_PYRAMID
  | FE_WEDGE
  | FE_HEXAHEDRON
  | FE_POLYHEDRON
  deriving DecidableEq, Repr

open fe_mesh_element_t

/-- The `struct fe_block_t`. -/
structure fe_block_t where
  num_elem : Int
  elem_type : fe_mesh_element_t
  elem_face_offsets : Option (List Int)
  elem_faces : Option (List Int)
  elem_node_offsets : Option (List Int)
  elem_nodes : Option (List Int)
  deriving DecidableEq, Repr

/-- The offsets `0, k, 2k, ...` written by the loop
`offsets[i+1] = offsets[i] + k` for `i < n`, after `offsets[0] = 0`. -/
def uniform_offsets (k : Int) : Nat → List Int
  | 0 => [0]
  | n + 1 => uniform_offsets k n ++ [(uniform_offsets k n).getLastD 0 + k]

/-- The function `fe_block_new`.  The offset buffer is allocated with
`num_elem_nodes * num_elem` entries and receives `num_elem + 1` of them; the node
list is copied from the caller's array, which must hold
`num_elem * num_elem_nodes` entries. -/
def fe_block_new (num_elem : Int) (type : fe_mesh_element_t) (num_elem_nodes : Int)
    (elem_node_indices : List Int) : Option fe_block_t :=
  if num_elem ≤ 0 then none
  else if num_elem_nodes * num_elem < num_elem + 1 then none
  else
    let elem_node_offsets := uniform_offsets num_elem_nodes num_elem.toNat
    match read_slice elem_node_indices 0 (elem_node_offsets.getLastD 0) with
    | none => none
    | some nodes =>
      some { num_elem := num_elem, elem_type := type,
             elem_face_offsets := none, elem_faces := none,
             elem_node_offsets := some elem_node_offsets, elem_nodes := some nodes }

/-- The offsets written by `offsets[i+1] = offsets[i] + counts[i]`, after
`offsets[0] = 0`; `none` when `counts` has fewer than `n` entries. -/
def offsets_of_counts (counts : List Int) : Nat → Option (List Int)
  | 0 => some [0]
  | n + 1 =>
    match offsets_of_counts counts n, counts[n]? with
    | some offs, some c => some (offs ++ [offs.getLastD 0 + c])
    | _, _ => none

/-- The sum `tot_elem_faces` of the first `n` entries of `counts`. -/
def sum_counts (counts : List Int) : Nat → Option Int
  | 0 => some 0
  | n + 1 =>
    match sum_counts counts n, counts[n]? with
    | some s, some c => some (s + c)
    | _, _ => none

/-- The function `polyhedral_fe_block_new`.  The offset buffer is allocated with
`tot_elem_faces` entries and receives `num_elem + 1` of them. -/
def polyhedral_fe_block_new (num_elem : Int) (num_elem_faces : List Int)
    (elem_face_indices : List Int) : Option fe_block_t :=
  if num_elem ≤ 0 then none
  else
    match sum_counts num_elem_faces num_elem.toNat,
          offsets_of_counts num_elem_faces num_elem.toNat with
    | some tot_elem_faces, some elem_face_offsets =>
      if tot_elem_faces < num_elem + 1 then none
      else
        match read_slice elem_face_indices 0 (elem_face_offsets.getLastD 0) with
        | none => none
        | some faces =>
          some { num_elem := num_elem, elem_type := FE_POLYHEDRON,
                 elem_face_offsets := some elem_face_offsets, elem_faces := some faces,
                 elem_node_offsets := none, elem_nodes := none }
    | _, _ => none

/-- The function `fe_block_element_type`. -/
def fe_block_element_type (block : fe_block_t) : fe_mesh_element_t := block.elem_type

/-- The function `fe_block_num_elements`. -/
def fe_block_num_elements (block : fe_block_t) : Int := block.num_elem

/-- The function `fe_block_num_element_nodes`: `-1` when the block has no node
offsets. -/
def fe_block_num_element_nodes (block : fe_block_t) (elem_index : Int) : Option Int :=
  match block.elem_node_offsets with
  | some offsets =>
    match read_int offsets elem_index, read_int offsets (elem_index + 1) with
    | some offset, some next => some (next - offset)
    | _, _ => none
  | none => some (-1)

/-- The function `fe_block_get_element_nodes`: the caller's buffer `elem_nodes`
after the call.  Nothing is copied when the block has no node list. -/
def fe_block_get_element_nodes (block : fe_block_t) (elem_index : Int)
    (elem_nodes : List Int) : Option (List Int) :=
  match block.elem_nodes with
  | none => some elem_nodes
  | some nodes =>
    match block.elem_node_offsets with
    | none => none
    | some offsets =>
      match read_int offsets elem_index, read_int offsets (elem_index + 1) with
      | some offset, some next =>
        match read_slice nodes offset (next - offset) with
        | some copied => copy_into elem_nodes copied
        | none => none
      | _, _ => none

/-- The function `fe_block_num_element_faces`: `-1` when the block has no face
offsets. -/
def fe_block_num_element_faces (block : fe_block_t) (elem_index : Int) : Option Int :=
  match block.elem_face_offsets with
  | some offsets =>
    match read_int offsets elem_index, read_int offsets (elem_index + 1) with
    | some offset, some next => some (next - offset)
    | _, _ => none
  | none => some (-1)

/-- The function `fe_block_get_element_faces`: the caller's buffer `elem_faces`
after the call.  Nothing is copied when the block has no face list. -/
def fe_block_get_element_faces (block : fe_block_t) (elem_index : Int)
    (elem_faces : List Int) : Option (List Int) :=
  match block.elem_faces with
  | none => some elem_faces
  | some faces =>
    match block.elem_face_offsets with
    | none => none
    | some offsets =>
      match read_int offsets elem_index, read_int offsets (elem_index + 1) with
      | some offset, some next =>
        match read_slice faces offset (next - offset) with
        | some copied => copy_into elem_faces copied
        | none => none
      | _, _ => none

/-! ## Entity sets -/

/-- Modelled from the spec: the Entity Tag Collection (`core/tagger.h` is not among
the sources): a mapping from a set name to an ordered index sequence, kept in
creation order. -/
abbrev tagger_t := List (String × List Int)

/-- Modelled from the spec: `tagger_new`, the empty collection. -/
def tagger_new : tagger_t := []

/-- Modelled from the spec: `tagger_create_tag` creates and reserves a new named
set of the given size (zero-filled here, to be filled through the returned handle);
names are unique within a collection, so no set is created for a name in use. -/
def tagger_create_tag (tagger : tagger_t) (name : String) (size : Nat) : Option tagger_t :=
  if name ∈ tagger.map Prod.fst then none
  else some (tagger ++ [(name, List.replicate size 0)])

/-- Modelled from the spec: the cursor traversal `tagger_next_tag`; it yields the
name, the set and its size together with the advanced cursor, and `none` when the
collection is exhausted. -/
def tagger_next_tag (tagger : tagger_t) (pos : Nat) : Option (Nat × String × List Int × Nat) :=
  match tagger[pos]? with
  | some (name, set) => some (pos + 1, name, set, set.length)
  | none => none

/-- Filling the most recently created set through its handle:
`memcpy(tag, set, sizeof(int) * set_size)`. -/
def fill_last_tag (tagger : tagger_t) (set : List Int) : Option tagger_t :=
  match tagger.getLast? with
  | none => none
  | some (name, buf) =>
    match copy_into buf set with
    | none => none
    | some buf1 => some (tagger.dropLast ++ [(name, buf1)])

/-! ## The finite-element mesh -/

/-- A node position `point_t`; the translation only copies positions. -/
structure point_t where
  x : Int
  y : Int
  z : Int
  deriving DecidableEq, Repr

/-- The `struct fe_mesh_t`; `comm` is the opaque communicator handle. -/
structure fe_mesh_t where
  comm : Nat
  blocks : List fe_block_t
  block_names : List String
  block_elem_offsets : List Int
  num_nodes : Int
  node_coords : List point_t
  num_faces : Int
  face_edge_offsets : Option (List Int)
  face_edges : Option (List Int)
  face_node_offsets : Option (List Int)
  face_nodes : Option (List Int)
  num_edges : Int
  edge_node_offsets : Option (List Int)
  edge_nodes : Option (List Int)
  elem_sets : tagger_t
  face_sets : tagger_t
  edge_sets : tagger_t
  node_sets : tagger_t
  side_sets : tagger_t
  deriving DecidableEq, Repr

/-- The function `fe_mesh_new`. -/
def fe_mesh_new (comm : Nat) (num_nodes : Int) : Option fe_mesh_t :=
  if num_nodes < 4 then none
  else
    some { comm := comm, blocks := [], block_names := [], block_elem_offsets := [0],
           num_nodes := num_nodes,
           node_coords := List.replicate num_nodes.toNat ⟨0, 0, 0⟩,
           num_faces := 0,
           face_edge_offsets := none, face_edges := none,
           face_node_offsets := none, face_nodes := none,
           num_edges := 0, edge_node_offsets := none, edge_nodes := none,
           elem_sets := tagger_new, face_sets := tagger_new, edge_sets := tagger_new,
           node_sets := tagger_new, side_sets := tagger_new }

/-- The function `fe_mesh_comm`. -/
def fe_mesh_comm (mesh : fe_mesh_t) : Nat := mesh.comm

/-- The function `fe_mesh_num_elements`: the last entry of the offset table. -/
def fe_mesh_num_elements (mesh : fe_mesh_t) : Int := mesh.block_elem_offsets.getLastD 0

/-- The function `fe_mesh_num_faces`. -/
def fe_mesh_num_faces (mesh : fe_mesh_t) : Int := mesh.num_faces

/-- The function `fe_mesh_num_nodes`. -/
def fe_mesh_num_nodes (mesh : fe_mesh_t) : Int := mesh.num_nodes

/-- The function `fe_mesh_node_positions`. -/
def fe_mesh_node_positions (mesh : fe_mesh_t) : List point_t := mesh.node_coords

/-- The `int` that holds the result `x` of an addition or subtraction of two `int`s:
`x` itself when it lies in `[-2^31, 2^31)`, and otherwise its representative modulo
`2^32` in that range. -/
def int_wrap (x : Int) : Int := (x + 2147483648) % 4294967296 - 2147483648

/-- The function `fe_mesh_add_block`.  `max_face` and the new face count are `int`s,
and the face indices of the block are whatever the caller stored. -/
def fe_mesh_add_block (mesh : fe_mesh_t) (name : String) (block : fe_block_t) :
    Option fe_mesh_t :=
  let num_block_elements := fe_block_num_elements block
  let num_elements := mesh.block_elem_offsets.getLastD 0 + num_block_elements
  let mesh1 : fe_mesh_t :=
    { mesh with blocks := mesh.blocks ++ [block],
                block_names := mesh.block_names ++ [name],
                block_elem_offsets := mesh.block_elem_offsets ++ [num_elements] }
  match block.elem_faces with
  | none => some mesh1
  | some elem_faces =>
    match block.elem_face_offsets with
    | none => none
    | some elem_face_offsets =>
      match read_int elem_face_offsets num_block_elements with
      | none => none
      | some n =>
        match read_slice elem_faces 0 n with
        | none => none
        | some scanned =>
          let max_face := scanned.foldl max (int_wrap (mesh.num_faces - 1))
          some { mesh1 with num_faces := int_wrap (max_face + 1) }

/-- The function `fe_mesh_next_block`: the advanced cursor, the block name and the
block, or `none` when the traversal is exhausted. -/
def fe_mesh_next_block (mesh : fe_mesh_t) (pos : Nat) : Option (Nat × String × fe_block_t) :=
  if mesh.blocks.length ≤ pos then none
  else
    match mesh.blocks[pos]?, mesh.block_names[pos]? with
    | some block, some name => some (pos + 1, name, block)
    | _, _ => none

/-- The function `fe_mesh_next_element_set`. -/
def fe_mesh_next_element_set (mesh : fe_mesh_t) (pos : Nat) :=
  tagger_next_tag mesh.elem_sets pos

/-- The function `fe_mesh_next_face_set`. -/
def fe_mesh_next_face_set (mesh : fe_mesh_t) (pos : Nat) :=
  tagger_next_tag mesh.face_sets pos

/-- The function `fe_mesh_next_edge_set`. -/
def fe_mesh_next_edge_set (mesh : fe_mesh_t) (pos : Nat) :=
  tagger_next_tag mesh.edge_sets pos

/-- The function `fe_mesh_next_node_set`. -/
def fe_mesh_next_node_set (mesh : fe_mesh_t) (pos : Nat) :=
  tagger_next_tag mesh.node_sets pos

/-- The function `fe_mesh_next_side_set`. -/
def fe_mesh_next_side_set (mesh : fe_mesh_t) (pos : Nat) :=
  tagger_next_tag mesh.side_sets pos

/-! ## Face deduplication -/

/-- The function `get_num_cell_faces`; `none` where its `ASSERT`s stop it. -/
def get_num_cell_faces (elem_type : fe_mesh_element_t) : Option Int :=
  match elem_type with
  | FE_INVALID => none
  | FE_POLYHEDRON => none
  | FE_TETRAHEDRON => some 4
  | FE_PYRAMID => some 5
  | FE_WEDGE => some 5
  | FE_HEXAHEDRON => some 6

/-- Modelled from the spec: `int_qsort` (`core/array_utils.h` is not among the
sources) sorts the tuple into ascending order, the canonical key of a face. -/
def int_qsort (a : List Int) : List Int := a.insertionSort (fun x y => x ≤ y)

/-- The map `int_tuple_int_unordered_map_t` from node tuples to face ids, as the
list of its entries in insertion order; its `size` is the length of the list. -/
abbrev int_tuple_int_unordered_map_t := List (List Int × Int)

/-- Lookup `int_tuple_int_unordered_map_get`: the value stored under `key`. -/
def int_tuple_int_unordered_map_get :
    int_tuple_int_unordered_map_t → List Int → Option Int
  | [], _ => none
  | (k, v) :: rest, key =>
    if k = key then some v else int_tuple_int_unordered_map_get rest key

/-- What `map_nodes_to_face` reads and updates: the node-to-face map and the two
growing arrays of the face->node table. -/
structure dedup_state where
  node_face_map : int_tuple_int_unordered_map_t
  face_node_offsets : List Int
  face_nodes : List Int
  deriving DecidableEq, Repr

/-- The function `map_nodes_to_face`: the face index and the updated state.
`nodes` is the caller's row, of which the first `num_nodes` entries are read. -/
def map_nodes_to_face (st : dedup_state) (nodes : List Int) (num_nodes : Nat) :
    Int × dedup_state :=
  let sorted_nodes := int_qsort (nodes.take num_nodes)
  match int_tuple_int_unordered_map_get st.node_face_map sorted_nodes with
  | none =>
    let face_index : Int := st.node_face_map.length
    let last_offset := st.face_node_offsets.getLastD 0
    (face_index,
     { node_face_map := st.node_face_map ++ [(sorted_nodes, face_index)],
       face_node_offsets := st.face_node_offsets ++ [last_offset + num_nodes],
       face_nodes := st.face_nodes ++ nodes.take num_nodes })
  | some entry => (entry, st)

/-- The literal face arrays built at the top of each branch of `get_cell_faces`
(`face_node_indices`, `base_face_nodes`, `side_face_nodes`), in the order in which
the branch passes them to `map_nodes_to_face`, each row with the node count it is
passed with.  The hexahedron array is declared `[8][6]`, so each of its rows holds
the four nodes followed by two zeros.  `none` where an `ASSERT` stops the function
or `elem_nodes` is shorter than the branch reads. -/
def face_node_indices (elem_type : fe_mesh_element_t) (elem_nodes : List Int) :
    Option (List (List Int × Nat)) :=
  match elem_type with
  | FE_INVALID => none
  | FE_POLYHEDRON => none
  | FE_TETRAHEDRON => do
    let n0 ← elem_nodes[0]?
    let n1 ← elem_nodes[1]?
    let n2 ← elem_nodes[2]?
    let n3 ← elem_nodes[3]?
    some [([n0, n1, n2], 3), ([n0, n1, n3], 3), ([n1, n2, n3], 3), ([n2, n0, n3], 3)]
  | FE_PYRAMID => do
    let n0 ← elem_nodes[0]?
    let n1 ← elem_nodes[1]?
    let n2 ← elem_nodes[2]?
    let n3 ← elem_nodes[3]?
    let n4 ← elem_nodes[4]?
    some [([n0, n1, n2, n3], 4),
          ([n0, n1, n4], 3), ([n1, n2, n4], 3), ([n2, n3, n4], 3), ([n3, n0, n4], 3)]
  | FE_WEDGE => do
    let n0 ← elem_nodes[0]?
    let n1 ← elem_nodes[1]?
    let n2 ← elem_nodes[2]?
    let n3 ← elem_nodes[3]?
    let n4 ← elem_nodes[4]?
    let n5 ← elem_nodes[5]?
    some [([n0, n1, n2], 3), ([n3, n4, n5], 3),
          ([n0, n1, n4, n3], 4), ([n1, n2, n5, n4], 4), ([n2, n0, n3, n5], 4)]
  | FE_HEXAHEDRON => do
    let n0 ← elem_nodes[0]?
    let n1 ← elem_nodes[1]?
    let n2 ← elem_nodes[2]?
    let n3 ← elem_nodes[3]?
    let n4 ← elem_nodes[4]?
    let n5 ← elem_nodes[5]?
    let n6 ← elem_nodes[6]?
    let n7 ← elem_nodes[7]?
    some [([n0, n1, n2, n3, 0, 0], 4), ([n4, n5, n6, n7, 0, 0], 4),
          ([n0, n1, n5, n4, 0, 0], 4), ([n2, n3, n7, n6, 0, 0], 4),
          ([n1, n2, n6, n5, 0, 0], 4), ([n3, n0, n4, n7, 0, 0], 4)]

/-- The loops of `get_cell_faces` over its face arrays: each row goes through
`map_nodes_to_face` and the face index is written to the next slot of
`cell_faces`. -/
def map_rows : List (List Int × Nat) → dedup_state → List Int × dedup_state
  | [], st => ([], st)
  | (nodes, num_nodes) :: rest, st =>
    let r := map_nodes_to_face st nodes num_nodes
    let rs := map_rows rest r.2
    (r.1 :: rs.1, rs.2)

/-- The function `get_cell_faces`: the entries written to `cell_faces` and the
updated deduplication state. -/
def get_cell_faces (elem_type : fe_mesh_element_t) (elem_nodes : List Int)
    (st : dedup_state) : Option (List Int × dedup_state) :=
  match face_node_indices elem_type elem_nodes with
  | none => none
  | some rows => some (map_rows rows st)

/-! ## The finite-volume mesh -/

/-- Modelled from the spec: the finite-volume mesh of the export contract
(`core/mesh.h` is not among the sources): cell, face and node counts,
`cell_face_offsets`/`cell_faces`, `face_node_offsets`/`face_nodes`, `face_cells`
(2 per face), node coordinates and the named tags per entity kind. -/
structure mesh_t where
  comm : Nat
  num_cells : Int
  num_ghost_cells : Int
  num_faces : Int
  num_nodes : Int
  cell_face_offsets : List Int
  cell_faces : List Int
  face_node_offsets : List Int
  face_nodes : List Int
  face_cells : List Int
  face_edge_offsets : List Int
  face_edges : Option (List Int)
  nodes : List point_t
  cell_tags : tagger_t
  face_tags : tagger_t
  edge_tags : tagger_t
  node_tags : tagger_t
  deriving DecidableEq, Repr

/-- Modelled from the spec: `mesh_new` allocates the tables of a mesh with the given
counts; the offset tables are zeroed, every `face_cells` slot holds the "no cell"
sentinel `-1`, and `cell_faces`/`face_nodes` are reserved later. -/
def mesh_new (comm : Nat) (num_cells num_ghost_cells num_faces num_nodes : Int) : mesh_t :=
  { comm := comm, num_cells := num_cells, num_ghost_cells := num_ghost_cells,
    num_faces := num_faces, num_nodes := num_nodes,
    cell_face_offsets := List.replicate (num_cells + 1).toNat 0,
    cell_faces := [],
    face_node_offsets := List.replicate (num_faces + 1).toNat 0,
    face_nodes := [],
    face_cells := List.replicate (2 * num_faces).toNat (-1),
    face_edge_offsets := List.replicate (num_faces + 1).toNat 0,
    face_edges := none,
    nodes := List.replicate num_nodes.toNat ⟨0, 0, 0⟩,
    cell_tags := tagger_new, face_tags := tagger_new, edge_tags := tagger_new,
    node_tags := tagger_new }

/-- Write `a[i] = v` for a C index `i`; `none` outside the buffer. -/
def write_int (a : List Int) (i v : Int) : Option (List Int) :=
  if i < 0 ∨ (a.length : Int) ≤ i then none else some (a.set i.toNat v)

/-! ## Finite element -> finite volume translation -/

/-- The five results of the first half of `mesh_from_fe_mesh`. -/
structure face_tables where
  num_faces : Int
  cell_face_offsets : List Int
  cell_faces : List Int
  face_node_offsets : List Int
  face_nodes : List Int
  deriving DecidableEq, Repr

/-- The loop `cell_face_offsets[elem_offset+i+1] = cell_face_offsets[elem_offset+i]
+ num_elem_faces` over the `n` elements of one block, `elem_offset+i+1` being the
next unwritten entry. -/
def extend_offsets (num_elem_faces : Int) : Nat → List Int → List Int
  | 0, cell_face_offsets => cell_face_offsets
  | n + 1, cell_face_offsets =>
    extend_offsets num_elem_faces n
      (cell_face_offsets ++ [cell_face_offsets.getLastD 0 + num_elem_faces])

/-- First traversal of the blocks in the branch `num_faces == 0`: the number of
faces per cell. -/
def count_cell_faces : List fe_block_t → List Int → Option (List Int)
  | [], cell_face_offsets => some cell_face_offsets
  | block :: rest, cell_face_offsets =>
    match get_num_cell_faces (fe_block_element_type block) with
    | none => none
    | some num_elem_faces =>
      count_cell_faces rest
        (extend_offsets num_elem_faces (fe_block_num_elements block).toNat cell_face_offsets)

/-- The loop over the elements `i, i+1, ...` of one block in the second traversal.
`get_cell_faces` writes at `&cell_faces[cell_face_offsets[elem_offset+i]]`; the
list `cell_faces` holds the entries written so far, so the run is stopped (`none`)
if that offset is not the next unwritten entry. -/
def assemble_elements (block : fe_block_t) (elem_type : fe_mesh_element_t)
    (cell_face_offsets : List Int) (elem_offset : Int) :
    Nat → Int → List Int → List Int × dedup_state → Option (List Int × dedup_state)
  | 0, _, _, acc => some acc
  | n + 1, i, elem_nodes, acc =>
    match fe_block_get_element_nodes block i elem_nodes with
    | none => none
    | some elem_nodes1 =>
      match read_int cell_face_offsets (elem_offset + i) with
      | none => none
      | some offset =>
        if offset ≠ (acc.1.length : Int) then none
        else
          match get_cell_faces elem_type elem_nodes1 acc.2 with
          | none => none
          | some r =>
            assemble_elements block elem_type cell_face_offsets elem_offset n (i + 1)
              elem_nodes1 (acc.1 ++ r.1, r.2)

/-- Second traversal of the blocks in the branch `num_faces == 0`: the faces of
each cell.  The buffer `elem_nodes[num_elem_nodes]` is uninitialised in C, so a
block without a node list, which leaves it so, stops the run. -/
def assemble_blocks (cell_face_offsets : List Int) :
    List fe_block_t → Int → List Int × dedup_state → Option (List Int × dedup_state)
  | [], _, acc => some acc
  | block :: rest, elem_offset, acc =>
    let num_block_elem := fe_block_num_elements block
    let elem_type := fe_block_element_type block
    match fe_block_num_element_nodes block 0 with
    | none => none
    | some num_elem_nodes =>
      if num_elem_nodes ≤ 0 ∨ block.elem_nodes = none then none
      else
        match assemble_elements block elem_type cell_face_offsets elem_offset
                num_block_elem.toNat 0 (List.replicate num_elem_nodes.toNat 0) acc with
        | none => none
        | some acc1 =>
          assemble_blocks cell_face_offsets rest (elem_offset + num_block_elem) acc1

/-- The state the deduplication starts from: an empty map, `face_node_offsets`
holding the single entry `0`, and an empty `face_nodes`. -/
def dedup_init : dedup_state :=
  { node_face_map := [], face_node_offsets := [0], face_nodes := [] }

/-- The branch `num_faces == 0` of `mesh_from_fe_mesh`.  `cell_face_offsets` has
`num_cells + 1` entries and `cell_faces` has `cell_face_offsets[num_cells]`; a run
that would write past either, or leave part of either unwritten, is stopped. -/
def derive_faces (fe_mesh : fe_mesh_t) (num_cells : Int) : Option face_tables :=
  match count_cell_faces fe_mesh.blocks [0] with
  | none => none
  | some cell_face_offsets =>
    if (cell_face_offsets.length : Int) ≠ num_cells + 1 then none
    else
      match assemble_blocks cell_face_offsets fe_mesh.blocks 0 ([], dedup_init) with
      | none => none
      | some (cell_faces, st) =>
        match read_int cell_face_offsets num_cells with
        | none => none
        | some size =>
          if size ≠ (cell_faces.length : Int) then none
          else
            some { num_faces := (st.node_face_map.length : Int),
                   cell_face_offsets := cell_face_offsets,
                   cell_faces := cell_faces,
                   face_node_offsets := st.face_node_offsets,
                   face_nodes := st.face_nodes }

/-- Read an entry of a buffer whose entries may still be unwritten (`none`). -/
def read_cell (a : List (Option Int)) (i : Int) : Option Int :=
  if i < 0 then none else (a[i.toNat]?).join

/-- Write an entry of a buffer whose entries may still be unwritten. -/
def write_cell (a : List (Option Int)) (i v : Int) : Option (List (Option Int)) :=
  if i < 0 ∨ (a.length : Int) ≤ i then none else some (a.set i.toNat (some v))

/-- Copy `src` to `a[offset ..]` as `memcpy(&a[offset], src, ...)` does. -/
def write_cells (a : List (Option Int)) (offset : Int) (src : List Int) :
    Option (List (Option Int)) :=
  if offset < 0 ∨ (a.length : Int) < offset + src.length then none
  else some (a.take offset.toNat ++ src.map some ++ a.drop (offset.toNat + src.length))

/-- The contents of a buffer all of whose entries have been written. -/
def all_written : List (Option Int) → Option (List Int)
  | [] => some []
  | none :: _ => none
  | some v :: rest =>
    match all_written rest with
    | none => none
    | some vs => some (v :: vs)

/-- The loop `cell_face_offsets[block_cell_offset+i] =
cell_face_offsets[block_cell_offset+i-1] + block->elem_face_offsets[i]` over the
elements `i, i+1, ...` of one block. -/
def copy_offsets_elements (elem_face_offsets : List Int) (block_cell_offset : Int) :
    Nat → Int → List (Option Int) → Option (List (Option Int))
  | 0, _, cell_face_offsets => some cell_face_offsets
  | n + 1, i, cell_face_offsets =>
    match read_cell cell_face_offsets (block_cell_offset + i - 1),
          read_int elem_face_offsets i with
    | some prev, some v =>
      match write_cell cell_face_offsets (block_cell_offset + i) (prev + v) with
      | none => none
      | some cell_face_offsets1 =>
        copy_offsets_elements elem_face_offsets block_cell_offset n (i + 1) cell_face_offsets1
    | _, _ => none

/-- First traversal of the blocks in the branch `num_faces != 0`. -/
def copy_offsets_blocks :
    List fe_block_t → Int → List (Option Int) → Option (List (Option Int))
  | [], _, cell_face_offsets => some cell_face_offsets
  | block :: rest, block_cell_offset, cell_face_offsets =>
    let num_block_elem := fe_block_num_elements block
    match block.elem_face_offsets with
    | none => if num_block_elem ≤ 0 then
                copy_offsets_blocks rest (block_cell_offset + num_block_elem) cell_face_offsets
              else none
    | some elem_face_offsets =>
      match copy_offsets_elements elem_face_offsets block_cell_offset num_block_elem.toNat 0
              cell_face_offsets with
      | none => none
      | some cell_face_offsets1 =>
        copy_offsets_blocks rest (block_cell_offset + num_block_elem) cell_face_offsets1

/-- Second traversal of the blocks in the branch `num_faces != 0`: the `memcpy` of
each block's face list to `&cell_faces[cell_face_offsets[block_cell_offset]]`. -/
def copy_faces_blocks (cell_face_offsets : List (Option Int)) :
    List fe_block_t → Int → List (Option Int) → Option (List (Option Int))
  | [], _, cell_faces => some cell_faces
  | block :: rest, block_cell_offset, cell_faces =>
    let num_block_elem := fe_block_num_elements block
    match read_cell cell_face_offsets block_cell_offset,
          block.elem_face_offsets, block.elem_faces with
    | some offset, some elem_face_offsets, some elem_faces =>
      match read_int elem_face_offsets num_block_elem with
      | none => none
      | some n =>
        match read_slice elem_faces 0 n with
        | none => none
        | some copied =>
          match write_cells cell_faces offset copied with
          | none => none
          | some cell_faces1 =>
            copy_faces_blocks cell_face_offsets rest (block_cell_offset + num_block_elem)
              cell_faces1
    | _, _, _ => none

/-- The branch `num_faces != 0` of `mesh_from_fe_mesh`, up to and including the
three `ASSERT`s on the tables.  `cell_face_offsets` is allocated with
`num_cells + 1` entries of which only entry 0 is set before the loops. -/
def borrow_faces (fe_mesh : fe_mesh_t) (num_cells num_faces : Int) : Option face_tables :=
  if num_cells < 0 then none
  else
    let cell_face_offsets0 : List (Option Int) := some 0 :: List.replicate num_cells.toNat none
    match copy_offsets_blocks fe_mesh.blocks 0 cell_face_offsets0 with
    | none => none
    | some cell_face_offsets =>
      match read_cell cell_face_offsets num_cells with
      | none => none
      | some size =>
        if size < 0 then none
        else
          match copy_faces_blocks cell_face_offsets fe_mesh.blocks 0
                  (List.replicate size.toNat none) with
          | none => none
          | some cell_faces =>
            match all_written cell_face_offsets, all_written cell_faces,
                  fe_mesh.face_node_offsets, fe_mesh.face_nodes with
            | some cfo, some cf, some face_node_offsets, some face_nodes =>
              some { num_faces := num_faces, cell_face_offsets := cfo, cell_faces := cf,
                     face_node_offsets := face_node_offsets, face_nodes := face_nodes }
            | _, _, _, _ => none

/-- The body of the face->cell loop for one entry of a cell's face list: the cell
goes to slot 0 of the face if that slot holds `-1`, and to slot 1 otherwise. -/
def assign_face_cell (face_cells : List Int) (face c : Int) : Option (List Int) :=
  match read_int face_cells (2 * face) with
  | none => none
  | some first =>
    if first = -1 then write_int face_cells (2 * face) c
    else write_int face_cells (2 * face + 1) c

/-- The inner face->cell loop `for (f = cell_face_offsets[c]; f <
cell_face_offsets[c+1]; ++f)`, with `n` iterations left. -/
def face_cells_of_cell (cell_faces : List Int) (c : Int) :
    Nat → Int → List Int → Option (List Int)
  | 0, _, face_cells => some face_cells
  | n + 1, f, face_cells =>
    match read_int cell_faces f with
    | none => none
    | some face =>
      match assign_face_cell face_cells face c with
      | none => none
      | some face_cells1 => face_cells_of_cell cell_faces c n (f + 1) face_cells1

/-- The outer face->cell loop `for (c = 0; c < num_cells; ++c)`, with `n`
iterations left. -/
def face_cells_loop (cell_face_offsets cell_faces : List Int) :
    Nat → Int → List Int → Option (List Int)
  | 0, _, face_cells => some face_cells
  | n + 1, c, face_cells =>
    match read_int cell_face_offsets c, read_int cell_face_offsets (c + 1) with
    | some lo, some hi =>
      match face_cells_of_cell cell_faces c (hi - lo).toNat lo face_cells with
      | none => none
      | some face_cells1 => face_cells_loop cell_face_offsets cell_faces n (c + 1) face_cells1
    | _, _ => none

/-- One of the four "sets -> tags" loops: each set of the collection, in cursor
order, is created on the FV side with `mesh_create_tag` and filled by `memcpy`. -/
def sets_to_tags : tagger_t → tagger_t → Option tagger_t
  | [], tags => some tags
  | (set_name, set) :: rest, tags =>
    match tagger_create_tag tags set_name set.length with
    | none => none
    | some tags1 =>
      match fill_last_tag tags1 set with
      | none => none
      | some tags2 => sets_to_tags rest tags2

/-- The function `mesh_from_fe_mesh`.  `mesh_construct_edges` and
`mesh_compute_geometry` are external steps on edges and geometry and leave the
fields modelled here untouched. -/
def mesh_from_fe_mesh (fe_mesh : fe_mesh_t) : Option mesh_t :=
  let num_cells := fe_mesh_num_elements fe_mesh
  let num_faces := fe_mesh_num_faces fe_mesh
  match (if num_faces = 0 then derive_faces fe_mesh num_cells
         else borrow_faces fe_mesh num_cells num_faces) with
  | none => none
  | some t =>
    let mesh := mesh_new (fe_mesh_comm fe_mesh) num_cells 0 t.num_faces
                  (fe_mesh_num_nodes fe_mesh)
    match read_slice t.cell_face_offsets 0 (mesh.num_cells + 1),
          read_slice t.face_node_offsets 0 (mesh.num_faces + 1) with
    | some cell_face_offsets, some face_node_offsets =>
      match read_int cell_face_offsets mesh.num_cells,
            read_int face_node_offsets mesh.num_faces with
      | some num_cell_faces, some num_face_nodes =>
        match read_slice t.cell_faces 0 num_cell_faces,
              read_slice t.face_nodes 0 num_face_nodes with
        | some cell_faces, some face_nodes =>
          match face_cells_loop cell_face_offsets cell_faces mesh.num_cells.toNat 0
                  mesh.face_cells with
          | none => none
          | some face_cells =>
            let edges : Option (List Int × Option (List Int)) :=
              match fe_mesh.face_edges with
              | none => some (mesh.face_edge_offsets, none)
              | some fe_face_edges =>
                match fe_mesh.face_edge_offsets with
                | none => none
                | some fe_face_edge_offsets =>
                  match read_slice fe_face_edge_offsets 0 (mesh.num_faces + 1),
                        read_int fe_face_edge_offsets mesh.num_faces with
                  | some offsets, some n =>
                    match read_slice fe_face_edges 0 n with
                    | none => none
                    | some copied => some (offsets, some copied)
                  | _, _ => none
            match edges with
            | none => none
            | some (face_edge_offsets, face_edges) =>
              if (fe_mesh_node_positions fe_mesh).length < mesh.num_nodes.toNat then none
              else
                match sets_to_tags fe_mesh.elem_sets mesh.cell_tags,
                      sets_to_tags fe_mesh.face_sets mesh.face_tags,
                      sets_to_tags fe_mesh.edge_sets mesh.edge_tags,
                      sets_to_tags fe_mesh.node_sets mesh.node_tags with
                | some cell_tags, some face_tags, some edge_tags, some node_tags =>
                  some { mesh with
                         cell_face_offsets := cell_face_offsets,
                         face_node_offsets := face_node_offsets,
                         cell_faces := cell_faces,
                         face_nodes := face_nodes,
                         face_cells := face_cells,
                         face_edge_offsets := face_edge_offsets,
                         face_edges := face_edges,
                         nodes := (fe_mesh_node_positions fe_mesh).take mesh.num_nodes.toNat,
                         cell_tags := cell_tags, face_tags := face_tags,
                         edge_tags := edge_tags, node_tags := node_tags }
                | _, _, _, _ => none
        | _, _ => none
      | _, _ => none
    | _, _ => none

/-! ## Mesh-level accessors and setters -/

/-- The function `fe_mesh_set_face_nodes`. -/
def fe_mesh_set_face_nodes (mesh : fe_mesh_t) (num_faces : Int)
    (num_face_nodes face_nodes : List Int) : Option fe_mesh_t :=
  if num_faces ≤ 0 then none
  else
    match offsets_of_counts num_face_nodes num_faces.toNat with
    | none => none
    | some face_node_offsets =>
      match read_slice face_nodes 0 (face_node_offsets.getLastD 0) with
      | none => none
      | some nodes =>
        some { mesh with num_faces := num_faces,
                         face_node_offsets := some face_node_offsets,
                         face_nodes := some nodes }

/-- The loop `while (offsets[b] < elem_index && b+1 <= size) ++b` of the mesh-level
element accessors.  `b` grows by one per iteration and the read of `offsets[b]`
leaves the table at `b = size`, so `size + 1` iterations of fuel are never used up
before the loop stops or leaves the table. -/
def find_block (offsets : List Int) (elem_index : Int) : Nat → Nat → Option Nat
  | 0, _ => none
  | fuel + 1, b =>
    match offsets[b]? with
    | none => none
    | some o =>
      if o < elem_index ∧ b + 1 ≤ offsets.length then find_block offsets elem_index fuel (b + 1)
      else some b

/-- The block search shared by the mesh-level element accessors: `some none` is the
early return at `b == size-1`, and `some (some b)` the block index used. -/
def locate_block (mesh : fe_mesh_t) (elem_index : Int) : Option (Option Nat) :=
  if 1 < mesh.blocks.length then
    match find_block mesh.block_elem_offsets elem_index
            (mesh.block_elem_offsets.length + 1) 0 with
    | none => none
    | some b =>
      if ((b : Nat) : Int) = (mesh.block_elem_offsets.length : Int) - 1 then some none
      else some (some b)
  else some (some 0)

/-- The function `fe_mesh_num_element_faces`. -/
def fe_mesh_num_element_faces (mesh : fe_mesh_t) (elem_index : Int) : Option Int :=
  match locate_block mesh elem_index with
  | none => none
  | some none => some (-1)
  | some (some b) =>
    match mesh.blocks[b]?, mesh.block_elem_offsets[b]? with
    | some block, some o => fe_block_num_element_faces block (elem_index - o)
    | _, _ => none

/-- The function `fe_mesh_get_element_faces`: the caller's buffer after the call. -/
def fe_mesh_get_element_faces (mesh : fe_mesh_t) (elem_index : Int)
    (elem_faces : List Int) : Option (List Int) :=
  match locate_block mesh elem_index with
  | none => none
  | some none => some elem_faces
  | some (some b) =>
    match mesh.blocks[b]?, mesh.block_elem_offsets[b]? with
    | some block, some o => fe_block_get_element_faces block (elem_index - o) elem_faces
    | _, _ => none

/-- The function `fe_mesh_num_face_nodes`: `-1` when the mesh has no face->node
offsets. -/
def fe_mesh_num_face_nodes (mesh : fe_mesh_t) (face_index : Int) : Option Int :=
  match mesh.face_node_offsets with
  | some offsets =>
    match read_int offsets face_index, read_int offsets (face_index + 1) with
    | some offset, some next => some (next - offset)
    | _, _ => none
  | none => some (-1)

/-- The function `fe_mesh_get_face_nodes`: the caller's buffer after the call.
Nothing is copied when the mesh has no face->node list. -/
def fe_mesh_get_face_nodes (mesh : fe_mesh_t) (face_index : Int)
    (face_nodes : List Int) : Option (List Int) :=
  match mesh.face_nodes with
  | none => some face_nodes
  | some nodes =>
    match mesh.face_node_offsets with
    | none => none
    | some offsets =>
      match read_int offsets face_index, read_int offsets (face_index + 1) with
      | some offset, some next =>
        match read_slice nodes offset (next - offset) with
        | some copied => copy_into face_nodes copied
        | none => none
      | _, _ => none

/-- The function `fe_mesh_create_element_set`: the mesh with the new set, whose
buffer is the handle returned to the caller. -/
def fe_mesh_create_element_set (mesh : fe_mesh_t) (name : String) (size : Nat) :
    Option fe_mesh_t :=
  match tagger_create_tag mesh.elem_sets name size with
  | none => none
  | some elem_sets => some { mesh with elem_sets := elem_sets }

/-- The function `fe_mesh_create_side_set`: a side set of `size` sides reserves
`2*size` entries. -/
def fe_mesh_create_side_set (mesh : fe_mesh_t) (name : String) (size : Nat) :
    Option fe_mesh_t :=
  match tagger_create_tag mesh.side_sets name (2 * size) with
  | none => none
  | some side_sets => some { mesh with side_sets := side_sets }

/-- Modelled from the spec: `mesh_tag` (`core/tagger.h` is not among the sources)
looks a tag up by name and yields its index sequence, `NULL` when there is none. -/
def mesh_tag (tagger : tagger_t) (name : String) : Option (List Int) :=
  match tagger.find? (fun p => p.1 = name) with
  | some p => some p.2
  | none => none

/-! ## Finite volume -> finite element translation -/

/-- The loop `num_elem_faces[i] = cell_face_offsets[c+1] - cell_face_offsets[c]`
over a list of cells `c`. -/
def cell_face_counts (cell_face_offsets : List Int) : List Int → Option (List Int)
  | [] => some []
  | c :: rest =>
    match read_int cell_face_offsets (c + 1), read_int cell_face_offsets c,
          cell_face_counts cell_face_offsets rest with
    | some hi, some lo, some counts => some ((hi - lo) :: counts)
    | _, _, _ => none

/-- The loop `for (f = 0; f < num_elem_faces[i]; ++f, ++offset)
elem_faces[offset+f] = cell_faces[cell_face_offsets[block_tag[i]+f]]` for one cell
of a tag, with `n` iterations left; it yields the advanced `offset` and the
buffer. -/
def fill_element_faces (fv_mesh : mesh_t) (cell : Int) :
    Nat → Int → Int → List Int → Option (Int × List Int)
  | 0, _, offset, elem_faces => some (offset, elem_faces)
  | n + 1, f, offset, elem_faces =>
    match read_int fv_mesh.cell_face_offsets (cell + f) with
    | none => none
    | some position =>
      match read_int fv_mesh.cell_faces position with
      | none => none
      | some face =>
        match write_int elem_faces (offset + f) face with
        | none => none
        | some elem_faces1 =>
          fill_element_faces fv_mesh cell n (f + 1) (offset + 1) elem_faces1

/-- The loop over the cells of a tag that fills `elem_faces`; the list pairs each
cell `block_tag[i]` with `num_elem_faces[i]`. -/
def fill_block_faces (fv_mesh : mesh_t) : List (Int × Int) → Int → List Int → Option (List Int)
  | [], _, elem_faces => some elem_faces
  | (cell, nef) :: rest, offset, elem_faces =>
    match fill_element_faces fv_mesh cell nef.toNat 0 offset elem_faces with
    | none => none
    | some (offset1, elem_faces1) => fill_block_faces fv_mesh rest offset1 elem_faces1

/-- One iteration of the block-by-block construction of `fe_mesh_from_mesh`, for the
tag `tag_name`.  The buffer `elem_faces` of `elem_faces_size` entries is written and
freed, never read: its entries are zero here before the writes, and no buffer of a
negative size is allocated.  The block is built from `num_elem_faces` and
`fv_mesh->cell_faces`. -/
def block_of_tag (fv_mesh : mesh_t) (fe_mesh : fe_mesh_t) (tag_name : String) :
    Option fe_mesh_t :=
  match mesh_tag fv_mesh.cell_tags tag_name with
  | none => none
  | some block_tag =>
    match cell_face_counts fv_mesh.cell_face_offsets block_tag with
    | none => none
    | some num_elem_faces =>
      let elem_faces_size := num_elem_faces.sum
      if elem_faces_size < 0 then none
      else
        match fill_block_faces fv_mesh (block_tag.zip num_elem_faces) 0
                (List.replicate elem_faces_size.toNat 0) with
        | none => none
        | some _ =>
          match polyhedral_fe_block_new (block_tag.length : Int) num_elem_faces
                  fv_mesh.cell_faces with
          | none => none
          | some block => fe_mesh_add_block fe_mesh tag_name block

/-- The loop `for (b = 0; b < element_block_tags->size; ++b)`. -/
def blocks_of_tags (fv_mesh : mesh_t) : List String → fe_mesh_t → Option fe_mesh_t
  | [], fe_mesh => some fe_mesh
  | tag_name :: rest, fe_mesh =>
    match block_of_tag fv_mesh fe_mesh tag_name with
    | none => none
    | some fe_mesh1 => blocks_of_tags fv_mesh rest fe_mesh1

/-- The branch "one honking block" of `fe_mesh_from_mesh`. -/
def single_block (fv_mesh : mesh_t) (fe_mesh : fe_mesh_t) : Option fe_mesh_t :=
  let num_elem := fv_mesh.num_cells
  match cell_face_counts fv_mesh.cell_face_offsets
          ((List.range num_elem.toNat).map Int.ofNat) with
  | none => none
  | some num_elem_faces =>
    match polyhedral_fe_block_new num_elem num_elem_faces fv_mesh.cell_faces with
    | none => none
    | some block => fe_mesh_add_block fe_mesh "block_1" block

/-- The function `fe_mesh_from_mesh`; `element_block_tags` is `none` for `NULL`. -/
def fe_mesh_from_mesh (fv_mesh : mesh_t) (element_block_tags : Option (List String)) :
    Option fe_mesh_t :=
  match fe_mesh_new fv_mesh.comm fv_mesh.num_nodes with
  | none => none
  | some fe_mesh =>
    let built : Option fe_mesh_t :=
      match element_block_tags with
      | some tags =>
        if 1 < tags.length then blocks_of_tags fv_mesh tags fe_mesh
        else single_block fv_mesh fe_mesh
      | none => single_block fv_mesh fe_mesh
    match built with
    | none => none
    | some fe_mesh1 =>
      if fv_mesh.nodes.length < fv_mesh.num_nodes.toNat then none
      else some { fe_mesh1 with node_coords := fv_mesh.nodes.take fv_mesh.num_nodes.toNat }

/-! ## Further accessors and the clones -/

/-- The function `fe_mesh_num_blocks`. -/
def fe_mesh_num_blocks (mesh : fe_mesh_t) : Int := (mesh.blocks.length : Int)

/-- The function `fe_mesh_num_element_nodes`: the two assertions on `elem_index`,
then the block search, then the block's accessor. -/
def fe_mesh_num_element_nodes (mesh : fe_mesh_t) (elem_index : Int) : Option Int :=
  if elem_index < 0 then none
  else if fe_mesh_num_elements mesh ≤ elem_index then none
  else
    match locate_block mesh elem_index with
    | none => none
    | some none => some (-1)
    | some (some b) =>
      match mesh.blocks[b]?, mesh.block_elem_offsets[b]? with
      | some block, some o => fe_block_num_element_nodes block (elem_index - o)
      | _, _ => none

/-- The function `fe_mesh_get_element_nodes`: the caller's buffer after the call. -/
def fe_mesh_get_element_nodes (mesh : fe_mesh_t) (elem_index : Int)
    (elem_nodes : List Int) : Option (List Int) :=
  match locate_block mesh elem_index with
  | none => none
  | some none => some elem_nodes
  | some (some b) =>
    match mesh.blocks[b]?, mesh.block_elem_offsets[b]? with
    | some block, some o => fe_block_get_element_nodes block (elem_index - o) elem_nodes
    | _, _ => none

/-- The function `fe_mesh_num_face_edges`: `-1` when the mesh has no face->edge
offsets. -/
def fe_mesh_num_face_edges (mesh : fe_mesh_t) (face_index : Int) : Option Int :=
  match mesh.face_edge_offsets with
  | some offsets =>
    match read_int offsets face_index, read_int offsets (face_index + 1) with
    | some offset, some next => some (next - offset)
    | _, _ => none
  | none => some (-1)

/-- The function `fe_mesh_num_edges`. -/
def fe_mesh_num_edges (mesh : fe_mesh_t) : Int := mesh.num_edges

/-- The function `fe_mesh_num_edge_nodes`: `-1` when the mesh has no edge->node
offsets. -/
def fe_mesh_num_edge_nodes (mesh : fe_mesh_t) (edge_index : Int) : Option Int :=
  match mesh.edge_node_offsets with
  | some offsets =>
    match read_int offsets edge_index, read_int offsets (edge_index + 1) with
    | some offset, some next => some (next - offset)
    | _, _ => none
  | none => some (-1)

/-- The function `fe_block_clone`.  The copy is allocated with `polymec_malloc` and
only `num_elem` and `elem_type` are assigned: the four connectivity pointers keep
what the allocated memory held, here the fields of `fresh`. -/
def fe_block_clone (fresh : fe_block_t) (block : fe_block_t) : fe_block_t :=
  { fresh with num_elem := block.num_elem, elem_type := block.elem_type }

/-- The function `fe_mesh_clone`.  The copy is allocated with `polymec_malloc`; the
fields that are not assigned keep what the allocated memory held, here the fields of
`fresh`.  The block clones and the names are stored at `data[i]` of arrays that
`ptr_array_new` and `string_array_new` returned, without appending, so the size of
both arrays stays 0; `capacity` is the room of a new array (`core/array.h` is not
among the sources), and a store beyond it stops the run.  The offsets are appended
one by one and the positions are copied. -/
def fe_mesh_clone (capacity : Nat) (fresh : fe_mesh_t) (mesh : fe_mesh_t) :
    Option fe_mesh_t :=
  if capacity < mesh.blocks.length ∨ capacity < mesh.block_names.length then none
  else if mesh.node_coords.length < mesh.num_nodes.toNat then none
  else
    some { fresh with comm := mesh.comm, num_nodes := mesh.num_nodes,
                      blocks := [], block_names := [],
                      block_elem_offsets := mesh.block_elem_offsets,
                      node_coords := mesh.node_coords.take mesh.num_nodes.toNat }

/-! ## The other set creators and the element types of the importer -/

/-- The function `fe_mesh_create_face_set`. -/
def fe_mesh_create_face_set (mesh : fe_mesh_t) (name : String) (size : Nat) :
    Option fe_mesh_t :=
  match tagger_create_tag mesh.face_sets name size with
  | none => none
  | some face_sets => some { mesh with face_sets := face_sets }

/-- The function `fe_mesh_create_edge_set`. -/
def fe_mesh_create_edge_set (mesh : fe_mesh_t) (name : String) (size : Nat) :
    Option fe_mesh_t :=
  match tagger_create_tag mesh.edge_sets name size with
  | none => none
  | some edge_sets => some { mesh with edge_sets := edge_sets }

/-- The function `fe_mesh_create_node_set`. -/
def fe_mesh_create_node_set (mesh : fe_mesh_t) (name : String) (size : Nat) :
    Option fe_mesh_t :=
  match tagger_create_tag mesh.node_sets name size with
  | none => none
  | some node_sets => some { mesh with node_sets := node_sets }

/-- Modelled from the spec: the type `fe_element_t` that `get_element_type` returns
is not declared among the sources.  Its values here are the enumerators of
`fe_mesh_element_t` in `fe_mesh.h` together with the three names that
`get_element_type` returns and that are not among them (`FE_POLYHEDRAL`,
`FE_HEXAHEDRON_5`, `FE_HEXAHEDRON_13`). -/
inductive fe_element_t where
  | FE_INVALID
  | FE_TETRAHEDRON_4
  | FE_TETRAHEDRON_8
  | FE_TETRAHEDRON_10
  | FE_TETRAHEDRON_14
  | FE_PYRAMID_5
  | FE_PYRAMID_13
  | FE_WEDGE_6
  | FE_WEDGE_15
  | FE_WEDGE_16
  | FE_HEXAHEDRON_8
  | FE_HEXAHEDRON_9
  | FE_HEXAHEDRON_20
  | FE_HEXAHEDRON_27
  | FE_POLYHEDRON
  | FE_POLYHEDRAL
  | FE_HEXAHEDRON_5
  | FE_HEXAHEDRON_13
  deriving DecidableEq, Repr

/-- Modelled from the spec: `string_ncasecmp` (`core/polymec.h` is not among the
sources) compares at most the first `n` characters of two strings without regard to
case; it is 0 when they agree, and only that is used. -/
def string_ncasecmp (s t : List Char) (n : Nat) : Int :=
  if (s.take n).map Char.toLower = (t.take n).map Char.toLower then 0 else 1

/-- The function `get_element_type` of `exodus_file.c`; `none` where an `ASSERT`
stops it. -/
def get_element_type (elem_type_id : List Char) (num_nodes_per_elem : Int) :
    Option fe_element_t :=
  if string_ncasecmp elem_type_id "nfaced".toList 6 = 0 then
    if num_nodes_per_elem = 0 then some fe_element_t.FE_POLYHEDRAL else none
  else if string_ncasecmp elem_type_id "tetra".toList 5 = 0 then
    if num_nodes_per_elem = 4 then some fe_element_t.FE_TETRAHEDRON_4
    else if num_nodes_per_elem = 8 then some fe_element_t.FE_TETRAHEDRON_8
    else if num_nodes_per_elem = 10 then some fe_element_t.FE_TETRAHEDRON_10
    else if num_nodes_per_elem = 14 then some fe_element_t.FE_TETRAHEDRON_14
    else none
  else if string_ncasecmp elem_type_id "pyramid".toList 7 = 0 then
    if num_nodes_per_elem = 5 then some fe_element_t.FE_HEXAHEDRON_5
    else if num_nodes_per_elem = 13 then some fe_element_t.FE_HEXAHEDRON_13
    else none
  else if string_ncasecmp elem_type_id "wedge".toList 5 = 0 then
    if num_nodes_per_elem = 6 then some fe_element_t.FE_WEDGE_6
    else if num_nodes_per_elem = 15 then some fe_element_t.FE_WEDGE_15
    else if num_nodes_per_elem = 16 then some fe_element_t.FE_WEDGE_15
    else none
  else if string_ncasecmp elem_type_id "hex".toList 3 = 0 then
    if num_nodes_per_elem = 8 then some fe_element_t.FE_HEXAHEDRON_8
    else if num_nodes_per_elem = 9 then some fe_element_t.FE_HEXAHEDRON_9
    else if num_nodes_per_elem = 20 then some fe_element_t.FE_HEXAHEDRON_20
    else if num_nodes_per_elem = 27 then some fe_element_t.FE_HEXAHEDRON_27
    else none
  else some fe_element_t.FE_INVALID

/-! ## Notions used to state and prove the properties -/

/-- The running sums `a, a + l₀, a + l₀ + l₁, ...`: the offset table of consecutive
segments of lengths `l`. -/
def psums (a : Int) : List Nat → List Int
  | [] => [a]
  | n :: ns => a :: psums (a + n) ns

/-- The slice `data[offsets[i] .. offsets[i+1])`, as the accessors read it. -/
def segment (offsets data : List Int) (i : Nat) : Option (List Int) :=
  match read_int offsets i, read_int offsets (i + 1) with
  | some lo, some hi => read_slice data lo (hi - lo)
  | _, _ => none

/-- Position of the first entry of `l` equal to `k`. -/
def key_index (k : List Int) : List (List Int) → Nat
  | [] => 0
  | x :: rest => if x = k then 0 else key_index k rest + 1

/-- The map whose entries are the keys `ks` with the values `start, start+1, ...`. -/
def map_of_keys (start : Nat) : List (List Int) → int_tuple_int_unordered_map_t
  | [] => []
  | k :: ks => (k, (start : Int)) :: map_of_keys (start + 1) ks

/-- The deduplication state in which the faces `fl` have been recorded, in this
order, under the ids `0, 1, ...`. -/
def state_of (fl : List (List Int)) : dedup_state :=
  { node_face_map := map_of_keys 0 (fl.map int_qsort),
    face_node_offsets := psums 0 (fl.map List.length),
    face_nodes := fl.flatten }

/-- One step of the reference run: the id given to the face `f` when the faces
`acc.2` are on record, appended to the ids `acc.1`. -/
def dedup_step (acc : List Nat × List (List Int)) (f : List Int) :
    List Nat × List (List Int) :=
  if int_qsort f ∈ acc.2.map int_qsort then
    (acc.1 ++ [key_index (int_qsort f) (acc.2.map int_qsort)], acc.2)
  else (acc.1 ++ [acc.2.length], acc.2 ++ [f])

/-- The reference run over the faces `F`, starting with the faces `fl` on record. -/
def dedup_from (fl : List (List Int)) (F : List (List Int)) : List Nat × List (List Int) :=
  F.foldl dedup_step ([], fl)

/-- The reference run from the empty record. -/
def dedup_run (F : List (List Int)) : List Nat × List (List Int) := dedup_from [] F

/-- What holds of the ids `I` and the recorded faces `FL` after the reference run
over the faces `F`. -/
structure dedup_inv (F : List (List Int)) (I : List Nat) (FL : List (List Int)) : Prop where
  len : I.length = F.length
  nodup : (FL.map int_qsort).Nodup
  keys : ∀ k, k ∈ FL.map int_qsort ↔ k ∈ F.map int_qsort
  key_of : ∀ (i a : Nat) (f : List Int), I[i]? = some a → F[i]? = some f →
    (FL.map int_qsort)[a]? = some (int_qsort f)
  onto : ∀ b : Nat, b < FL.length → b ∈ I
  below : ∀ (i a : Nat), I[i]? = some a → ∀ b : Nat, b < a → b ∈ I.take i
  first : ∀ (i a : Nat) (f : List Int), I[i]? = some a → F[i]? = some f →
    a ∉ I.take i → FL[a]? = some f

/-- The node lists of the template faces of one element, in the order in which
`get_cell_faces` passes them to `map_nodes_to_face` (each row cut to the node count
it is passed with); empty where `get_cell_faces` does not run. -/
def template_faces (elem_type : fe_mesh_element_t) (elem_nodes : List Int) :
    List (List Int) :=
  match face_node_indices elem_type elem_nodes with
  | some rows => rows.map (fun r => r.1.take r.2)
  | none => []

/-- The node list of element `i` of a block, read from the block's node table. -/
def block_element_nodes (block : fe_block_t) (i : Nat) : List Int :=
  match block.elem_node_offsets, block.elem_nodes with
  | some offsets, some nodes => (segment offsets nodes i).getD []
  | _, _ => []

/-- The template faces of the elements of a block, one list per element. -/
def block_template_faces (block : fe_block_t) : List (List (List Int)) :=
  (List.range block.num_elem.toNat).map
    (fun i => template_faces block.elem_type (block_element_nodes block i))

/-- The template faces of the elements of a mesh, one list per element, in
block-insertion order and then element order. -/
def mesh_cell_template_faces (fe_mesh : fe_mesh_t) : List (List (List Int)) :=
  (fe_mesh.blocks.map block_template_faces).flatten

/-- All element-face incidences of a mesh: the template faces in block-insertion
order, then element order, then template position. -/
def mesh_template_faces (fe_mesh : fe_mesh_t) : List (List Int) :=
  (mesh_cell_template_faces fe_mesh).flatten

/-- The number of significant nodes of an element that `get_cell_faces` reads. -/
def significant_nodes : fe_mesh_element_t → Int
  | FE_TETRAHEDRON => 4
  | FE_PYRAMID => 5
  | FE_WEDGE => 6
  | FE_HEXAHEDRON => 8
  | _ => 0

/-- A block of tetrahedra, pyramids, wedges or hexahedra as `fe_block_new` builds
it, with at least the significant nodes of its type per element. -/
def nonpolyhedral_block (block : fe_block_t) : Prop :=
  ∃ (num_elem num_elem_nodes : Int) (elem_node_indices : List Int),
    fe_block_new num_elem block.elem_type num_elem_nodes elem_node_indices = some block ∧
    block.elem_type ≠ FE_INVALID ∧ block.elem_type ≠ FE_POLYHEDRON ∧
    significant_nodes block.elem_type ≤ num_elem_nodes

/-- An FE mesh made only of non-polyhedral blocks and carrying no explicit faces, in
a state that `fe_mesh_new`, `fe_mesh_add_block` and the set creators lead to: the
last entry of the offset table is the total element count, there is no explicit
face or edge connectivity, one position per node, and set names are unique within
each collection. -/
structure derivable_fe_mesh (fe_mesh : fe_mesh_t) : Prop where
  blocks : ∀ block ∈ fe_mesh.blocks, nonpolyhedral_block block
  elements : fe_mesh_num_elements fe_mesh = (fe_mesh.blocks.map fe_block_num_elements).sum
  no_faces : fe_mesh.num_faces = 0
  no_edges : fe_mesh.face_edges = none
  positions : fe_mesh.node_coords.length = fe_mesh.num_nodes.toNat
  elem_set_names : (fe_mesh.elem_sets.map Prod.fst).Nodup
  face_set_names : (fe_mesh.face_sets.map Prod.fst).Nodup
  edge_set_names : (fe_mesh.edge_sets.map Prod.fst).Nodup
  node_set_names : (fe_mesh.node_sets.map Prod.fst).Nodup

/-- The face list of cell `c` in a cell->face table: the slice
`cell_faces[cell_face_offsets[c] .. cell_face_offsets[c+1])`, empty when the slice
is empty or not inside the table. -/
def cell_face_list (cell_face_offsets cell_faces : List Int) (c : Nat) : List Int :=
  (segment cell_face_offsets cell_faces c).getD []

/-- The face->cell loop body run over a list of (face, cell) incidences. -/
def assign_incidences : List (Int × Int) → List Int → Option (List Int)
  | [], face_cells => some face_cells
  | (face, c) :: rest, face_cells =>
    match assign_face_cell face_cells face c with
    | none => none
    | some face_cells1 => assign_incidences rest face_cells1

/-- The (face, cell) incidences of the cells `c, c+1, ..., c+n-1`, in the order in
which the face->cell loop scans them. -/
def incidences (cell_face_offsets cell_faces : List Int) (c n : Nat) : List (Int × Int) :=
  ((List.range' c n).map
    (fun c => (cell_face_list cell_face_offsets cell_faces c).map (fun f => (f, (c : Int))))).flatten

/-- The cells of the incidences of face `f` among the cells `0, ..., n-1`, in scan
order: cell `c` is listed once for each occurrence of `f` in its face list. -/
def incident_cells (cell_face_offsets cell_faces : List Int) (n : Nat) (f : Int) : List Int :=
  ((incidences cell_face_offsets cell_faces 0 n).filter (fun p => p.1 = f)).map Prod.snd

/-- The two slots of face `f` in a face->cell table. -/
def face_slots (face_cells : List Int) (f : Int) : Int × Int :=
  (face_cells.getD (2 * f).toNat 0, face_cells.getD (2 * f + 1).toNat 0)

/-- What the face->cell loop body does to the two slots of the face it is run on. -/
def slot_step (s : Int × Int) (c : Int) : Int × Int :=
  if s.1 = -1 then (c, s.2) else (s.1, c)

/-- The FV mesh that the face-deriving branch of `mesh_from_fe_mesh` returns for a
mesh of non-polyhedral blocks, given the face->cell table `face_cells` that its
face->cell loop produced: the cell->face table holds the ids of the reference run
over the template faces, and the face->node table the faces it recorded. -/
def derived_mesh (fe_mesh : fe_mesh_t) (face_cells : List Int) : mesh_t :=
  { comm := fe_mesh.comm,
    num_cells := fe_mesh_num_elements fe_mesh,
    num_ghost_cells := 0,
    num_faces := ((dedup_run (mesh_template_faces fe_mesh)).2.length : Int),
    num_nodes := fe_mesh.num_nodes,
    cell_face_offsets := psums 0 ((mesh_cell_template_faces fe_mesh).map List.length),
    cell_faces := (dedup_run (mesh_template_faces fe_mesh)).1.map Int.ofNat,
    face_node_offsets := psums 0 ((dedup_run (mesh_template_faces fe_mesh)).2.map List.length),
    face_nodes := (dedup_run (mesh_template_faces fe_mesh)).2.flatten,
    face_cells := face_cells,
    face_edge_offsets :=
      List.replicate (((dedup_run (mesh_template_faces fe_mesh)).2.length : Int) + 1).toNat 0,
    face_edges := none,
    nodes := fe_mesh.node_coords,
    cell_tags := fe_mesh.elem_sets,
    face_tags := fe_mesh.face_sets,
    edge_tags := fe_mesh.edge_sets,
    node_tags := fe_mesh.node_sets }

/-- The face list of cell `c` of an FV mesh. -/
def mesh_cell_faces (mesh : mesh_t) (c : Nat) : List Int :=
  cell_face_list mesh.cell_face_offsets mesh.cell_faces c

/-- The node list of face `f` of an FV mesh: the slice
`face_nodes[face_node_offsets[f] .. face_node_offsets[f+1])`. -/
def mesh_face_nodes (mesh : mesh_t) (f : Nat) : Option (List Int) :=
  segment mesh.face_node_offsets mesh.face_nodes f

/-- A block of two tetrahedra, `(0,1,2,3)` and `(4,2,1,3)`, which share the face on
the nodes 1, 2, 3. -/
def two_tetrahedra_block : fe_block_t :=
  { num_elem := 2, elem_type := FE_TETRAHEDRON,
    elem_face_offsets := none, elem_faces := none,
    elem_node_offsets := some [0, 4, 8], elem_nodes := some [0, 1, 2, 3, 4, 2, 1, 3] }

/-- The mesh on 5 nodes that holds the block `two_tetrahedra_block`. -/
def two_tetrahedra_mesh : fe_mesh_t :=
  { comm := 0, blocks := [two_tetrahedra_block], block_names := ["block_1"],
    block_elem_offsets := [0, 2], num_nodes := 5,
    node_coords := List.replicate 5 ⟨0, 0, 0⟩,
    num_faces := 0, face_edge_offsets := none, face_edges := none,
    face_node_offsets := none, face_nodes := none,
    num_edges := 0, edge_node_offsets := none, edge_nodes := none,
    elem_sets := [], face_sets := [], edge_sets := [], node_sets := [], side_sets := [] }

/-- The mesh that `fe_mesh_new` and one call of `fe_mesh_add_block` build from a
block without face connectivity, on `num_nodes` nodes. -/
def mesh_of_block (num_nodes : Int) (block : fe_block_t) : fe_mesh_t :=
  { comm := 0, blocks := [block], block_names := ["block_1"],
    block_elem_offsets := [0, block.num_elem], num_nodes := num_nodes,
    node_coords := List.replicate num_nodes.toNat ⟨0, 0, 0⟩,
    num_faces := 0, face_edge_offsets := none, face_edges := none,
    face_node_offsets := none, face_nodes := none,
    num_edges := 0, edge_node_offsets := none, edge_nodes := none,
    elem_sets := [], face_sets := [], edge_sets := [], node_sets := [], side_sets := [] }

/-- A block of one tetrahedron on the nodes 0, 1, 2, 3. -/
def one_tetrahedron_block : fe_block_t :=
  { num_elem := 1, elem_type := FE_TETRAHEDRON,
    elem_face_offsets := none, elem_faces := none,
    elem_node_offsets := some [0, 4], elem_nodes := some [0, 1, 2, 3] }

/-- A block of one hexahedron on the nodes 0, ..., 7. -/
def one_hexahedron_block : fe_block_t :=
  { num_elem := 1, elem_type := FE_HEXAHEDRON,
    elem_face_offsets := none, elem_faces := none,
    elem_node_offsets := some [0, 8], elem_nodes := some [0, 1, 2, 3, 4, 5, 6, 7] }

/-- A block of three tetrahedra, `(0,1,2,3)`, `(4,2,1,3)` and `(5,1,2,3)`, all three
on the face with the nodes 1, 2, 3. -/
def three_tetrahedra_block : fe_block_t :=
  { num_elem := 3, elem_type := FE_TETRAHEDRON,
    elem_face_offsets := none, elem_faces := none,
    elem_node_offsets := some [0, 4, 8, 12],
    elem_nodes := some [0, 1, 2, 3, 4, 2, 1, 3, 5, 1, 2, 3] }

/-- The FV mesh that `mesh_from_fe_mesh` returns for `two_tetrahedra_mesh`. -/
def two_tetrahedra_translation : mesh_t :=
  { comm := 0, num_cells := 2, num_ghost_cells := 0, num_faces := 7, num_nodes := 5,
    cell_face_offsets := [0, 4, 8],
    cell_faces := [0, 1, 2, 3, 4, 5, 2, 6],
    face_node_offsets := [0, 3, 6, 9, 12, 15, 18, 21],
    face_nodes := [0, 1, 2, 0, 1, 3, 1, 2, 3, 2, 0, 3, 4, 2, 1, 4, 2, 3, 1, 4, 3],
    face_cells := [0, -1, 0, -1, 0, 1, 0, -1, 1, -1, 1, -1, 1, -1],
    face_edge_offsets := [0, 0, 0, 0, 0, 0, 0, 0],
    face_edges := none,
    nodes := List.replicate 5 ⟨0, 0, 0⟩,
    cell_tags := [], face_tags := [], edge_tags := [], node_tags := [] }

/-- The FV mesh that `mesh_from_fe_mesh` returns for the mesh holding
`three_tetrahedra_block`: face 2 lies in the face lists of the cells 0, 1 and 2, and
its slots hold the cells 0 and 2. -/
def three_tetrahedra_translation : mesh_t :=
  { comm := 0, num_cells := 3, num_ghost_cells := 0, num_faces := 10, num_nodes := 6,
    cell_face_offsets := [0, 4, 8, 12],
    cell_faces := [0, 1, 2, 3, 4, 5, 2, 6, 7, 8, 2, 9],
    face_node_offsets := [0, 3, 6, 9, 12, 15, 18, 21, 24, 27, 30],
    face_nodes := [0, 1, 2, 0, 1, 3, 1, 2, 3, 2, 0, 3, 4, 2, 1, 4, 2, 3, 1, 4, 3,
                   5, 1, 2, 5, 1, 3, 2, 5, 3],
    face_cells := [0, -1, 0, -1, 0, 2, 0, -1, 1, -1, 1, -1, 1, -1, 2, -1, 2, -1, 2, -1],
    face_edge_offsets := [0, 0, 0, 0, 0, 0, 0, 0, 0, 0, 0],
    face_edges := none,
    nodes := List.replicate 6 ⟨0, 0, 0⟩,
    cell_tags := [], face_tags := [], edge_tags := [], node_tags := [] }

/-- Writing `set` through the handle that `fe_mesh_create_element_set` returned
last. -/
def fill_element_set (mesh : fe_mesh_t) (set : List Int) : Option fe_mesh_t :=
  match fill_last_tag mesh.elem_sets set with
  | none => none
  | some elem_sets => some { mesh with elem_sets := elem_sets }

/-- Writing `set` through the handle that `fe_mesh_create_side_set` returned last. -/
def fill_side_set (mesh : fe_mesh_t) (set : List Int) : Option fe_mesh_t :=
  match fill_last_tag mesh.side_sets set with
  | none => none
  | some side_sets => some { mesh with side_sets := side_sets }

/-- A mesh on four nodes with one polyhedral block holding one element with the
faces 0, 1, 2, 3, and the face->node table of a tetrahedron on the nodes 0, 1, 2, 3. -/
def one_polyhedron_mesh : fe_mesh_t :=
  { comm := 0,
    blocks := [{ num_elem := 1, elem_type := FE_POLYHEDRON,
                 elem_face_offsets := some [0, 4], elem_faces := some [0, 1, 2, 3],
                 elem_node_offsets := none, elem_nodes := none }],
    block_names := ["block_1"], block_elem_offsets := [0, 1], num_nodes := 4,
    node_coords := List.replicate 4 ⟨0, 0, 0⟩,
    num_faces := 4, face_edge_offsets := none, face_edges := none,
    face_node_offsets := some [0, 3, 6, 9, 12],
    face_nodes := some [0, 1, 2, 0, 1, 3, 1, 2, 3, 2, 0, 3],
    num_edges := 0, edge_node_offsets := none, edge_nodes := none,
    elem_sets := [], face_sets := [], edge_sets := [], node_sets := [], side_sets := [] }

/-- The mesh of one tetrahedron with the side set `"side_1"`, one side: element 0,
side 2. -/
def side_set_mesh : fe_mesh_t :=
  { mesh_of_block 4 one_tetrahedron_block with side_sets := [("side_1", [0, 2])] }

/-- The two tetrahedra `(0,1,2,3)` and `(4,2,1,3)` with the element sets `"left"`,
holding element 0, and `"right"`, holding element 1. -/
def two_sets_mesh : fe_mesh_t :=
  { two_tetrahedra_mesh with elem_sets := [("left", [0]), ("right", [1])] }

/-- The number of faces of cell `c` of an FV mesh:
`cell_face_offsets[c+1] - cell_face_offsets[c]`. -/
def mesh_cell_num_faces (mesh : mesh_t) (c : Nat) : Option Int :=
  match read_int mesh.cell_face_offsets c, read_int mesh.cell_face_offsets (c + 1) with
  | some lo, some hi => some (hi - lo)
  | _, _ => none

/-- An FV mesh with the tables that `fe_mesh_from_mesh` reads: at least four nodes
with a position each, at least one cell, cell `c` with `lens[c]` faces, two or more,
the offsets being the running sums of `lens` and `cell_faces` holding as many entries
as the last offset says. -/
structure sound_fv_mesh (fv : mesh_t) (lens : List Nat) : Prop where
  nodes : 4 ≤ fv.num_nodes
  positions : fv.nodes.length = fv.num_nodes.toNat
  cells : fv.num_cells = (lens.length : Int)
  some_cell : lens ≠ []
  faces_per_cell : ∀ n ∈ lens, 2 ≤ n
  offsets : fv.cell_face_offsets = psums 0 lens
  faces : fv.cell_faces.length = lens.sum

/-- The FE mesh with the single polyhedral block `"block_1"` that holds every cell
of an FV mesh with its face list, and with the node positions of the FV mesh. -/
def one_block_mesh (fv : mesh_t) : fe_mesh_t :=
  { comm := fv.comm,
    blocks := [{ num_elem := fv.num_cells, elem_type := FE_POLYHEDRON,
                 elem_face_offsets := some fv.cell_face_offsets,
                 elem_faces := some fv.cell_faces,
                 elem_node_offsets := none, elem_nodes := none }],
    block_names := ["block_1"], block_elem_offsets := [0, 0 + fv.num_cells],
    num_nodes := fv.num_nodes, node_coords := fv.nodes,
    num_faces := int_wrap (fv.cell_faces.foldl max (0 - 1) + 1),
    face_edge_offsets := none, face_edges := none,
    face_node_offsets := none, face_nodes := none,
    num_edges := 0, edge_node_offsets := none, edge_nodes := none,
    elem_sets := [], face_sets := [], edge_sets := [], node_sets := [], side_sets := [] }

/-- The FV mesh that `mesh_from_fe_mesh` returns for `two_sets_mesh`: cell 0 is in
the tag `"left"` and cell 1 in the tag `"right"`. -/
def two_sets_translation : mesh_t :=
  { two_tetrahedra_translation with cell_tags := [("left", [0]), ("right", [1])] }

/-- The mesh of one tetrahedron with the positions of the unit tetrahedron written
to its nodes. -/
def unit_tetrahedron_mesh : fe_mesh_t :=
  { mesh_of_block 4 one_tetrahedron_block with
    node_coords := [⟨0, 0, 0⟩, ⟨1, 0, 0⟩, ⟨0, 1, 0⟩, ⟨0, 0, 1⟩] }

/-- A sequence of `fe_mesh_add_block` calls, one per named block of the list. -/
def add_blocks : fe_mesh_t → List (String × fe_block_t) → Option fe_mesh_t
  | mesh, [] => some mesh
  | mesh, (name, block) :: rest =>
    match fe_mesh_add_block mesh name block with
    | none => none
    | some mesh1 => add_blocks mesh1 rest

/-- A block that one of the two constructors returned. -/
def constructed_block (block : fe_block_t) : Prop :=
  (∃ (num_elem : Int) (type : fe_mesh_element_t) (num_elem_nodes : Int)
      (elem_node_indices : List Int),
      fe_block_new num_elem type num_elem_nodes elem_node_indices = some block) ∨
  (∃ (num_elem : Int) (num_elem_faces elem_face_indices : List Int),
      polyhedral_fe_block_new num_elem num_elem_faces elem_face_indices = some block)

/-- The running sums `a, a + x₀, a + x₀ + x₁, ...` of a list of integers. -/
def running_sums (a : Int) : List Int → List Int
  | [] => [a]
  | x :: xs => a :: running_sums (a + x) xs

/-- A second block of two tetrahedra, `(5,1,2,3)` and `(6,2,1,3)`. -/
def second_tetrahedra_block : fe_block_t :=
  { num_elem := 2, elem_type := FE_TETRAHEDRON,
    elem_face_offsets := none, elem_faces := none,
    elem_node_offsets := some [0, 4, 8], elem_nodes := some [5, 1, 2, 3, 6, 2, 1, 3] }

/-- A mesh on seven nodes with the two blocks `two_tetrahedra_block` and
`second_tetrahedra_block`: the elements 0, 1 are in the first block and the elements
2, 3 in the second. -/
def two_blocks_mesh : fe_mesh_t :=
  { comm := 0, blocks := [two_tetrahedra_block, second_tetrahedra_block],
    block_names := ["block_1", "block_2"],
    block_elem_offsets := [0, 2, 4], num_nodes := 7,
    node_coords := List.replicate 7 ⟨0, 0, 0⟩,
    num_faces := 0, face_edge_offsets := none, face_edges := none,
    face_node_offsets := none, face_nodes := none,
    num_edges := 0, edge_node_offsets := none, edge_nodes := none,
    elem_sets := [], face_sets := [], edge_sets := [], node_sets := [], side_sets := [] }

/-- Allocated memory in which every pointer reads as `NULL` and every count as 0. -/
def zeroed_block : fe_block_t :=
  { num_elem := 0, elem_type := FE_INVALID, elem_face_offsets := none, elem_faces := none,
    elem_node_offsets := none, elem_nodes := none }

/-- Allocated memory in which every pointer reads as `NULL`, every count as 0 and
every collection as empty. -/
def zeroed_mesh : fe_mesh_t :=
  { comm := 0, blocks := [], block_names := [], block_elem_offsets := [], num_nodes := 0,
    node_coords := [],
    num_faces := 0, face_edge_offsets := none, face_edges := none,
    face_node_offsets := none, face_nodes := none,
    num_edges := 0, edge_node_offsets := none, edge_nodes := none,
    elem_sets := [], face_sets := [], edge_sets := [], node_sets := [], side_sets := [] }

/-- The state of the deduplication after the calls `map_nodes_to_face(map, nodes,
num_nodes, ...)` for the rows `(nodes, num_nodes)` of a list, from the empty map. -/
def run_calls (calls : List (List Int × Nat)) : dedup_state :=
  calls.foldl (fun st r => (map_nodes_to_face st r.1 r.2).2) dedup_init

/-- The undirected edges of a face: the pairs of cyclically consecutive nodes. -/
def face_boundary (face : List Int) : List (Sym2 Int) :=
  (face.zip (face.rotate 1)).map Sym2.mk

/-- The traversal `pos = 0; while (fe_mesh_next_block(mesh, &pos, &name, &block))`:
the names and blocks it yields, with at most `fuel` calls from the cursor `pos`. -/
def traverse_blocks (mesh : fe_mesh_t) : Nat → Nat → List (String × fe_block_t)
  | 0, _ => []
  | fuel + 1, pos =>
    match fe_mesh_next_block mesh pos with
    | none => []
    | some (pos1, name, block) => (name, block) :: traverse_blocks mesh fuel pos1

/-- A list of faces is a closed surface with `num_edges` edges: the faces are pairwise
distinct as node sets, every edge of a face lies on exactly two faces of the list, and
the faces have `num_edges` edges in all. -/
def closed_surface (faces : List (List Int)) (num_edges : Nat) : Prop :=
  (faces.map List.toFinset).Nodup ∧
  (∀ f ∈ faces, ∀ e ∈ face_boundary f,
    (faces.filter (fun g => decide (e ∈ face_boundary g))).length = 2) ∧
  (faces.map face_boundary).flatten.toFinset.card = num_edges

/-! ## Lemmas on lists and buffers -/

theorem int_wrap_neg_one : int_wrap (0 - 1) = 0 - 1 := by decide

theorem getElem?_snoc_cases {α : Type} (l : List α) (x a : α) (i : Nat)
    (h : (l ++ [x])[i]? = some a) :
    (i < l.length ∧ l[i]? = some a) ∨ (i = l.length ∧ a = x) := by
  rcases Nat.lt_or_ge i l.length with hlt | hge
  · left
    rw [List.getElem?_append_left hlt] at h
    exact ⟨hlt, h⟩
  · right
    rw [List.getElem?_append_right hge] at h
    rcases Nat.eq_zero_or_pos (i - l.length) with h0 | hpos
    · rw [h0] at h
      simp at h
      exact ⟨by omega, h.symm⟩
    · have : ([x] : List α)[i - l.length]? = none := by
        apply List.getElem?_eq_none; simp; omega
      rw [this] at h
      simp at h

theorem getElem?_lt_of_some {α : Type} (l : List α) (i : Nat) (a : α)
    (h : l[i]? = some a) : i < l.length := by
  rcases Nat.lt_or_ge i l.length with h1 | h1
  · exact h1
  · rw [List.getElem?_eq_none h1] at h; simp at h

theorem psums_length (l : List Nat) : ∀ a, (psums a l).length = l.length + 1 := by
  induction l with
  | nil => intro a; rfl
  | cons n ns ih => intro a; simp [psums, ih]

theorem psums_getLastD (l : List Nat) : ∀ a d, (psums a l).getLastD d = a + (l.sum : Nat) := by
  induction l with
  | nil => intro a d; simp [psums]
  | cons n ns ih =>
    intro a d
    simp only [psums, List.getLastD_cons, List.sum_cons]
    rw [ih (a + n) a]; push_cast; ring

theorem psums_snoc (l : List Nat) (n : Nat) :
    ∀ a, psums a (l ++ [n]) = psums a l ++ [(psums a l).getLastD 0 + n] := by
  induction l with
  | nil => intro a; simp [psums]
  | cons m ms ih =>
    intro a
    show psums a (m :: (ms ++ [n])) = _
    simp only [psums]
    rw [ih (a + m)]
    simp only [List.cons_append, List.getLastD_cons]
    rw [psums_getLastD, psums_getLastD]

theorem psums_getElem? (l : List Nat) :
    ∀ (a : Int) (i : Nat), i ≤ l.length → (psums a l)[i]? = some (a + ((l.take i).sum : Nat)) := by
  induction l with
  | nil => intro a i hi; simp at hi; subst hi; simp [psums]
  | cons n ns ih =>
    intro a i hi
    cases i with
    | zero => simp [psums]
    | succ j =>
      simp only [psums, List.getElem?_cons_succ, List.take_succ_cons, List.sum_cons]
      rw [ih (a + n) j (by simpa using hi)]
      push_cast; ring_nf

/-! ## Lemmas on the deduplication -/

theorem key_index_spec (k : List Int) (l : List (List Int)) (h : k ∈ l) :
    key_index k l < l.length ∧ l[key_index k l]? = some k := by
  induction l with
  | nil => simp at h
  | cons x rest ih =>
    by_cases hx : x = k
    · simp [key_index, hx]
    · have hr : k ∈ rest := by
        rcases List.mem_cons.mp h with h1 | h1
        · exact absurd h1.symm hx
        · exact h1
      have := ih hr
      simp only [key_index, hx, if_false, List.length_cons, List.getElem?_cons_succ]
      exact ⟨by omega, this.2⟩

theorem int_qsort_eq_iff (a b : List Int) : int_qsort a = int_qsort b ↔ a.Perm b := by
  constructor
  · intro h
    have ha := List.perm_insertionSort (fun x y : Int => x ≤ y) a
    have hb := List.perm_insertionSort (fun x y : Int => x ≤ y) b
    unfold int_qsort at h
    rw [h] at ha
    exact ha.symm.trans hb
  · intro h
    unfold int_qsort
    apply List.eq_of_perm_of_sorted (r := fun x y : Int => x ≤ y)
    · exact ((List.perm_insertionSort _ a).trans h).trans (List.perm_insertionSort _ b).symm
    · exact List.sorted_insertionSort _ a
    · exact List.sorted_insertionSort _ b

theorem map_of_keys_length (ks : List (List Int)) :
    ∀ s, (map_of_keys s ks).length = ks.length := by
  induction ks with
  | nil => intro s; rfl
  | cons k ks ih => intro s; simp [map_of_keys, ih]

theorem map_of_keys_snoc (ks : List (List Int)) (k : List Int) :
    ∀ s, map_of_keys s (ks ++ [k]) = map_of_keys s ks ++ [(k, ((s + ks.length : Nat) : Int))] := by
  induction ks with
  | nil => intro s; simp [map_of_keys]
  | cons x xs ih =>
    intro s
    show map_of_keys s (x :: (xs ++ [k])) = _
    simp only [map_of_keys, ih, List.length_cons, List.cons_append]
    have : s + 1 + xs.length = s + (xs.length + 1) := by omega
    rw [this]

theorem map_of_keys_get (ks : List (List Int)) (key : List Int) :
    ∀ s, int_tuple_int_unordered_map_get (map_of_keys s ks) key =
      if key ∈ ks then some (((s + key_index key ks : Nat)) : Int) else none := by
  induction ks with
  | nil => intro s; simp [map_of_keys, int_tuple_int_unordered_map_get]
  | cons k ks ih =>
    intro s
    by_cases hk : k = key
    · simp [map_of_keys, int_tuple_int_unordered_map_get, key_index, hk]
    · have hk2 : ¬ key = k := fun h => hk h.symm
      simp only [map_of_keys, int_tuple_int_unordered_map_get, hk, if_false, ih, key_index,
        List.mem_cons, hk2, false_or]
      by_cases hm : key ∈ ks
      · simp only [hm, if_true]
        have : s + 1 + key_index key ks = s + (key_index key ks + 1) := by omega
        rw [this]
      · simp [hm]

theorem state_of_snoc (fl : List (List Int)) (f : List Int) :
    state_of (fl ++ [f]) =
      { node_face_map := (state_of fl).node_face_map ++ [(int_qsort f, (fl.length : Int))],
        face_node_offsets :=
          (state_of fl).face_node_offsets ++ [(state_of fl).face_node_offsets.getLastD 0 + f.length],
        face_nodes := (state_of fl).face_nodes ++ f } := by
  simp [state_of, map_of_keys_snoc, psums_snoc]

theorem map_nodes_to_face_state_of (fl : List (List Int)) (nodes : List Int) (num_nodes : Nat)
    (h : num_nodes ≤ nodes.length) :
    map_nodes_to_face (state_of fl) nodes num_nodes =
      (((dedup_step ([], fl) (nodes.take num_nodes)).1.map Int.ofNat).headD 0,
       state_of (dedup_step ([], fl) (nodes.take num_nodes)).2) := by
  have hlen : (nodes.take num_nodes).length = num_nodes := by simp [h]
  unfold map_nodes_to_face
  simp only []
  have hget := map_of_keys_get (fl.map int_qsort) (int_qsort (nodes.take num_nodes)) 0
  by_cases hk : int_qsort (nodes.take num_nodes) ∈ fl.map int_qsort
  · have h1 : int_tuple_int_unordered_map_get (state_of fl).node_face_map
        (int_qsort (nodes.take num_nodes)) =
        some ((key_index (int_qsort (nodes.take num_nodes)) (fl.map int_qsort) : Nat) : Int) := by
      simp only [state_of]
      rw [hget]; simp [hk]
    rw [h1]
    simp [dedup_step, hk]
  · have h1 : int_tuple_int_unordered_map_get (state_of fl).node_face_map
        (int_qsort (nodes.take num_nodes)) = none := by
      simp only [state_of]
      rw [hget]; simp only [hk, if_false]
    rw [h1]
    simp only [dedup_step, hk, if_false, List.nil_append, List.map_cons, List.map_nil,
      List.headD_cons]
    rw [state_of_snoc]
    have h2 : (state_of fl).node_face_map.length = fl.length := by
      simp [state_of, map_of_keys_length]
    rw [h2, hlen]
    rfl

theorem dedup_step_acc (ids : List Nat) (fl : List (List Int)) (f : List Int) :
    dedup_step (ids, fl) f =
      (ids ++ (dedup_step ([], fl) f).1, (dedup_step ([], fl) f).2) := by
  by_cases hk : int_qsort f ∈ fl.map int_qsort <;> simp [dedup_step, hk]

theorem foldl_dedup_step_acc (F : List (List Int)) :
    ∀ (ids : List Nat) (fl : List (List Int)),
      F.foldl dedup_step (ids, fl) = (ids ++ (dedup_from fl F).1, (dedup_from fl F).2) := by
  induction F with
  | nil => intro ids fl; simp [dedup_from]
  | cons f F ih =>
    intro ids fl
    simp only [List.foldl_cons, dedup_from]
    rw [dedup_step_acc ids fl f, ih, ih (dedup_step ([], fl) f).1]
    simp [List.append_assoc]

theorem dedup_from_cons (fl : List (List Int)) (f : List Int) (F : List (List Int)) :
    dedup_from fl (f :: F) =
      ((dedup_step ([], fl) f).1 ++ (dedup_from (dedup_step ([], fl) f).2 F).1,
       (dedup_from (dedup_step ([], fl) f).2 F).2) := by
  show List.foldl dedup_step (dedup_step ([], fl) f) F = _
  exact foldl_dedup_step_acc F _ _

theorem dedup_from_append (fl : List (List Int)) (F G : List (List Int)) :
    dedup_from fl (F ++ G) =
      ((dedup_from fl F).1 ++ (dedup_from (dedup_from fl F).2 G).1,
       (dedup_from (dedup_from fl F).2 G).2) := by
  show List.foldl dedup_step ([], fl) (F ++ G) = _
  rw [List.foldl_append]
  exact foldl_dedup_step_acc G _ _

theorem dedup_from_nil (fl : List (List Int)) : dedup_from fl [] = ([], fl) := rfl

theorem dedup_step_ids (fl : List (List Int)) (f : List Int) :
    ∃ x, (dedup_step ([], fl) f).1 = [x] := by
  by_cases hk : int_qsort f ∈ fl.map int_qsort <;> simp [dedup_step, hk]

theorem dedup_from_length (F : List (List Int)) :
    ∀ fl, (dedup_from fl F).1.length = F.length := by
  induction F with
  | nil => intro fl; rfl
  | cons f F ih =>
    intro fl
    rw [dedup_from_cons]
    obtain ⟨x, hx⟩ := dedup_step_ids fl f
    simp [hx, ih]

theorem map_rows_state_of (rows : List (List Int × Nat))
    (hrows : ∀ r ∈ rows, r.2 ≤ r.1.length) :
    ∀ fl, map_rows rows (state_of fl) =
      ((dedup_from fl (rows.map (fun r => r.1.take r.2))).1.map Int.ofNat,
       state_of (dedup_from fl (rows.map (fun r => r.1.take r.2))).2) := by
  induction rows with
  | nil => intro fl; rfl
  | cons r rows ih =>
    intro fl
    obtain ⟨nodes, num_nodes⟩ := r
    have h1 := hrows (nodes, num_nodes) (List.mem_cons_self _ _)
    have h2 : ∀ r ∈ rows, r.2 ≤ r.1.length := fun r hr => hrows r (List.mem_cons_of_mem _ hr)
    simp only [map_rows, List.map_cons]
    rw [map_nodes_to_face_state_of fl nodes num_nodes h1, ih h2, dedup_from_cons]
    obtain ⟨x, hx⟩ := dedup_step_ids fl (nodes.take num_nodes)
    simp [hx]

theorem dedup_run_snoc (F : List (List Int)) (f : List Int) :
    dedup_run (F ++ [f]) = dedup_step (dedup_run F) f := by
  simp [dedup_run, dedup_from, List.foldl_append]

theorem dedup_inv_nil : dedup_inv [] [] [] := by
  constructor <;> simp

theorem dedup_inv_bound {F : List (List Int)} {I : List Nat} {FL : List (List Int)}
    (h : dedup_inv F I FL) (i a : Nat) (hi : I[i]? = some a) : a < FL.length := by
  have hil : i < I.length := getElem?_lt_of_some _ _ _ hi
  have hF : ∃ g, F[i]? = some g := by
    rw [List.getElem?_eq_getElem (by rw [← h.len]; exact hil)]; exact ⟨_, rfl⟩
  obtain ⟨g, hg⟩ := hF
  have := getElem?_lt_of_some _ _ _ (h.key_of i a g hi hg)
  simpa using this

theorem dedup_inv_step (F : List (List Int)) (I : List Nat) (FL : List (List Int))
    (h : dedup_inv F I FL) (f : List Int) :
    dedup_inv (F ++ [f]) (dedup_step (I, FL) f).1 (dedup_step (I, FL) f).2 := by
  have hlen := h.len
  have hbound := dedup_inv_bound h
  by_cases hk : int_qsort f ∈ FL.map int_qsort
  · obtain ⟨hidx, hget⟩ := key_index_spec (int_qsort f) (FL.map int_qsort) hk
    simp only [List.length_map] at hidx
    simp only [dedup_step, hk, if_true]
    constructor
    · simp [hlen]
    · exact h.nodup
    · intro k
      simp only [List.map_append, List.mem_append, List.map_cons, List.map_nil,
        List.mem_singleton]
      constructor
      · intro hm; exact Or.inl ((h.keys k).mp hm)
      · rintro (hm | rfl)
        · exact (h.keys k).mpr hm
        · exact hk
    · intro i a g hi hg
      rcases getElem?_snoc_cases _ _ _ _ hi with ⟨hlt, hi1⟩ | ⟨heq, ha⟩
      · rw [List.getElem?_append_left (hlen ▸ hlt)] at hg
        exact h.key_of i a g hi1 hg
      · rw [heq, hlen] at hg
        simp at hg
        subst hg; subst ha
        exact hget
    · intro b hb
      exact List.mem_append_left _ (h.onto b hb)
    · intro i a hi b hb
      rcases getElem?_snoc_cases _ _ _ _ hi with ⟨hlt, hi1⟩ | ⟨heq, ha⟩
      · rw [List.take_append_of_le_length (Nat.le_of_lt hlt)]
        exact h.below i a hi1 b hb
      · subst heq; subst ha
        rw [List.take_append_of_le_length (Nat.le_refl _), List.take_length]
        exact h.onto b (by omega)
    · intro i a g hi hg hnot
      rcases getElem?_snoc_cases _ _ _ _ hi with ⟨hlt, hi1⟩ | ⟨heq, ha⟩
      · rw [List.getElem?_append_left (hlen ▸ hlt)] at hg
        rw [List.take_append_of_le_length (Nat.le_of_lt hlt)] at hnot
        exact h.first i a g hi1 hg hnot
      · subst heq; subst ha
        exfalso
        apply hnot
        rw [List.take_append_of_le_length (Nat.le_refl _), List.take_length]
        exact h.onto _ hidx
  · simp only [dedup_step, hk, if_false]
    constructor
    · simp [hlen]
    · rw [List.map_append, List.nodup_append]
      refine ⟨h.nodup, by simp, ?_⟩
      intro k hk1 hk2
      simp at hk2
      subst hk2
      exact hk hk1
    · intro k
      simp only [List.map_append, List.mem_append, List.map_cons, List.map_nil,
        List.mem_singleton]
      rw [h.keys k]
    · intro i a g hi hg
      rcases getElem?_snoc_cases _ _ _ _ hi with ⟨hlt, hi1⟩ | ⟨heq, ha⟩
      · rw [List.getElem?_append_left (hlen ▸ hlt)] at hg
        have := h.key_of i a g hi1 hg
        rw [List.map_append, List.getElem?_append_left (by simpa using hbound i a hi1)]
        exact this
      · rw [heq, hlen] at hg
        simp at hg
        subst hg; subst ha
        rw [List.map_append, List.getElem?_append_right (by simp)]
        simp
    · intro b hb
      simp only [List.length_append, List.length_singleton] at hb
      rcases Nat.lt_or_ge b FL.length with h1 | h1
      · exact List.mem_append_left _ (h.onto b h1)
      · have : b = FL.length := by omega
        subst this
        simp
    · intro i a hi b hb
      rcases getElem?_snoc_cases _ _ _ _ hi with ⟨hlt, hi1⟩ | ⟨heq, ha⟩
      · rw [List.take_append_of_le_length (Nat.le_of_lt hlt)]
        exact h.below i a hi1 b hb
      · subst heq; subst ha
        rw [List.take_append_of_le_length (Nat.le_refl _), List.take_length]
        exact h.onto b hb
    · intro i a g hi hg hnot
      rcases getElem?_snoc_cases _ _ _ _ hi with ⟨hlt, hi1⟩ | ⟨heq, ha⟩
      · rw [List.getElem?_append_left (hlen ▸ hlt)] at hg
        rw [List.take_append_of_le_length (Nat.le_of_lt hlt)] at hnot
        rw [List.getElem?_append_left (hbound i a hi1)]
        exact h.first i a g hi1 hg hnot
      · rw [heq, hlen] at hg
        simp at hg
        subst hg; subst ha
        rw [List.getElem?_append_right (Nat.le_refl _)]
        simp

theorem dedup_inv_run (F : List (List Int)) :
    dedup_inv F (dedup_run F).1 (dedup_run F).2 := by
  induction F using List.reverseRecOn with
  | nil => exact dedup_inv_nil
  | append_singleton F f ih =>
    rw [dedup_run_snoc]
    exact dedup_inv_step F _ _ ih f

/-! ## Lemmas on blocks -/

theorem read_int_natCast (a : List Int) (i : Nat) : read_int a (i : Int) = a[i]? := by
  simp [read_int]

theorem read_slice_full (a : List Int) : read_slice a 0 (a.length : Int) = some a := by
  simp [read_slice]

theorem copy_into_same_length (dst src : List Int) (h : dst.length = src.length) :
    copy_into dst src = some src := by
  simp [copy_into, h]

theorem sum_take_add_drop (l : List Nat) (i : Nat) :
    (l.take i).sum + (l.drop i).sum = l.sum := by
  rw [← List.sum_append, List.take_append_drop]

theorem sum_take_succ_getElem? (l : List Nat) (i n : Nat) (h : l[i]? = some n) :
    (l.take (i + 1)).sum = (l.take i).sum + n := by
  have hlt := getElem?_lt_of_some _ _ _ h
  rw [List.take_succ, h]
  simp

theorem segment_psums (lens : List Nat) (data : List Int) (i n : Nat)
    (hi : lens[i]? = some n) (hdata : lens.sum ≤ data.length) :
    segment (psums 0 lens) data i = some ((data.drop (lens.take i).sum).take n) := by
  have hlt := getElem?_lt_of_some _ _ _ hi
  have h1 := psums_getElem? lens 0 i (Nat.le_of_lt hlt)
  have h2 := psums_getElem? lens 0 (i + 1) hlt
  have hs := sum_take_succ_getElem? lens i n hi
  have hle : (lens.take (i + 1)).sum ≤ lens.sum := by
    have := sum_take_add_drop lens (i + 1); omega
  rw [hs] at h2 hle
  generalize (lens.take i).sum = S at h1 h2 hle ⊢
  unfold segment
  have e1 : read_int (psums 0 lens) (i : Int) = some ((S : Nat) : Int) := by
    rw [read_int_natCast, h1]; simp
  have e2 : read_int (psums 0 lens) ((i : Int) + 1) = some (((S + n : Nat)) : Int) := by
    have : ((i : Int) + 1) = ((i + 1 : Nat) : Int) := by push_cast; ring
    rw [this, read_int_natCast, h2]; simp
  rw [e1, e2]
  simp only [read_slice]
  have hcond : ¬ (((S : Nat) : Int) < 0 ∨ (((S + n : Nat)) : Int) - ((S : Nat) : Int) < 0 ∨
      (data.length : Int) < ((S : Nat) : Int) + ((((S + n : Nat)) : Int) - ((S : Nat) : Int))) := by
    omega
  rw [if_neg hcond]
  have e3 : ((((S + n : Nat)) : Int) - ((S : Nat) : Int)).toNat = n := by omega
  rw [e3, Int.toNat_natCast]

theorem segment_psums_flatten (L : List (List Int)) (i : Nat) (c : List Int)
    (hi : L[i]? = some c) :
    segment (psums 0 (L.map List.length)) L.flatten i = some c := by
  have hlt := getElem?_lt_of_some _ _ _ hi
  have hlen : (L.map List.length)[i]? = some c.length := by simp [hi]
  rw [segment_psums (L.map List.length) L.flatten i c.length hlen (by simp [List.length_flatten])]
  obtain ⟨A, B, hL, hA⟩ : ∃ A B, L = A ++ c :: B ∧ A.length = i := by
    refine ⟨L.take i, L.drop (i + 1), ?_, by simp [Nat.le_of_lt hlt]⟩
    have := List.take_append_drop i L
    rw [List.drop_eq_getElem_cons hlt] at this
    have hc : L[i] = c := by
      rw [List.getElem?_eq_getElem hlt] at hi; simpa using hi
    rw [hc] at this
    exact this.symm
  subst hL
  have hsum : (((A ++ c :: B).map List.length).take i).sum = A.flatten.length := by
    rw [List.map_append, List.take_left' (by simp [hA])]
    simp [List.length_flatten]
  rw [hsum, List.flatten_append, List.drop_left, List.flatten_cons, List.take_left]

theorem uniform_offsets_eq (k n : Nat) :
    uniform_offsets (k : Int) n = psums 0 (List.replicate n k) := by
  induction n with
  | zero => rfl
  | succ n ih =>
    simp only [uniform_offsets]
    rw [ih, List.replicate_succ', psums_snoc]

theorem sum_replicate_nat (n k : Nat) : (List.replicate n k).sum = n * k := by
  simp

/-- The shape of a block built by `fe_block_new` with a non-polyhedral type. -/
theorem nonpolyhedral_block_shape (b : fe_block_t) (h : nonpolyhedral_block b) :
    ∃ (n k nf : Nat) (nd : List Int),
      0 < n ∧ b.num_elem = (n : Int) ∧
      b.elem_node_offsets = some (psums 0 (List.replicate n k)) ∧
      b.elem_nodes = some nd ∧ nd.length = n * k ∧
      significant_nodes b.elem_type ≤ (k : Int) ∧ 0 < k ∧
      get_num_cell_faces b.elem_type = some (nf : Int) := by
  obtain ⟨num_elem, num_elem_nodes, idx, hnew, hinv, hpoly, hsig⟩ := h
  unfold fe_block_new at hnew
  by_cases h1 : num_elem ≤ 0
  · simp [h1] at hnew
  rw [if_neg h1] at hnew
  by_cases h2 : num_elem_nodes * num_elem < num_elem + 1
  · simp [h2] at hnew
  rw [if_neg h2] at hnew
  have hn : 0 < num_elem := by omega
  have hk : 0 < num_elem_nodes := by
    by_contra hneg
    have : num_elem_nodes * num_elem ≤ 0 := by
      apply Int.mul_nonpos_of_nonpos_of_nonneg <;> omega
    omega
  obtain ⟨n, rfl⟩ : ∃ n : Nat, num_elem = n := ⟨num_elem.toNat, by omega⟩
  obtain ⟨k, rfl⟩ : ∃ k : Nat, num_elem_nodes = k := ⟨num_elem_nodes.toNat, by omega⟩
  have hnf : ∃ nf : Nat, get_num_cell_faces b.elem_type = some (nf : Int) := by
    cases ht : b.elem_type
    · exact absurd ht hinv
    · exact ⟨4, rfl⟩
    · exact ⟨5, rfl⟩
    · exact ⟨5, rfl⟩
    · exact ⟨6, rfl⟩
    · exact absurd ht hpoly
  obtain ⟨nf, hnf⟩ := hnf
  simp only [Int.toNat_natCast] at hnew
  rw [uniform_offsets_eq, psums_getLastD] at hnew
  simp only [sum_replicate_nat, zero_add] at hnew
  unfold read_slice at hnew
  by_cases h3 : ((0 : Int) < 0 ∨ ((n * k : Nat) : Int) < 0 ∨
      (idx.length : Int) < 0 + ((n * k : Nat) : Int))
  · rw [if_pos h3] at hnew; simp at hnew
  rw [if_neg h3] at hnew
  simp only [Option.some.injEq] at hnew
  refine ⟨n, k, nf, (idx.drop (0 : Int).toNat).take ((n * k : Nat) : Int).toNat, by omega,
    ?_, ?_, ?_, ?_, hsig, by omega, hnf⟩
  · rw [← hnew]
  · rw [← hnew]
  · rw [← hnew]
  · simp only [Int.toNat_zero, List.drop_zero, Int.toNat_natCast, List.length_take]
    omega

theorem take_replicate_sum (n k i : Nat) (h : i ≤ n) :
    ((List.replicate n k).take i).sum = i * k := by
  rw [List.take_replicate, Nat.min_eq_left h]; simp

theorem block_element_nodes_spec (b : fe_block_t) (n k : Nat) (nd : List Int)
    (ho : b.elem_node_offsets = some (psums 0 (List.replicate n k)))
    (hn : b.elem_nodes = some nd) (hlen : nd.length = n * k) (i : Nat) (hi : i < n) :
    segment (psums 0 (List.replicate n k)) nd i = some (block_element_nodes b i) ∧
      (block_element_nodes b i).length = k := by
  have hget : (List.replicate n k)[i]? = some k := by simp [hi]
  have hseg := segment_psums (List.replicate n k) nd i k hget (by simp [hlen])
  have hbe : block_element_nodes b i =
      (nd.drop ((List.replicate n k).take i).sum).take k := by
    simp [block_element_nodes, ho, hn, hseg]
  rw [hbe]
  refine ⟨hseg, ?_⟩
  rw [take_replicate_sum n k i (Nat.le_of_lt hi)]
  simp only [List.length_take, List.length_drop, hlen]
  have : (i + 1) * k ≤ n * k := Nat.mul_le_mul_right k hi
  have h2 : (i + 1) * k = i * k + k := by ring
  omega

theorem fe_block_get_element_nodes_eq (b : fe_block_t) (offs nd : List Int)
    (ho : b.elem_node_offsets = some offs) (hn : b.elem_nodes = some nd)
    (i : Nat) (buf : List Int) :
    fe_block_get_element_nodes b (i : Int) buf =
      (segment offs nd i).bind (copy_into buf) := by
  unfold fe_block_get_element_nodes segment
  rw [hn, ho]
  simp only []
  cases read_int offs (i : Int) <;> cases read_int offs ((i : Int) + 1) <;> simp
  rename_i lo hi
  cases read_slice nd lo (hi - lo) <;> simp

theorem fe_block_get_element_nodes_spec (b : fe_block_t) (n k : Nat) (nd : List Int)
    (ho : b.elem_node_offsets = some (psums 0 (List.replicate n k)))
    (hn : b.elem_nodes = some nd) (hlen : nd.length = n * k) (i : Nat) (hi : i < n)
    (buf : List Int) (hbuf : buf.length = k) :
    fe_block_get_element_nodes b (i : Int) buf = some (block_element_nodes b i) := by
  obtain ⟨h1, h2⟩ := block_element_nodes_spec b n k nd ho hn hlen i hi
  rw [fe_block_get_element_nodes_eq b _ nd ho hn, h1]
  simp only [Option.some_bind]
  exact copy_into_same_length _ _ (by rw [hbuf, h2])

theorem fe_block_num_element_nodes_spec (b : fe_block_t) (n k : Nat)
    (ho : b.elem_node_offsets = some (psums 0 (List.replicate n k))) (hn : 0 < n) :
    fe_block_num_element_nodes b 0 = some (k : Int) := by
  obtain ⟨m, rfl⟩ : ∃ m, n = m + 1 := ⟨n - 1, by omega⟩
  simp [fe_block_num_element_nodes, ho, List.replicate_succ, psums, read_int]
  cases m <;> simp [psums, List.replicate_succ]

theorem face_node_indices_tetrahedron (a b c d : Int) (rest : List Int) :
    face_node_indices FE_TETRAHEDRON (a :: b :: c :: d :: rest) =
      some [([a, b, c], 3), ([a, b, d], 3), ([b, c, d], 3), ([c, a, d], 3)] := by
  simp [face_node_indices]

theorem face_node_indices_pyramid (a b c d e : Int) (rest : List Int) :
    face_node_indices FE_PYRAMID (a :: b :: c :: d :: e :: rest) =
      some [([a, b, c, d], 4),
            ([a, b, e], 3), ([b, c, e], 3), ([c, d, e], 3), ([d, a, e], 3)] := by
  simp [face_node_indices]

theorem face_node_indices_wedge (a b c d e f : Int) (rest : List Int) :
    face_node_indices FE_WEDGE (a :: b :: c :: d :: e :: f :: rest) =
      some [([a, b, c], 3), ([d, e, f], 3),
            ([a, b, e, d], 4), ([b, c, f, e], 4), ([c, a, d, f], 4)] := by
  simp [face_node_indices]

theorem face_node_indices_hexahedron (a b c d e f g h : Int) (rest : List Int) :
    face_node_indices FE_HEXAHEDRON (a :: b :: c :: d :: e :: f :: g :: h :: rest) =
      some [([a, b, c, d, 0, 0], 4), ([e, f, g, h, 0, 0], 4),
            ([a, b, f, e, 0, 0], 4), ([c, d, h, g, 0, 0], 4),
            ([b, c, g, f, 0, 0], 4), ([d, a, e, h, 0, 0], 4)] := by
  simp [face_node_indices]

theorem face_node_indices_spec (t : fe_mesh_element_t) (en : List Int) (nf : Nat)
    (hnf : get_num_cell_faces t = some (nf : Int))
    (hlen : significant_nodes t ≤ (en.length : Int)) :
    ∃ rows, face_node_indices t en = some rows ∧ (∀ r ∈ rows, r.2 ≤ r.1.length) ∧
      rows.length = nf := by
  cases t
  · simp [get_num_cell_faces] at hnf
  · simp only [significant_nodes] at hlen
    obtain ⟨a, b, c, d, rest, rfl⟩ : ∃ a b c d rest, en = a :: b :: c :: d :: rest := by
      match en, hlen with
      | a :: b :: c :: d :: rest, _ => exact ⟨a, b, c, d, rest, rfl⟩
      | [], h | [_], h | [_, _], h | [_, _, _], h => simp at h
    simp only [get_num_cell_faces, Option.some.injEq] at hnf
    refine ⟨_, face_node_indices_tetrahedron a b c d rest, ?_, ?_⟩
    · intro r hr; simp at hr; rcases hr with rfl | rfl | rfl | rfl <;> simp
    · simp; omega
  · simp only [significant_nodes] at hlen
    obtain ⟨a, b, c, d, e, rest, rfl⟩ :
        ∃ a b c d e rest, en = a :: b :: c :: d :: e :: rest := by
      match en, hlen with
      | a :: b :: c :: d :: e :: rest, _ => exact ⟨a, b, c, d, e, rest, rfl⟩
      | [], h | [_], h | [_, _], h | [_, _, _], h | [_, _, _, _], h => simp at h
    simp only [get_num_cell_faces, Option.some.injEq] at hnf
    refine ⟨_, face_node_indices_pyramid a b c d e rest, ?_, ?_⟩
    · intro r hr; simp at hr; rcases hr with rfl | rfl | rfl | rfl | rfl <;> simp
    · simp; omega
  · simp only [significant_nodes] at hlen
    obtain ⟨a, b, c, d, e, f, rest, rfl⟩ :
        ∃ a b c d e f rest, en = a :: b :: c :: d :: e :: f :: rest := by
      match en, hlen with
      | a :: b :: c :: d :: e :: f :: rest, _ => exact ⟨a, b, c, d, e, f, rest, rfl⟩
      | [], h | [_], h | [_, _], h | [_, _, _], h | [_, _, _, _], h
      | [_, _, _, _, _], h => simp at h
    simp only [get_num_cell_faces, Option.some.injEq] at hnf
    refine ⟨_, face_node_indices_wedge a b c d e f rest, ?_, ?_⟩
    · intro r hr; simp at hr; rcases hr with rfl | rfl | rfl | rfl | rfl <;> simp
    · simp; omega
  · simp only [significant_nodes] at hlen
    obtain ⟨a, b, c, d, e, f, g, h, rest, rfl⟩ :
        ∃ a b c d e f g h rest, en = a :: b :: c :: d :: e :: f :: g :: h :: rest := by
      match en, hlen with
      | a :: b :: c :: d :: e :: f :: g :: h :: rest, _ =>
        exact ⟨a, b, c, d, e, f, g, h, rest, rfl⟩
      | [], h | [_], h | [_, _], h | [_, _, _], h | [_, _, _, _], h
      | [_, _, _, _, _], h | [_, _, _, _, _, _], h | [_, _, _, _, _, _, _], h =>
        simp at h
    simp only [get_num_cell_faces, Option.some.injEq] at hnf
    refine ⟨_, face_node_indices_hexahedron a b c d e f g h rest, ?_, ?_⟩
    · intro r hr; simp at hr; rcases hr with rfl | rfl | rfl | rfl | rfl | rfl <;> simp
    · simp; omega
  · simp [get_num_cell_faces] at hnf

/-! ## The branch that derives the faces -/

theorem get_cell_faces_state_of (t : fe_mesh_element_t) (en : List Int) (nf : Nat)
    (hnf : get_num_cell_faces t = some (nf : Int))
    (hlen : significant_nodes t ≤ (en.length : Int)) (fl : List (List Int)) :
    get_cell_faces t en (state_of fl) =
        some ((dedup_from fl (template_faces t en)).1.map Int.ofNat,
              state_of (dedup_from fl (template_faces t en)).2) ∧
      (template_faces t en).length = nf := by
  obtain ⟨rows, hrows, hwf, hn⟩ := face_node_indices_spec t en nf hnf hlen
  simp only [get_cell_faces, template_faces, hrows]
  rw [map_rows_state_of rows hwf fl]
  simp [hn]

theorem assemble_elements_spec (b : fe_block_t) (n k nf : Nat) (nd : List Int)
    (ho : b.elem_node_offsets = some (psums 0 (List.replicate n k)))
    (hn : b.elem_nodes = some nd) (hlen : nd.length = n * k)
    (hsig : significant_nodes b.elem_type ≤ (k : Int))
    (hnf : get_num_cell_faces b.elem_type = some (nf : Int))
    (cfo : List Int) (E : Int) :
    ∀ (cnt i : Nat) (buf ids0 : List Int) (fl : List (List Int)),
      i + cnt ≤ n → buf.length = k →
      (∀ j, j < cnt → read_int cfo (E + ((i + j : Nat) : Int)) =
        some ((ids0.length + j * nf : Nat) : Int)) →
      assemble_elements b b.elem_type cfo E cnt (i : Int) buf (ids0, state_of fl) =
        some (ids0 ++ (dedup_from fl ((List.range' i cnt).map
                (fun j => template_faces b.elem_type (block_element_nodes b j))).flatten).1.map
                Int.ofNat,
              state_of (dedup_from fl ((List.range' i cnt).map
                (fun j => template_faces b.elem_type (block_element_nodes b j))).flatten).2) := by
  intro cnt
  induction cnt with
  | zero =>
    intro i buf ids0 fl _ _ _
    simp [assemble_elements, dedup_from_nil]
  | succ cnt ih =>
    intro i buf ids0 fl hi hbuf hoff
    have hget := fe_block_get_element_nodes_spec b n k nd ho hn hlen i (by omega) buf hbuf
    have hlenx := (block_element_nodes_spec b n k nd ho hn hlen i (by omega)).2
    obtain ⟨hcell, hcount⟩ := get_cell_faces_state_of b.elem_type (block_element_nodes b i) nf
      hnf (by rw [hlenx]; exact hsig) fl
    have h0 := hoff 0 (by omega)
    simp only [Nat.add_zero, Nat.zero_mul] at h0
    simp only [assemble_elements]
    rw [hget]
    simp only []
    rw [h0]
    simp only [ne_eq, not_true_eq_false, if_false]
    rw [hcell]
    simp only []
    have hcast : ((i : Int) + 1) = ((i + 1 : Nat) : Int) := by push_cast; ring
    rw [hcast]
    have hlen1 : (dedup_from fl (template_faces b.elem_type (block_element_nodes b i))).1.length
        = nf := by
      rw [dedup_from_length, hcount]
    rw [ih (i + 1) (block_element_nodes b i) _ _ (by omega) hlenx]
    · rw [List.range'_succ, List.map_cons, List.flatten_cons, dedup_from_append]
      simp [List.append_assoc]
    · intro j hj
      have := hoff (j + 1) (by omega)
      have e1 : i + 1 + j = i + (j + 1) := by omega
      rw [e1, this]
      congr 2
      simp only [List.length_append, List.length_map, hlen1]
      ring

theorem extend_offsets_psums (nf : Nat) :
    ∀ (n : Nat) (pre : List Nat),
      extend_offsets (nf : Int) n (psums 0 pre) = psums 0 (pre ++ List.replicate n nf) := by
  intro n
  induction n with
  | zero => intro pre; simp [extend_offsets]
  | succ n ih =>
    intro pre
    simp only [extend_offsets]
    rw [← psums_snoc, ih, List.replicate_succ]
    simp

/-- The template faces of a non-polyhedral block: one list per element, each of the
length `get_num_cell_faces` gives. -/
theorem block_template_faces_lengths (b : fe_block_t) (n k nf : Nat) (nd : List Int)
    (hnum : b.num_elem = (n : Int))
    (ho : b.elem_node_offsets = some (psums 0 (List.replicate n k)))
    (hn : b.elem_nodes = some nd) (hlen : nd.length = n * k)
    (hsig : significant_nodes b.elem_type ≤ (k : Int))
    (hnf : get_num_cell_faces b.elem_type = some (nf : Int)) :
    (block_template_faces b).map List.length = List.replicate n nf := by
  unfold block_template_faces
  rw [hnum, Int.toNat_natCast]
  apply List.ext_getElem
  · simp
  · intro i h1 h2
    simp only [List.length_map, List.length_range] at h1
    simp only [List.getElem_map, List.getElem_range, List.getElem_replicate]
    have hlenx := (block_element_nodes_spec b n k nd ho hn hlen i h1).2
    exact (get_cell_faces_state_of b.elem_type (block_element_nodes b i) nf hnf
      (by rw [hlenx]; exact hsig) []).2

theorem count_cell_faces_spec (blocks : List fe_block_t)
    (h : ∀ b ∈ blocks, nonpolyhedral_block b) :
    ∀ pre : List Nat, count_cell_faces blocks (psums 0 pre) =
      some (psums 0 (pre ++ (blocks.map block_template_faces).flatten.map List.length)) := by
  induction blocks with
  | nil => intro pre; simp [count_cell_faces]
  | cons b rest ih =>
    intro pre
    obtain ⟨n, k, nf, nd, hn0, hnum, ho, hnd, hlen, hsig, hk, hnf⟩ :=
      nonpolyhedral_block_shape b (h b (List.mem_cons_self _ _))
    have hl := block_template_faces_lengths b n k nf nd hnum ho hnd hlen hsig hnf
    simp only [count_cell_faces, fe_block_element_type, fe_block_num_elements, hnf, hnum,
      Int.toNat_natCast]
    rw [extend_offsets_psums, ih (fun b hb => h b (List.mem_cons_of_mem _ hb))]
    simp [hl, List.append_assoc]

theorem take_prefix_replicate_sum (pre rest : List Nat) (n nf j : Nat) (hj : j ≤ n) :
    ((pre ++ (List.replicate n nf ++ rest)).take (pre.length + j)).sum = pre.sum + j * nf := by
  rw [List.take_append, List.take_append_eq_append_take, List.take_replicate]
  simp [Nat.min_eq_left hj, Nat.sub_eq_zero_of_le hj]

theorem assemble_blocks_spec (blocks : List fe_block_t)
    (h : ∀ b ∈ blocks, nonpolyhedral_block b) :
    ∀ (pre : List Nat) (ids0 : List Int) (fl : List (List Int)), ids0.length = pre.sum →
      assemble_blocks (psums 0 (pre ++ (blocks.map block_template_faces).flatten.map List.length))
          blocks (pre.length : Int) (ids0, state_of fl) =
        some (ids0 ++ (dedup_from fl
                (blocks.map block_template_faces).flatten.flatten).1.map Int.ofNat,
              state_of (dedup_from fl (blocks.map block_template_faces).flatten.flatten).2) := by
  induction blocks with
  | nil => intro pre ids0 fl _; simp [assemble_blocks, dedup_from_nil]
  | cons b rest ih =>
    intro pre ids0 fl hids
    obtain ⟨n, k, nf, nd, hn0, hnum, ho, hnd, hlen, hsig, hk, hnf⟩ :=
      nonpolyhedral_block_shape b (h b (List.mem_cons_self _ _))
    have hl := block_template_faces_lengths b n k nf nd hnum ho hnd hlen hsig hnf
    have hnn := fe_block_num_element_nodes_spec b n k ho hn0
    have hcfo : pre ++ ((b :: rest).map block_template_faces).flatten.map List.length =
        pre ++ (List.replicate n nf ++ (rest.map block_template_faces).flatten.map List.length) := by
      simp [hl]
    have hflat : (block_template_faces b).flatten.length = n * nf := by
      rw [List.length_flatten, hl]; simp
    simp only [assemble_blocks, fe_block_num_elements, fe_block_element_type, hnn, hnum,
      Int.toNat_natCast]
    have hc : ¬ (((k : Int) ≤ 0) ∨ b.elem_nodes = none) := by
      rw [hnd]; simp; omega
    rw [if_neg hc]
    have hrun := assemble_elements_spec b n k nf nd ho hnd hlen hsig hnf
      (psums 0 (pre ++ ((b :: rest).map block_template_faces).flatten.map List.length))
      (pre.length : Int) n 0 (List.replicate k 0) ids0 fl (by omega) (by simp)
      (by
        intro j hj
        have e : ((pre.length : Int) + ((0 + j : Nat) : Int)) = ((pre.length + j : Nat) : Int) := by
          push_cast; ring
        rw [e, read_int_natCast, hcfo, psums_getElem? _ _ _ (by simp; omega),
          take_prefix_replicate_sum pre _ n nf j (Nat.le_of_lt hj), hids]
        simp)
    have hrange : (List.range' 0 n).map
        (fun j => template_faces b.elem_type (block_element_nodes b j)) =
        block_template_faces b := by
      simp [block_template_faces, hnum, List.range_eq_range']
    rw [hrange] at hrun
    have hz : ((0 : Nat) : Int) = 0 := rfl
    rw [hz] at hrun
    rw [hrun]
    simp only []
    have hE : (pre.length : Int) + (n : Int) = ((pre ++ List.replicate n nf).length : Int) := by
      simp
    rw [hE, hcfo, ← List.append_assoc]
    rw [ih (fun b hb => h b (List.mem_cons_of_mem _ hb)) (pre ++ List.replicate n nf)]
    · simp only [List.map_cons, List.flatten_cons, List.flatten_append]
      rw [dedup_from_append]
      simp [List.append_assoc]
    · simp [dedup_from_length, hflat, hids]

theorem state_of_nil : state_of [] = dedup_init := rfl

theorem blocks_cells_length (blocks : List fe_block_t)
    (h : ∀ b ∈ blocks, nonpolyhedral_block b) :
    (((blocks.map block_template_faces).flatten.length : Nat) : Int) =
      (blocks.map fe_block_num_elements).sum := by
  induction blocks with
  | nil => simp
  | cons b rest ih =>
    obtain ⟨n, k, nf, nd, hn0, hnum, ho, hnd, hlen, hsig, hk, hnf⟩ :=
      nonpolyhedral_block_shape b (h b (List.mem_cons_self _ _))
    have := ih (fun b hb => h b (List.mem_cons_of_mem _ hb))
    simp only [List.map_cons, List.flatten_cons, List.length_append, List.sum_cons,
      fe_block_num_elements, Nat.cast_add]
    rw [this]
    simp [block_template_faces, hnum, fe_block_num_elements]

theorem derive_faces_spec (m : fe_mesh_t) (h : derivable_fe_mesh m) :
    derive_faces m (fe_mesh_num_elements m) =
      some { num_faces := ((dedup_run (mesh_template_faces m)).2.length : Int),
             cell_face_offsets := psums 0 ((mesh_cell_template_faces m).map List.length),
             cell_faces := (dedup_run (mesh_template_faces m)).1.map Int.ofNat,
             face_node_offsets := psums 0 ((dedup_run (mesh_template_faces m)).2.map List.length),
             face_nodes := (dedup_run (mesh_template_faces m)).2.flatten } := by
  have hcount := count_cell_faces_spec m.blocks h.blocks []
  have hasm := assemble_blocks_spec m.blocks h.blocks [] [] [] rfl
  have hcells := blocks_cells_length m.blocks h.blocks
  simp only [List.nil_append, psums] at hcount
  simp only [List.nil_append, List.length_nil, Nat.cast_zero, state_of_nil] at hasm
  unfold derive_faces
  simp only [dedup_run, mesh_template_faces, mesh_cell_template_faces]
  generalize (m.blocks.map block_template_faces).flatten = cells at *
  rw [hcount]
  simp only []
  have hlen : ((psums 0 (cells.map List.length)).length : Int) = fe_mesh_num_elements m + 1 := by
    rw [psums_length, List.length_map, h.elements, ← hcells]; push_cast; ring
  rw [if_neg (by rw [hlen]; simp)]
  rw [hasm]
  simp only []
  have hread : read_int (psums 0 (cells.map List.length)) (fe_mesh_num_elements m) =
      some ((((dedup_from [] cells.flatten).1.map Int.ofNat).length : Nat) : Int) := by
    rw [h.elements, ← hcells, read_int_natCast,
      psums_getElem? _ _ _ (by rw [List.length_map]),
      List.take_of_length_le (by rw [List.length_map]), List.length_map, dedup_from_length,
      List.length_flatten]
    simp
  rw [hread]
  simp only [ne_eq, not_true_eq_false, if_false, List.nil_append]
  simp only [state_of, map_of_keys_length, List.length_map]

/-! ## The face->cell loop -/

theorem assign_incidences_append (A B : List (Int × Int)) :
    ∀ fc, assign_incidences (A ++ B) fc = (assign_incidences A fc).bind (assign_incidences B) := by
  induction A with
  | nil => intro fc; rfl
  | cons p A ih =>
    intro fc
    obtain ⟨face, c⟩ := p
    simp only [List.cons_append, assign_incidences]
    cases assign_face_cell fc face c with
    | none => rfl
    | some fc1 => exact ih fc1

theorem read_int_some (a : List Int) (i v : Int) (h : read_int a i = some v) :
    0 ≤ i ∧ i.toNat < a.length ∧ a[i.toNat]? = some v := by
  unfold read_int at h
  by_cases hi : i < 0
  · simp [hi] at h
  · rw [if_neg hi] at h
    exact ⟨by omega, getElem?_lt_of_some _ _ _ h, h⟩

theorem face_cells_of_cell_incidences (cf : List Int) (c : Int) :
    ∀ (cnt : Nat) (lo : Int) (fc fc1 : List Int),
      face_cells_of_cell cf c cnt lo fc = some fc1 →
      assign_incidences (((cf.drop lo.toNat).take cnt).map (fun f => (f, c))) fc = some fc1 ∧
        (0 < cnt → 0 ≤ lo ∧ lo.toNat + cnt ≤ cf.length) := by
  intro cnt
  induction cnt with
  | zero =>
    intro lo fc fc1 h
    simp only [face_cells_of_cell, Option.some.injEq] at h
    subst h
    simp [assign_incidences]
  | succ cnt ih =>
    intro lo fc fc1 h
    simp only [face_cells_of_cell] at h
    cases hread : read_int cf lo with
    | none => rw [hread] at h; simp at h
    | some face =>
      rw [hread] at h
      simp only [] at h
      obtain ⟨hlo, hlt, hget⟩ := read_int_some _ _ _ hread
      cases hass : assign_face_cell fc face c with
      | none => rw [hass] at h; simp at h
      | some fc2 =>
        rw [hass] at h
        simp only [] at h
        obtain ⟨h1, h2⟩ := ih (lo + 1) fc2 fc1 h
        have hto : (lo + 1).toNat = lo.toNat + 1 := by omega
        have hface : cf[lo.toNat] = face := by
          rw [List.getElem?_eq_getElem hlt] at hget; simpa using hget
        rw [hto] at h1 h2
        constructor
        · rw [List.drop_eq_getElem_cons hlt, List.take_succ_cons, List.map_cons, hface]
          simp only [assign_incidences, hass]
          exact h1
        · intro _
          refine ⟨hlo, ?_⟩
          rcases Nat.eq_zero_or_pos cnt with h0 | hpos
          · omega
          · have := (h2 hpos).2; omega

theorem cell_face_list_eq (cfo cf : List Int) (c : Nat) (lo hi : Int)
    (h1 : read_int cfo (c : Int) = some lo) (h2 : read_int cfo ((c : Int) + 1) = some hi)
    (hb : 0 < (hi - lo).toNat → 0 ≤ lo ∧ lo.toNat + (hi - lo).toNat ≤ cf.length) :
    cell_face_list cfo cf c = (cf.drop lo.toNat).take (hi - lo).toNat := by
  unfold cell_face_list segment
  rw [h1, h2]
  simp only [read_slice]
  rcases Nat.eq_zero_or_pos (hi - lo).toNat with h0 | hpos
  · rw [h0]
    split <;> simp [h0]
  · obtain ⟨hlo, hle⟩ := hb hpos
    rw [if_neg (by omega)]
    rfl

theorem face_cells_loop_incidences (cfo cf : List Int) :
    ∀ (n c : Nat) (fc fc1 : List Int),
      face_cells_loop cfo cf n (c : Int) fc = some fc1 →
      assign_incidences (incidences cfo cf c n) fc = some fc1 := by
  intro n
  induction n with
  | zero =>
    intro c fc fc1 h
    simp only [face_cells_loop, Option.some.injEq] at h
    subst h
    simp [incidences, assign_incidences]
  | succ n ih =>
    intro c fc fc1 h
    simp only [face_cells_loop] at h
    cases h1 : read_int cfo (c : Int) with
    | none => rw [h1] at h; simp at h
    | some lo =>
      cases h2 : read_int cfo ((c : Int) + 1) with
      | none => rw [h1, h2] at h; simp at h
      | some hi =>
        rw [h1, h2] at h
        simp only [] at h
        cases hin : face_cells_of_cell cf (c : Int) (hi - lo).toNat lo fc with
        | none => rw [hin] at h; simp at h
        | some fc2 =>
          rw [hin] at h
          simp only [] at h
          obtain ⟨ha, hb⟩ := face_cells_of_cell_incidences cf (c : Int) _ lo fc fc2 hin
          have hcast : ((c : Int) + 1) = ((c + 1 : Nat) : Int) := by push_cast; ring
          rw [hcast] at h
          have hrest := ih (c + 1) fc2 fc1 h
          have hl := cell_face_list_eq cfo cf c lo hi h1 h2 hb
          unfold incidences
          rw [List.range'_succ, List.map_cons, List.flatten_cons, assign_incidences_append, hl, ha]
          exact hrest

theorem assign_face_cell_total (fc : List Int) (face c : Int) (nfaces : Nat)
    (hlen : fc.length = 2 * nfaces) (h0 : 0 ≤ face) (h1 : face < nfaces) :
    ∃ fc1, assign_face_cell fc face c = some fc1 ∧ fc1.length = 2 * nfaces := by
  unfold assign_face_cell
  have hlt : (2 * face).toNat < fc.length := by omega
  have hr : read_int fc (2 * face) = some (fc[(2 * face).toNat]) := by
    unfold read_int
    rw [if_neg (by omega), List.getElem?_eq_getElem hlt]
  rw [hr]
  simp only [write_int]
  by_cases hf : fc[(2 * face).toNat] = -1
  · rw [if_pos hf, if_neg (by omega)]
    exact ⟨_, rfl, by simp [hlen]⟩
  · rw [if_neg hf, if_neg (by omega)]
    exact ⟨_, rfl, by simp [hlen]⟩

theorem face_cells_of_cell_total (cf : List Int) (nfaces : Nat)
    (hrange : ∀ f ∈ cf, 0 ≤ f ∧ f < (nfaces : Int)) (c : Int) :
    ∀ (cnt lo : Nat) (fc : List Int), lo + cnt ≤ cf.length → fc.length = 2 * nfaces →
      ∃ fc1, face_cells_of_cell cf c cnt (lo : Int) fc = some fc1 ∧ fc1.length = 2 * nfaces := by
  intro cnt
  induction cnt with
  | zero => intro lo fc _ hfc; exact ⟨fc, rfl, hfc⟩
  | succ cnt ih =>
    intro lo fc hlo hfc
    have hlt : lo < cf.length := by omega
    have hr : read_int cf (lo : Int) = some cf[lo] := by
      rw [read_int_natCast, List.getElem?_eq_getElem hlt]
    obtain ⟨hf0, hf1⟩ := hrange cf[lo] (List.getElem_mem _)
    obtain ⟨fc2, hass, hlen2⟩ := assign_face_cell_total fc cf[lo] c nfaces hfc hf0 hf1
    have hcast : ((lo : Int) + 1) = ((lo + 1 : Nat) : Int) := by push_cast; ring
    simp only [face_cells_of_cell, hr, hass, hcast]
    exact ih (lo + 1) fc2 (by omega) hlen2

theorem face_cells_loop_total (lens : List Nat) (cf : List Int) (nfaces : Nat)
    (hlen : lens.sum ≤ cf.length) (hrange : ∀ f ∈ cf, 0 ≤ f ∧ f < (nfaces : Int)) :
    ∀ (n c : Nat) (fc : List Int), c + n ≤ lens.length → fc.length = 2 * nfaces →
      ∃ fc1, face_cells_loop (psums 0 lens) cf n (c : Int) fc = some fc1 ∧
        fc1.length = 2 * nfaces := by
  intro n
  induction n with
  | zero => intro c fc _ hfc; exact ⟨fc, rfl, hfc⟩
  | succ n ih =>
    intro c fc hc hfc
    have hclt : c < lens.length := by omega
    have h1 := psums_getElem? lens 0 c (Nat.le_of_lt hclt)
    have h2 := psums_getElem? lens 0 (c + 1) hclt
    have hs := sum_take_succ_getElem? lens c lens[c] (List.getElem?_eq_getElem hclt)
    have hle : (lens.take (c + 1)).sum ≤ lens.sum := by
      have := sum_take_add_drop lens (c + 1); omega
    rw [hs] at h2 hle
    have hcast : ((c : Int) + 1) = ((c + 1 : Nat) : Int) := by push_cast; ring
    simp only [face_cells_loop]
    rw [hcast, read_int_natCast, read_int_natCast, h1, h2]
    simp only [zero_add]
    have e3 : ((((lens.take c).sum + lens[c] : Nat) : Int) - (((lens.take c).sum : Nat) : Int)).toNat
        = lens[c] := by omega
    rw [e3]
    obtain ⟨fc2, hin, hlen2⟩ := face_cells_of_cell_total cf nfaces hrange (c : Int) lens[c]
      (lens.take c).sum fc (by omega) hfc
    rw [hin]
    simp only []
    exact ih (c + 1) fc2 (by omega) hlen2

theorem write_int_some (a : List Int) (i v : Int) (b : List Int)
    (h : write_int a i v = some b) : 0 ≤ i ∧ b = a.set i.toNat v := by
  unfold write_int at h
  by_cases hc : i < 0 ∨ (a.length : Int) ≤ i
  · rw [if_pos hc] at h; simp at h
  · rw [if_neg hc] at h
    simp only [Option.some.injEq] at h
    exact ⟨by omega, h.symm⟩

theorem getD_set_ne (a : List Int) (i j : Nat) (v d : Int) (h : i ≠ j) :
    (a.set i v).getD j d = a.getD j d := by
  simp [List.getD_eq_getElem?_getD, List.getElem?_set, h]

theorem getD_set_eq (a : List Int) (i : Nat) (v d : Int) (h : i < a.length) :
    (a.set i v).getD i d = v := by
  simp [List.getD_eq_getElem?_getD, List.getElem?_set, h]

theorem assign_face_cell_slots (fc fc1 : List Int) (face c f : Int) (hf : 0 ≤ f)
    (h : assign_face_cell fc face c = some fc1) :
    face_slots fc1 f = (if face = f then slot_step (face_slots fc f) c else face_slots fc f) ∧
      fc1.length = fc.length := by
  unfold assign_face_cell at h
  cases hread : read_int fc (2 * face) with
  | none => rw [hread] at h; simp at h
  | some first =>
    rw [hread] at h
    simp only [] at h
    obtain ⟨h0, hlt, hget⟩ := read_int_some _ _ _ hread
    have hfirst : fc.getD (2 * face).toNat 0 = first := by
      simp [List.getD_eq_getElem?_getD, hget]
    by_cases h1 : first = -1
    · rw [if_pos h1] at h
      obtain ⟨_, hb⟩ := write_int_some _ _ _ _ h
      subst hb
      refine ⟨?_, by simp⟩
      by_cases hface : face = f
      · subst hface
        rw [if_pos rfl]
        simp only [face_slots, slot_step, hfirst, h1, if_true]
        rw [getD_set_eq _ _ _ _ hlt, getD_set_ne _ _ _ _ _ (by omega)]
      · rw [if_neg hface]
        simp only [face_slots]
        rw [getD_set_ne _ _ _ _ _ (by omega), getD_set_ne _ _ _ _ _ (by omega)]
    · rw [if_neg h1] at h
      obtain ⟨_, hb⟩ := write_int_some _ _ _ _ h
      have hlt2 : (2 * face + 1).toNat < fc.length := by
        unfold write_int at h
        by_cases hc : 2 * face + 1 < 0 ∨ (fc.length : Int) ≤ 2 * face + 1
        · rw [if_pos hc] at h; simp at h
        · omega
      subst hb
      refine ⟨?_, by simp⟩
      by_cases hface : face = f
      · subst hface
        rw [if_pos rfl]
        simp only [face_slots, slot_step, hfirst, h1, if_false]
        rw [getD_set_eq _ _ _ _ hlt2, getD_set_ne _ _ _ _ _ (by omega), hfirst]
      · rw [if_neg hface]
        simp only [face_slots]
        rw [getD_set_ne _ _ _ _ _ (by omega), getD_set_ne _ _ _ _ _ (by omega)]

theorem assign_incidences_slots (f : Int) (hf : 0 ≤ f) :
    ∀ (inc : List (Int × Int)) (fc fc1 : List Int), assign_incidences inc fc = some fc1 →
      face_slots fc1 f =
          ((inc.filter (fun p => p.1 = f)).map Prod.snd).foldl slot_step (face_slots fc f) ∧
        fc1.length = fc.length := by
  intro inc
  induction inc with
  | nil =>
    intro fc fc1 h
    simp only [assign_incidences, Option.some.injEq] at h
    subst h
    simp
  | cons p inc ih =>
    intro fc fc1 h
    obtain ⟨face, c⟩ := p
    simp only [assign_incidences] at h
    cases hass : assign_face_cell fc face c with
    | none => rw [hass] at h; simp at h
    | some fc2 =>
      rw [hass] at h
      simp only [] at h
      obtain ⟨hs, hl⟩ := assign_face_cell_slots fc fc2 face c f hf hass
      obtain ⟨hs2, hl2⟩ := ih fc2 fc1 h
      refine ⟨?_, by rw [hl2, hl]⟩
      rw [hs2, hs]
      by_cases hface : face = f
      · simp [hface]
      · simp [hface]

theorem foldl_slot_step_filled (cs : List Int) :
    ∀ (a b : Int), a ≠ -1 → cs.foldl slot_step (a, b) = (a, cs.getLastD b) := by
  induction cs with
  | nil => intro a b _; rfl
  | cons c cs ih =>
    intro a b ha
    simp only [List.foldl_cons, slot_step, ha, if_false, List.getLastD_cons]
    exact ih a c ha

theorem foldl_slot_step_init (cs : List Int) (hcs : ∀ c ∈ cs, c ≠ -1) :
    cs.foldl slot_step (-1, -1) =
      (cs.head?.getD (-1), if 2 ≤ cs.length then cs.getLastD (-1) else -1) := by
  cases cs with
  | nil => rfl
  | cons c cs =>
    have hc := hcs c (List.mem_cons_self _ _)
    simp only [List.foldl_cons, slot_step, if_true, List.head?_cons, Option.getD_some,
      List.length_cons, List.getLastD_cons]
    rw [foldl_slot_step_filled cs c (-1) hc]
    cases cs with
    | nil => simp
    | cons d ds =>
      simp only [List.getLastD_cons, List.length_cons]
      simp

theorem incidences_cells_nonneg (cfo cf : List Int) (c n : Nat) :
    ∀ p ∈ incidences cfo cf c n, 0 ≤ p.2 := by
  intro p hp
  simp only [incidences, List.mem_flatten, List.mem_map, List.mem_range'_1] at hp
  obtain ⟨l, ⟨c1, _, rfl⟩, hp⟩ := hp
  simp only [List.mem_map] at hp
  obtain ⟨g, _, rfl⟩ := hp
  simp

theorem incident_cells_ne (cfo cf : List Int) (n : Nat) (f : Int) :
    ∀ c ∈ incident_cells cfo cf n f, c ≠ -1 := by
  intro c hc
  simp only [incident_cells, List.mem_map, List.mem_filter] at hc
  obtain ⟨p, ⟨hp, _⟩, rfl⟩ := hc
  have := incidences_cells_nonneg cfo cf 0 n p hp
  omega

/-- The slots of a face after the face->cell loop, started on a table of `-1`: slot 0
holds the cell of the first incidence of the face and slot 1 the cell of its last
incidence when it has at least two. -/
theorem face_cells_loop_slots (cfo cf : List Int) (n nfaces : Nat) (fc1 : List Int)
    (h : face_cells_loop cfo cf n 0 (List.replicate (2 * nfaces) (-1)) = some fc1)
    (f : Int) (hf0 : 0 ≤ f) (hf1 : f < nfaces) :
    fc1.length = 2 * nfaces ∧
    read_int fc1 (2 * f) = some ((incident_cells cfo cf n f).head?.getD (-1)) ∧
    read_int fc1 (2 * f + 1) =
      some (if 2 ≤ (incident_cells cfo cf n f).length
            then (incident_cells cfo cf n f).getLastD (-1) else -1) := by
  have hinc := face_cells_loop_incidences cfo cf n 0 _ fc1 h
  obtain ⟨hs, hl⟩ := assign_incidences_slots f hf0 _ _ _ hinc
  have hinit : face_slots (List.replicate (2 * nfaces) (-1)) f = (-1, -1) := by
    simp only [face_slots, List.getD_eq_getElem?_getD]
    rw [List.getElem?_replicate_of_lt (by omega), List.getElem?_replicate_of_lt (by omega)]
    rfl
  rw [hinit] at hs
  have hfold := foldl_slot_step_init (incident_cells cfo cf n f) (incident_cells_ne cfo cf n f)
  unfold incident_cells at hfold
  rw [hfold] at hs
  simp only [List.length_replicate] at hl
  refine ⟨hl, ?_, ?_⟩
  · have := congrArg Prod.fst hs
    simp only [face_slots] at this
    unfold read_int
    rw [if_neg (by omega), List.getElem?_eq_getElem (by omega)]
    rw [List.getD_eq_getElem _ _ (by omega)] at this
    rw [this]; rfl
  · have := congrArg Prod.snd hs
    simp only [face_slots] at this
    unfold read_int
    rw [if_neg (by omega), List.getElem?_eq_getElem (by omega)]
    rw [List.getD_eq_getElem _ _ (by omega)] at this
    rw [this]; rfl

/-! ## The translation as a whole -/

theorem sets_to_tags_spec (src : tagger_t) :
    ∀ dst : tagger_t, ((dst ++ src).map Prod.fst).Nodup →
      sets_to_tags src dst = some (dst ++ src) := by
  induction src with
  | nil => intro dst _; simp [sets_to_tags]
  | cons p src ih =>
    intro dst hnd
    obtain ⟨name, set⟩ := p
    have hnot : name ∉ dst.map Prod.fst := by
      intro hmem
      rw [List.map_append, List.nodup_append] at hnd
      exact hnd.2.2 hmem (by simp)
    have hfill : fill_last_tag (dst ++ [(name, List.replicate set.length 0)]) set =
        some (dst ++ [(name, set)]) := by
      simp [fill_last_tag, List.getLast?_concat, copy_into_same_length]
    simp only [sets_to_tags, tagger_create_tag, hnot, if_false, hfill]
    rw [ih (dst ++ [(name, set)]) (by simpa [List.append_assoc] using hnd)]
    simp [List.append_assoc]

theorem dedup_run_ids_range (F : List (List Int)) :
    ∀ f ∈ (dedup_run F).1.map Int.ofNat, 0 ≤ f ∧ f < (((dedup_run F).2.length : Nat) : Int) := by
  intro f hf
  simp only [List.mem_map] at hf
  obtain ⟨a, ha, rfl⟩ := hf
  obtain ⟨i, hi⟩ := List.mem_iff_getElem?.mp ha
  have := dedup_inv_bound (dedup_inv_run F) i a hi
  constructor
  · exact Int.ofNat_nonneg a
  · exact Int.ofNat_lt.mpr this

theorem mesh_cells_length (m : fe_mesh_t) (h : derivable_fe_mesh m) :
    fe_mesh_num_elements m = ((mesh_cell_template_faces m).length : Int) := by
  rw [h.elements, ← blocks_cells_length m.blocks h.blocks]
  rfl

theorem mesh_from_fe_mesh_derivable (m : fe_mesh_t) (h : derivable_fe_mesh m) :
    ∃ fc, mesh_from_fe_mesh m = some (derived_mesh m fc) ∧
      face_cells_loop (psums 0 ((mesh_cell_template_faces m).map List.length))
        ((dedup_run (mesh_template_faces m)).1.map Int.ofNat)
        (mesh_cell_template_faces m).length 0
        (List.replicate (2 * (dedup_run (mesh_template_faces m)).2.length) (-1)) = some fc ∧
      fc.length = 2 * (dedup_run (mesh_template_faces m)).2.length := by
  have hcells := mesh_cells_length m h
  have hIlen : ((dedup_run (mesh_template_faces m)).1.map Int.ofNat).length =
      ((mesh_cell_template_faces m).map List.length).sum := by
    rw [List.length_map, dedup_run, dedup_from_length, mesh_template_faces, List.length_flatten]
  obtain ⟨fc, hfc, hfclen⟩ := face_cells_loop_total ((mesh_cell_template_faces m).map List.length)
    ((dedup_run (mesh_template_faces m)).1.map Int.ofNat)
    (dedup_run (mesh_template_faces m)).2.length (by rw [hIlen])
    (dedup_run_ids_range _) (mesh_cell_template_faces m).length 0 _
    (by simp) (List.length_replicate _ _)
  refine ⟨fc, ?_, hfc, hfclen⟩
  have hderive := derive_faces_spec m h
  have hr1 : read_slice (psums 0 ((mesh_cell_template_faces m).map List.length)) 0
      (fe_mesh_num_elements m + 1) =
      some (psums 0 ((mesh_cell_template_faces m).map List.length)) := by
    have : fe_mesh_num_elements m + 1 =
        ((psums 0 ((mesh_cell_template_faces m).map List.length)).length : Int) := by
      rw [psums_length, List.length_map, hcells]; push_cast; ring
    rw [this]; exact read_slice_full _
  have hr2 : read_slice (psums 0 ((dedup_run (mesh_template_faces m)).2.map List.length)) 0
      (((dedup_run (mesh_template_faces m)).2.length : Int) + 1) =
      some (psums 0 ((dedup_run (mesh_template_faces m)).2.map List.length)) := by
    have : ((dedup_run (mesh_template_faces m)).2.length : Int) + 1 =
        ((psums 0 ((dedup_run (mesh_template_faces m)).2.map List.length)).length : Int) := by
      rw [psums_length, List.length_map]; push_cast; ring
    rw [this]; exact read_slice_full _
  have hr3 : read_int (psums 0 ((mesh_cell_template_faces m).map List.length))
      (fe_mesh_num_elements m) =
      some ((((dedup_run (mesh_template_faces m)).1.map Int.ofNat).length : Nat) : Int) := by
    rw [hcells, read_int_natCast, psums_getElem? _ _ _ (by rw [List.length_map]),
      List.take_of_length_le (by rw [List.length_map]), hIlen]
    simp
  have hr4 : read_int (psums 0 ((dedup_run (mesh_template_faces m)).2.map List.length))
      ((dedup_run (mesh_template_faces m)).2.length : Int) =
      some (((dedup_run (mesh_template_faces m)).2.flatten.length : Nat) : Int) := by
    rw [read_int_natCast, psums_getElem? _ _ _ (by rw [List.length_map]),
      List.take_of_length_le (by rw [List.length_map]), List.length_flatten]
    simp
  have hloop : face_cells_loop (psums 0 ((mesh_cell_template_faces m).map List.length))
      ((dedup_run (mesh_template_faces m)).1.map Int.ofNat)
      (fe_mesh_num_elements m).toNat 0
      (List.replicate (2 * ((dedup_run (mesh_template_faces m)).2.length : Int)).toNat (-1))
      = some fc := by
    rw [hcells, Int.toNat_natCast]
    have : (2 * ((dedup_run (mesh_template_faces m)).2.length : Int)).toNat =
        2 * (dedup_run (mesh_template_faces m)).2.length := by omega
    rw [this]
    exact hfc
  have ht1 := sets_to_tags_spec m.elem_sets [] (by simpa using h.elem_set_names)
  have ht2 := sets_to_tags_spec m.face_sets [] (by simpa using h.face_set_names)
  have ht3 := sets_to_tags_spec m.edge_sets [] (by simpa using h.edge_set_names)
  have ht4 := sets_to_tags_spec m.node_sets [] (by simpa using h.node_set_names)
  simp only [List.nil_append] at ht1 ht2 ht3 ht4
  unfold mesh_from_fe_mesh
  simp only [fe_mesh_num_faces, h.no_faces, if_true, hderive, mesh_new, fe_mesh_comm,
    fe_mesh_num_nodes, fe_mesh_node_positions, hr1, hr2, hr3, hr4, read_slice_full, hloop,
    h.no_edges, tagger_new, ht1, ht2, ht3, ht4, h.positions, lt_irrefl, if_false]
  simp [derived_mesh, h.positions]

theorem mesh_from_fe_mesh_face_cells (m : fe_mesh_t) (fv : mesh_t)
    (h : mesh_from_fe_mesh m = some fv) :
    face_cells_loop fv.cell_face_offsets fv.cell_faces fv.num_cells.toNat 0
      (List.replicate (2 * fv.num_faces).toNat (-1)) = some fv.face_cells := by
  unfold mesh_from_fe_mesh at h
  simp only [mesh_new] at h
  split at h
  · simp at h
  · split at h
    · split at h
      · split at h
        · split at h
          · simp at h
          · split at h
            · simp at h
            · split at h
              · simp at h
              · split at h
                · simp only [Option.some.injEq] at h
                  subst h
                  simp only []
                  assumption
                · simp at h
        · simp at h
      · simp at h
    · simp at h

/-! ## Properties of the derived faces -/

theorem getElem?_map_ofNat (I : List Nat) (i : Nat) (z : Int) :
    (I.map Int.ofNat)[i]? = some z ↔ ∃ a, I[i]? = some a ∧ z = (a : Int) := by
  rw [List.getElem?_map]
  cases I[i]? with
  | none => simp
  | some a =>
    simp only [Option.map_some', Option.some.injEq, exists_eq_left']
    constructor
    · intro h; exact h.symm
    · intro h; exact h.symm

theorem mem_take_map_ofNat (I : List Nat) (i a : Nat) :
    ((a : Nat) : Int) ∈ (I.map Int.ofNat).take i ↔ a ∈ I.take i := by
  rw [← List.map_take, List.mem_map]
  constructor
  · rintro ⟨b, hb, hab⟩
    have : b = a := Int.ofNat.inj hab
    rw [← this]; exact hb
  · intro h; exact ⟨a, h, rfl⟩

theorem toFinset_map_ofNat (l : List Nat) :
    (l.map Int.ofNat).toFinset = l.toFinset.image Int.ofNat := by
  ext x
  simp

theorem first_occurrence {α : Type} [DecidableEq α] (l : List α) (a : α) (h : a ∈ l) :
    ∃ j, l[j]? = some a ∧ a ∉ l.take j := by
  induction l with
  | nil => simp at h
  | cons x xs ih =>
    by_cases hx : x = a
    · exact ⟨0, by simp [hx], by simp⟩
    · have hmem : a ∈ xs := by
        rcases List.mem_cons.mp h with h1 | h1
        · exact absurd h1.symm hx
        · exact h1
      obtain ⟨j, hj, hnot⟩ := ih hmem
      refine ⟨j + 1, by simpa using hj, ?_⟩
      simp only [List.take_succ_cons, List.mem_cons, not_or]
      exact ⟨fun h => hx h.symm, hnot⟩

theorem flatten_getElem? {α : Type} (L : List (List α)) (c p : Nat) (x : List α) (y : α)
    (hc : L[c]? = some x) (hp : x[p]? = some y) :
    L.flatten[((L.map List.length).take c).sum + p]? = some y := by
  have hlt := getElem?_lt_of_some _ _ _ hc
  have hplt := getElem?_lt_of_some _ _ _ hp
  obtain ⟨A, B, hL, hA⟩ : ∃ A B, L = A ++ x :: B ∧ A.length = c := by
    refine ⟨L.take c, L.drop (c + 1), ?_, by simp [Nat.le_of_lt hlt]⟩
    have := List.take_append_drop c L
    rw [List.drop_eq_getElem_cons hlt] at this
    have hx : L[c] = x := by
      rw [List.getElem?_eq_getElem hlt] at hc; simpa using hc
    rw [hx] at this
    exact this.symm
  subst hL
  have hsum : (((A ++ x :: B).map List.length).take c).sum = A.flatten.length := by
    rw [List.map_append, List.take_left' (by simp [hA])]
    simp [List.length_flatten]
  rw [hsum, List.flatten_append, List.getElem?_append_right (by omega)]
  simp only [Nat.add_sub_cancel_left, List.flatten_cons]
  rw [List.getElem?_append_left hplt]
  exact hp

theorem cell_face_list_psums (lens : List Nat) (data : List Int) (c n : Nat)
    (hc : lens[c]? = some n) (hdata : lens.sum ≤ data.length) :
    cell_face_list (psums 0 lens) data c = (data.drop (lens.take c).sum).take n := by
  unfold cell_face_list
  rw [segment_psums lens data c n hc hdata]
  rfl

/-- The entry at position `p` of the face list of cell `c` of the derived mesh is
the id that the reference run gives to the incidence at the flat position of
`(c, p)`. -/
theorem derived_cell_face (m : fe_mesh_t) (fc : List Int) (c p : Nat)
    (faces : List (List Int)) (t : List Int)
    (hc : (mesh_cell_template_faces m)[c]? = some faces) (hp : faces[p]? = some t) :
    (mesh_template_faces m)[(((mesh_cell_template_faces m).map List.length).take c).sum + p]?
        = some t ∧
      (mesh_cell_faces (derived_mesh m fc) c)[p]? =
        ((dedup_run (mesh_template_faces m)).1.map Int.ofNat)[
          (((mesh_cell_template_faces m).map List.length).take c).sum + p]? := by
  have hplt := getElem?_lt_of_some _ _ _ hp
  constructor
  · exact flatten_getElem? _ c p faces t hc hp
  · have hlen : ((mesh_cell_template_faces m).map List.length)[c]? = some faces.length := by
      simp [hc]
    simp only [mesh_cell_faces, derived_mesh]
    rw [cell_face_list_psums _ _ c faces.length hlen
      (by rw [List.length_map, dedup_run, dedup_from_length, mesh_template_faces,
            List.length_flatten])]
    rw [List.getElem?_take_of_lt hplt, List.getElem?_drop]

/-- C1: for an FE mesh of non-polyhedral blocks with no explicit faces,
`mesh_from_fe_mesh` returns a mesh whose face count is the number of distinct sorted
node tuples among the template faces of all elements of all blocks. -/
theorem dedup_face_count (m : fe_mesh_t) (h : derivable_fe_mesh m) :
    ∃ fv, mesh_from_fe_mesh m = some fv ∧
      fv.num_faces = ((((mesh_template_faces m).map int_qsort).toFinset.card : Nat) : Int) := by
  obtain ⟨fc, hfv, _, _⟩ := mesh_from_fe_mesh_derivable m h
  refine ⟨_, hfv, ?_⟩
  have inv := dedup_inv_run (mesh_template_faces m)
  simp only [derived_mesh]
  congr 1
  rw [← List.length_map (dedup_run (mesh_template_faces m)).2 int_qsort,
    ← List.toFinset_card_of_nodup inv.nodup]
  congr 1
  ext k
  simp only [List.mem_toFinset]
  exact inv.keys k

/-- C2: in the deduplication path, two element-face incidences (cell `c1`, template
position `p1`) and (cell `c2`, template position `p2`) hold the same face id in the
cell->face table exactly when their template node lists are permutations of each
other, that is, equal after sorting. -/
theorem dedup_same_id_iff_perm (m : fe_mesh_t) (h : derivable_fe_mesh m) :
    ∃ fv, mesh_from_fe_mesh m = some fv ∧
      ∀ (c1 p1 c2 p2 : Nat) (faces1 faces2 : List (List Int)) (t1 t2 : List Int),
        (mesh_cell_template_faces m)[c1]? = some faces1 → faces1[p1]? = some t1 →
        (mesh_cell_template_faces m)[c2]? = some faces2 → faces2[p2]? = some t2 →
        ∃ f1 f2, (mesh_cell_faces fv c1)[p1]? = some f1 ∧
          (mesh_cell_faces fv c2)[p2]? = some f2 ∧
          ((f1 = f2 ↔ t1.Perm t2) ∧ (f1 = f2 ↔ int_qsort t1 = int_qsort t2)) := by
  obtain ⟨fc, hfv, _, _⟩ := mesh_from_fe_mesh_derivable m h
  refine ⟨_, hfv, ?_⟩
  intro c1 p1 c2 p2 faces1 faces2 t1 t2 hc1 hp1 hc2 hp2
  have inv := dedup_inv_run (mesh_template_faces m)
  obtain ⟨hF1, hI1⟩ := derived_cell_face m fc c1 p1 faces1 t1 hc1 hp1
  obtain ⟨hF2, hI2⟩ := derived_cell_face m fc c2 p2 faces2 t2 hc2 hp2
  generalize (((mesh_cell_template_faces m).map List.length).take c1).sum + p1 = i1 at hF1 hI1
  generalize (((mesh_cell_template_faces m).map List.length).take c2).sum + p2 = i2 at hF2 hI2
  have hi1 : i1 < (dedup_run (mesh_template_faces m)).1.length := by
    rw [inv.len]; exact getElem?_lt_of_some _ _ _ hF1
  have hi2 : i2 < (dedup_run (mesh_template_faces m)).1.length := by
    rw [inv.len]; exact getElem?_lt_of_some _ _ _ hF2
  obtain ⟨a1, ha1⟩ : ∃ a, (dedup_run (mesh_template_faces m)).1[i1]? = some a :=
    ⟨_, List.getElem?_eq_getElem hi1⟩
  obtain ⟨a2, ha2⟩ : ∃ a, (dedup_run (mesh_template_faces m)).1[i2]? = some a :=
    ⟨_, List.getElem?_eq_getElem hi2⟩
  have hk1 := inv.key_of i1 a1 t1 ha1 hF1
  have hk2 := inv.key_of i2 a2 t2 ha2 hF2
  have hiff : (a1 : Int) = (a2 : Int) ↔ int_qsort t1 = int_qsort t2 := by
    constructor
    · intro e
      have e' : a1 = a2 := Int.ofNat.inj e
      rw [e'] at hk1
      rw [hk1] at hk2
      exact Option.some.inj hk2
    · intro e
      rw [e] at hk1
      have hlt1 := getElem?_lt_of_some _ _ _ hk1
      have hlt2 := getElem?_lt_of_some _ _ _ hk2
      rw [List.getElem?_eq_getElem hlt1] at hk1
      rw [List.getElem?_eq_getElem hlt2] at hk2
      have := (List.Nodup.getElem_inj_iff inv.nodup).mp
        ((Option.some.inj hk1).trans (Option.some.inj hk2).symm)
      rw [this]
  refine ⟨(a1 : Int), (a2 : Int), ?_, ?_, ?_, hiff⟩
  · rw [hI1, List.getElem?_map, ha1]; rfl
  · rw [hI2, List.getElem?_map, ha2]; rfl
  · rw [hiff]; exact int_qsort_eq_iff t1 t2

theorem get_num_cell_faces_pos (t : fe_mesh_element_t) (nf : Nat)
    (h : get_num_cell_faces t = some (nf : Int)) : 0 < nf := by
  cases t <;> simp [get_num_cell_faces] at h <;> omega

theorem mesh_template_faces_ne_nil (m : fe_mesh_t) (h : derivable_fe_mesh m)
    (hb : m.blocks ≠ []) : mesh_template_faces m ≠ [] := by
  obtain ⟨b, rest, hm⟩ := List.exists_cons_of_ne_nil hb
  obtain ⟨n, k, nf, nd, hn0, hnum, ho, hnd, hlen, hsig, hk, hnf⟩ :=
    nonpolyhedral_block_shape b (h.blocks b (by rw [hm]; exact List.mem_cons_self _ _))
  have hl := block_template_faces_lengths b n k nf nd hnum ho hnd hlen hsig hnf
  have hpos := get_num_cell_faces_pos _ _ hnf
  intro hnil
  have hlen0 : (mesh_template_faces m).length = 0 := by rw [hnil]; rfl
  simp only [mesh_template_faces, mesh_cell_template_faces, hm, List.map_cons,
    List.flatten_cons, List.flatten_append, List.length_append] at hlen0
  have h1 : (block_template_faces b).flatten.length = n * nf := by
    rw [List.length_flatten, hl]; simp
  have h2 : 0 < n * nf := Nat.mul_pos hn0 hpos
  omega

theorem take_subset_take {α : Type} (l : List α) (j i : Nat) (hji : j ≤ i) (a : α)
    (h : a ∈ l.take j) : a ∈ l.take i := by
  have : l.take j = (l.take i).take j := by
    rw [List.take_take, Nat.min_eq_left hji]
  rw [this] at h
  exact List.mem_of_mem_take h

theorem mem_take_getElem? {α : Type} (l : List α) (i : Nat) (a : α) (h : a ∈ l.take i) :
    ∃ j, j < i ∧ l[j]? = some a := by
  obtain ⟨j, hj⟩ := List.mem_iff_getElem?.mp h
  rw [List.getElem?_take] at hj
  by_cases hji : j < i
  · rw [if_pos hji] at hj; exact ⟨j, hji, hj⟩
  · rw [if_neg hji] at hj; simp at hj

theorem dedup_inv_new_id {F : List (List Int)} {I : List Nat} {FL : List (List Int)}
    (inv : dedup_inv F I FL) (i a : Nat) (hi : I[i]? = some a) (hnot : a ∉ I.take i) :
    (I.take i).toFinset = Finset.range a := by
  ext x
  simp only [List.mem_toFinset, Finset.mem_range]
  constructor
  · intro hx
    by_contra hlt
    have hne : x ≠ a := by
      intro e; rw [e] at hx; exact hnot hx
    have hax : a < x := by omega
    obtain ⟨j, hji, hj⟩ := mem_take_getElem? _ _ _ hx
    have := inv.below j x hj a hax
    exact hnot (take_subset_take _ _ _ (Nat.le_of_lt hji) _ this)
  · intro hx
    exact inv.below i a hi x hx

theorem dedup_inv_successive {F : List (List Int)} {I : List Nat} {FL : List (List Int)}
    (inv : dedup_inv F I FL) (k : Nat) (hk : k + 1 < FL.length) :
    ∃ i j, i < j ∧ I[i]? = some k ∧ k ∉ I.take i ∧ I[j]? = some (k + 1) ∧
      (k + 1) ∉ I.take j := by
  obtain ⟨j, hj, hjnot⟩ := first_occurrence I (k + 1) (inv.onto (k + 1) hk)
  have hkmem := inv.below j (k + 1) hj k (by omega)
  obtain ⟨i, hi, hinot⟩ := first_occurrence (I.take j) k hkmem
  have hilt : i < j := by
    have := getElem?_lt_of_some _ _ _ hi
    simp only [List.length_take] at this
    omega
  rw [List.getElem?_take_of_lt hilt] at hi
  rw [List.take_take, Nat.min_eq_left (Nat.le_of_lt hilt)] at hinot
  exact ⟨i, j, hilt, hi, hinot, hj, hjnot⟩

/-- C3: face ids are given in first-encounter order: in the derived cell->face table,
read in block-insertion order, then element order, then template position, the first
entry is face id 0, for every `k` with `k+1` below the face count the first
occurrence of id `k` comes before the first occurrence of id `k+1`, and each entry
that does not occur earlier equals the number of distinct ids before it. -/
theorem dedup_first_encounter_order (m : fe_mesh_t) (h : derivable_fe_mesh m) :
    ∃ fv, mesh_from_fe_mesh m = some fv ∧
      (m.blocks ≠ [] → fv.cell_faces[0]? = some 0) ∧
      (∀ k : Nat, (k : Int) + 1 < fv.num_faces →
        ∃ i j, i < j ∧ fv.cell_faces[i]? = some (k : Int) ∧
          (k : Int) ∉ fv.cell_faces.take i ∧
          fv.cell_faces[j]? = some ((k : Int) + 1) ∧
          ((k : Int) + 1) ∉ fv.cell_faces.take j) ∧
      (∀ (i : Nat) (a : Int), fv.cell_faces[i]? = some a → a ∉ fv.cell_faces.take i →
        a = (((fv.cell_faces.take i).toFinset.card : Nat) : Int)) := by
  obtain ⟨fc, hfv, _, _⟩ := mesh_from_fe_mesh_derivable m h
  refine ⟨_, hfv, ?_, ?_, ?_⟩
  all_goals simp only [derived_mesh]
  all_goals have inv := dedup_inv_run (mesh_template_faces m)
  · intro hb
    have hne := mesh_template_faces_ne_nil m h hb
    have hlen : 0 < (dedup_run (mesh_template_faces m)).1.length := by
      rw [inv.len]; exact List.length_pos.mpr hne
    obtain ⟨a, ha⟩ : ∃ a, (dedup_run (mesh_template_faces m)).1[0]? = some a :=
      ⟨_, List.getElem?_eq_getElem hlen⟩
    have ha0 : a = 0 := by
      by_contra hne0
      have := inv.below 0 a ha 0 (by omega)
      simp at this
    rw [(getElem?_map_ofNat _ 0 0).mpr ⟨a, ha, by rw [ha0]; rfl⟩]
  · intro k hk
    obtain ⟨i, j, hij, hi, hinot, hj, hjnot⟩ := dedup_inv_successive inv k (by omega)
    refine ⟨i, j, hij, ?_, ?_, ?_, ?_⟩
    · exact (getElem?_map_ofNat _ i _).mpr ⟨k, hi, rfl⟩
    · rw [mem_take_map_ofNat]; exact hinot
    · exact (getElem?_map_ofNat _ j _).mpr ⟨k + 1, hj, by push_cast; ring⟩
    · have e : ((k : Int) + 1) = ((k + 1 : Nat) : Int) := by push_cast; ring
      rw [e, mem_take_map_ofNat]; exact hjnot
  · intro i z hz hnot
    obtain ⟨a, ha, rfl⟩ := (getElem?_map_ofNat _ i z).mp hz
    rw [mem_take_map_ofNat] at hnot
    have hset := dedup_inv_new_id inv i a ha hnot
    congr 1
    rw [← List.map_take, toFinset_map_ofNat,
      Finset.card_image_of_injective _ (fun x y hxy => Int.ofNat.inj hxy), hset,
      Finset.card_range]

/-- C4: for every face id `f` given by the deduplication, the slice
`face_nodes[face_node_offsets[f] .. face_node_offsets[f+1])` of the face->node table
is the node list, in template order, of the first element-face incidence with id
`f`; a call of `map_nodes_to_face` that finds its sorted tuple in the map changes
neither the map nor the table. -/
theorem dedup_face_nodes_first_incidence (m : fe_mesh_t) (h : derivable_fe_mesh m) :
    ∃ fv, mesh_from_fe_mesh m = some fv ∧
      (∀ f : Nat, (f : Int) < fv.num_faces →
        ∃ i t, fv.cell_faces[i]? = some (f : Int) ∧ (f : Int) ∉ fv.cell_faces.take i ∧
          (mesh_template_faces m)[i]? = some t ∧ mesh_face_nodes fv f = some t) ∧
      (∀ (st : dedup_state) (nodes : List Int) (num_nodes : Nat),
        int_tuple_int_unordered_map_get st.node_face_map (int_qsort (nodes.take num_nodes))
          ≠ none → (map_nodes_to_face st nodes num_nodes).2 = st) := by
  obtain ⟨fc, hfv, _, _⟩ := mesh_from_fe_mesh_derivable m h
  refine ⟨_, hfv, ?_, ?_⟩
  · simp only [derived_mesh, mesh_face_nodes]
    have inv := dedup_inv_run (mesh_template_faces m)
    intro f hf
    have hflt : f < (dedup_run (mesh_template_faces m)).2.length := by omega
    obtain ⟨i, hi, hinot⟩ := first_occurrence _ f (inv.onto f hflt)
    have hilt : i < (mesh_template_faces m).length := by
      rw [← inv.len]; exact getElem?_lt_of_some _ _ _ hi
    obtain ⟨t, ht⟩ : ∃ t, (mesh_template_faces m)[i]? = some t :=
      ⟨_, List.getElem?_eq_getElem hilt⟩
    refine ⟨i, t, ?_, ?_, ht, ?_⟩
    · exact (getElem?_map_ofNat _ i _).mpr ⟨f, hi, rfl⟩
    · rw [mem_take_map_ofNat]; exact hinot
    · exact segment_psums_flatten _ f t (inv.first i f t hi ht hinot)
  · intro st nodes num_nodes hget
    unfold map_nodes_to_face
    simp only []
    cases hg : int_tuple_int_unordered_map_get st.node_face_map
        (int_qsort (nodes.take num_nodes)) with
    | none => exact absurd hg hget
    | some entry => rfl

/-! ## A concrete mesh -/

theorem two_tetrahedra_block_new :
    fe_block_new 2 FE_TETRAHEDRON 4 [0, 1, 2, 3, 4, 2, 1, 3] = some two_tetrahedra_block := by
  decide

theorem two_tetrahedra_mesh_built :
    (fe_mesh_new 0 5).bind (fun mesh => fe_mesh_add_block mesh "block_1" two_tetrahedra_block)
      = some two_tetrahedra_mesh := by
  decide

theorem two_tetrahedra_mesh_derivable : derivable_fe_mesh two_tetrahedra_mesh where
  blocks := by
    intro b hb
    simp only [two_tetrahedra_mesh, List.mem_singleton] at hb
    subst hb
    exact ⟨2, 4, [0, 1, 2, 3, 4, 2, 1, 3], two_tetrahedra_block_new, by decide, by decide,
      by decide⟩
  elements := by decide
  no_faces := rfl
  no_edges := rfl
  positions := by decide
  elem_set_names := by decide
  face_set_names := by decide
  edge_set_names := by decide
  node_set_names := by decide

theorem two_tetrahedra_mesh_translated :
    mesh_from_fe_mesh two_tetrahedra_mesh = some two_tetrahedra_translation := by
  decide

/-- The hypothesis of `dedup_face_count` holds of `two_tetrahedra_mesh`, and so
does its conclusion. -/
theorem dedup_face_count_witness :
    derivable_fe_mesh two_tetrahedra_mesh ∧
    ∃ fv, mesh_from_fe_mesh two_tetrahedra_mesh = some fv ∧
      fv.num_faces =
        ((((mesh_template_faces two_tetrahedra_mesh).map int_qsort).toFinset.card : Nat) : Int) :=
  ⟨two_tetrahedra_mesh_derivable,
   dedup_face_count two_tetrahedra_mesh two_tetrahedra_mesh_derivable⟩

/-- The hypothesis of `dedup_same_id_iff_perm` holds of `two_tetrahedra_mesh`; its
conclusion there, at the shared face: position 2 of cell 0 and position 2 of cell 1. -/
theorem dedup_same_id_iff_perm_witness :
    derivable_fe_mesh two_tetrahedra_mesh ∧
    ∃ fv, mesh_from_fe_mesh two_tetrahedra_mesh = some fv ∧
      ∃ f1 f2, (mesh_cell_faces fv 0)[2]? = some f1 ∧ (mesh_cell_faces fv 1)[2]? = some f2 ∧
        ((f1 = f2 ↔ List.Perm ([1, 2, 3] : List Int) [2, 1, 3]) ∧
         (f1 = f2 ↔ int_qsort [1, 2, 3] = int_qsort [2, 1, 3])) := by
  refine ⟨two_tetrahedra_mesh_derivable, ?_⟩
  obtain ⟨fv, hfv, hall⟩ := dedup_same_id_iff_perm two_tetrahedra_mesh two_tetrahedra_mesh_derivable
  exact ⟨fv, hfv, hall 0 2 1 2 [[0, 1, 2], [0, 1, 3], [1, 2, 3], [2, 0, 3]]
    [[4, 2, 1], [4, 2, 3], [2, 1, 3], [1, 4, 3]] [1, 2, 3] [2, 1, 3]
    (by decide) (by decide) (by decide) (by decide)⟩

/-- The hypothesis of `dedup_first_encounter_order` holds of `two_tetrahedra_mesh`,
and so does its conclusion. -/
theorem dedup_first_encounter_order_witness :
    derivable_fe_mesh two_tetrahedra_mesh ∧
    ∃ fv, mesh_from_fe_mesh two_tetrahedra_mesh = some fv ∧
      (two_tetrahedra_mesh.blocks ≠ [] → fv.cell_faces[0]? = some 0) ∧
      (∀ k : Nat, (k : Int) + 1 < fv.num_faces →
        ∃ i j, i < j ∧ fv.cell_faces[i]? = some (k : Int) ∧
          (k : Int) ∉ fv.cell_faces.take i ∧
          fv.cell_faces[j]? = some ((k : Int) + 1) ∧
          ((k : Int) + 1) ∉ fv.cell_faces.take j) ∧
      (∀ (i : Nat) (a : Int), fv.cell_faces[i]? = some a → a ∉ fv.cell_faces.take i →
        a = (((fv.cell_faces.take i).toFinset.card : Nat) : Int)) :=
  ⟨two_tetrahedra_mesh_derivable,
   dedup_first_encounter_order two_tetrahedra_mesh two_tetrahedra_mesh_derivable⟩

/-- The hypothesis of `dedup_face_nodes_first_incidence` holds of
`two_tetrahedra_mesh`, and so does its conclusion. -/
theorem dedup_face_nodes_first_incidence_witness :
    derivable_fe_mesh two_tetrahedra_mesh ∧
    ∃ fv, mesh_from_fe_mesh two_tetrahedra_mesh = some fv ∧
      (∀ f : Nat, (f : Int) < fv.num_faces →
        ∃ i t, fv.cell_faces[i]? = some (f : Int) ∧ (f : Int) ∉ fv.cell_faces.take i ∧
          (mesh_template_faces two_tetrahedra_mesh)[i]? = some t ∧
          mesh_face_nodes fv f = some t) ∧
      (∀ (st : dedup_state) (nodes : List Int) (num_nodes : Nat),
        int_tuple_int_unordered_map_get st.node_face_map (int_qsort (nodes.take num_nodes))
          ≠ none → (map_nodes_to_face st nodes num_nodes).2 = st) :=
  ⟨two_tetrahedra_mesh_derivable,
   dedup_face_nodes_first_incidence two_tetrahedra_mesh two_tetrahedra_mesh_derivable⟩

/-! ## The face templates -/

theorem dedup_step_fresh (fl : List (List Int)) (f : List Int)
    (h : int_qsort f ∉ fl.map int_qsort) :
    dedup_step ([], fl) f = ([fl.length], fl ++ [f]) := by
  simp [dedup_step, h]

theorem dedup_step_known (fl : List (List Int)) (f : List Int) (j : Nat)
    (hj : (fl.map int_qsort)[j]? = some (int_qsort f)) (hnd : (fl.map int_qsort).Nodup) :
    dedup_step ([], fl) f = ([j], fl) := by
  have hmem : int_qsort f ∈ fl.map int_qsort := List.mem_iff_getElem?.mpr ⟨j, hj⟩
  obtain ⟨hlt, hget⟩ := key_index_spec _ _ hmem
  have hjlt := getElem?_lt_of_some _ _ _ hj
  rw [List.getElem?_eq_getElem hlt] at hget
  rw [List.getElem?_eq_getElem hjlt] at hj
  have heq : key_index (int_qsort f) (fl.map int_qsort) = j :=
    (List.Nodup.getElem_inj_iff hnd).mp ((Option.some.inj hget).trans (Option.some.inj hj).symm)
  simp [dedup_step, hmem, heq]

theorem dedup_from_fresh (F : List (List Int)) :
    ∀ fl : List (List Int), ((fl ++ F).map int_qsort).Nodup →
      dedup_from fl F = (List.range' fl.length F.length, fl ++ F) := by
  induction F with
  | nil => intro fl _; simp [dedup_from_nil]
  | cons f F ih =>
    intro fl hnd
    have hnot : int_qsort f ∉ fl.map int_qsort := by
      rw [List.map_append, List.nodup_append] at hnd
      intro hmem
      exact hnd.2.2 hmem (by simp)
    rw [dedup_from_cons, dedup_step_fresh fl f hnot]
    simp only []
    rw [ih (fl ++ [f]) (by simpa [List.append_assoc] using hnd)]
    simp [List.range'_succ, List.append_assoc]

/-- The reference run over faces with pairwise distinct sorted tuples: the ids are
`0, 1, ...` and every face is recorded. -/
theorem dedup_run_of_nodup (F : List (List Int)) (h : (F.map int_qsort).Nodup) :
    dedup_run F = (List.range F.length, F) := by
  have := dedup_from_fresh F [] (by simpa using h)
  simpa [dedup_run, List.range_eq_range'] using this

theorem not_subset_of_mem (x : Int) (f g : List Int) (hx : x ∈ f) (hg : x ∉ g) :
    ¬ f ⊆ g := fun h => hg (h hx)

theorem keys_nodup_of_pairwise (F : List (List Int))
    (h : F.Pairwise (fun f g => ¬ f ⊆ g)) : (F.map int_qsort).Nodup := by
  unfold List.Nodup
  rw [List.pairwise_map]
  refine h.imp ?_
  intro f g hfg heq
  exact hfg ((int_qsort_eq_iff f g).mp heq).subset

theorem tetrahedron_keys_nodup (a0 a1 a2 a3 : Int) (hd : [a0, a1, a2, a3].Nodup) :
    (([[a0, a1, a2], [a0, a1, a3], [a1, a2, a3], [a2, a0, a3]] : List (List Int)).map
      int_qsort).Nodup := by
  apply keys_nodup_of_pairwise
  simp only [List.nodup_cons, List.mem_cons, List.mem_singleton, List.not_mem_nil,
    List.nodup_nil, or_false, not_or, and_true, not_false_eq_true] at hd
  simp only [List.pairwise_cons, List.mem_cons, List.mem_singleton, List.not_mem_nil,
    List.cons_subset, List.nil_subset, forall_eq_or_imp, forall_eq, or_false, and_true,
    IsEmpty.forall_iff, implies_true, List.Pairwise.nil]
  omega

theorem hexahedron_keys_nodup (a0 a1 a2 a3 a4 a5 a6 a7 : Int)
    (hd : [a0, a1, a2, a3, a4, a5, a6, a7].Nodup) :
    (([[a0, a1, a2, a3], [a4, a5, a6, a7], [a0, a1, a5, a4], [a2, a3, a7, a6],
       [a1, a2, a6, a5], [a3, a0, a4, a7]] : List (List Int)).map int_qsort).Nodup := by
  apply keys_nodup_of_pairwise
  simp only [List.nodup_cons, List.mem_cons, List.mem_singleton, List.not_mem_nil,
    List.nodup_nil, or_false, not_or, and_true, not_false_eq_true] at hd
  obtain ⟨⟨h01, h02, h03, h04, h05, h06, h07⟩, ⟨h12, h13, h14, h15, h16, h17⟩,
    ⟨h23, h24, h25, h26, h27⟩, ⟨h34, h35, h36, h37⟩, ⟨h45, h46, h47⟩, ⟨h56, h57⟩, h67⟩ := hd
  simp only [List.pairwise_cons, List.mem_cons, List.mem_singleton, List.not_mem_nil,
    List.cons_subset, List.nil_subset, forall_eq_or_imp, forall_eq, or_false, and_true,
    IsEmpty.forall_iff, implies_true, List.Pairwise.nil]
  refine ⟨⟨?_, ?_, ?_, ?_, ?_⟩, ⟨?_, ?_, ?_, ?_⟩, ⟨?_, ?_, ?_⟩, ⟨?_, ?_⟩, ?_⟩
  · intro hc; have hw := hc.1; simp [h04, h05, h06, h07] at hw
  · intro hc; have hw := hc.2.2.1; simp [Ne.symm h02, Ne.symm h12, h25, h24] at hw
  · intro hc; have hw := hc.1; simp [h02, h03, h07, h06] at hw
  · intro hc; have hw := hc.1; simp [h01, h02, h06, h05] at hw
  · intro hc; have hw := hc.2.1; simp [h13, Ne.symm h01, h14, h17] at hw
  · intro hc; have hw := hc.2.2.1; simp [Ne.symm h06, Ne.symm h16, Ne.symm h56, Ne.symm h46] at hw
  · intro hc; have hw := hc.1; simp [Ne.symm h24, Ne.symm h34, h47, h46] at hw
  · intro hc; have hw := hc.1; simp [Ne.symm h14, Ne.symm h24, h46, h45] at hw
  · intro hc; have hw := hc.2.1; simp [Ne.symm h35, Ne.symm h05, Ne.symm h45, h57] at hw
  · intro hc; have hw := hc.1; simp [h02, h03, h07, h06] at hw
  · intro hc; have hw := hc.1; simp [h01, h02, h06, h05] at hw
  · intro hc; have hw := hc.2.1; simp [h13, Ne.symm h01, h14, h17] at hw
  · intro hc; have hw := hc.2.1; simp [Ne.symm h13, Ne.symm h23, h36, h35] at hw
  · intro hc; have hw := hc.1; simp [h23, Ne.symm h02, h24, h27] at hw
  · intro hc; have hw := hc.1; simp [h13, Ne.symm h01, h14, h17] at hw

theorem tetrahedron_block_faces (a0 a1 a2 a3 : Int) (b : fe_block_t)
    (hnew : fe_block_new 1 FE_TETRAHEDRON 4 [a0, a1, a2, a3] = some b) :
    block_template_faces b = [[[a0, a1, a2], [a0, a1, a3], [a1, a2, a3], [a2, a0, a3]]] := by
  have hb : b = { num_elem := 1, elem_type := FE_TETRAHEDRON,
                  elem_face_offsets := none, elem_faces := none,
                  elem_node_offsets := some [0, 4],
                  elem_nodes := some [a0, a1, a2, a3] } := by
    simp [fe_block_new, uniform_offsets, read_slice] at hnew
    exact hnew.symm
  subst hb
  have hr : List.range 1 = [0] := rfl
  simp [block_template_faces, block_element_nodes, segment, read_int, read_slice,
    template_faces, face_node_indices, hr]

theorem hexahedron_block_faces (a0 a1 a2 a3 a4 a5 a6 a7 : Int) (b : fe_block_t)
    (hnew : fe_block_new 1 FE_HEXAHEDRON 8 [a0, a1, a2, a3, a4, a5, a6, a7] = some b) :
    block_template_faces b =
      [[[a0, a1, a2, a3], [a4, a5, a6, a7], [a0, a1, a5, a4], [a2, a3, a7, a6],
        [a1, a2, a6, a5], [a3, a0, a4, a7]]] := by
  have hb : b = { num_elem := 1, elem_type := FE_HEXAHEDRON,
                  elem_face_offsets := none, elem_faces := none,
                  elem_node_offsets := some [0, 8],
                  elem_nodes := some [a0, a1, a2, a3, a4, a5, a6, a7] } := by
    simp [fe_block_new, uniform_offsets, read_slice] at hnew
    exact hnew.symm
  subst hb
  have hr : List.range 1 = [0] := rfl
  simp [block_template_faces, block_element_nodes, segment, read_int, read_slice,
    template_faces, face_node_indices, hr]

/-- C6: for an FE mesh holding a single block with a single tetrahedron whose four
node indices are pairwise distinct, `mesh_from_fe_mesh` yields exactly 4 faces, the
face list of the cell is `[0,1,2,3]`, and for each of the 4 faces slot 0 of
`face_cells` is cell 0 and slot 1 is the sentinel `-1`. -/
theorem single_tetrahedron_mesh (m : fe_mesh_t) (h : derivable_fe_mesh m) (b : fe_block_t)
    (a0 a1 a2 a3 : Int) (hb : m.blocks = [b])
    (hnew : fe_block_new 1 FE_TETRAHEDRON 4 [a0, a1, a2, a3] = some b)
    (hd : [a0, a1, a2, a3].Nodup) :
    ∃ fv, mesh_from_fe_mesh m = some fv ∧ fv.num_cells = 1 ∧ fv.num_faces = 4 ∧
      mesh_cell_faces fv 0 = [0, 1, 2, 3] ∧ fv.cell_faces = [0, 1, 2, 3] ∧
      fv.face_cells = [0, -1, 0, -1, 0, -1, 0, -1] := by
  obtain ⟨fc, hfv, hloop, _⟩ := mesh_from_fe_mesh_derivable m h
  have hcells : mesh_cell_template_faces m =
      [[[a0, a1, a2], [a0, a1, a3], [a1, a2, a3], [a2, a0, a3]]] := by
    simp [mesh_cell_template_faces, hb, tetrahedron_block_faces a0 a1 a2 a3 b hnew]
  have hF : mesh_template_faces m =
      [[a0, a1, a2], [a0, a1, a3], [a1, a2, a3], [a2, a0, a3]] := by
    simp [mesh_template_faces, hcells]
  have hrun := dedup_run_of_nodup _ (tetrahedron_keys_nodup a0 a1 a2 a3 hd)
  have hnum : fe_mesh_num_elements m = 1 := by
    rw [mesh_cells_length m h, hcells]; rfl
  rw [hcells, hF, hrun] at hloop
  have hfc : fc = [0, -1, 0, -1, 0, -1, 0, -1] := by
    have : face_cells_loop (psums 0 [4]) [0, 1, 2, 3] 1 0 (List.replicate 8 (-1)) =
        some [0, -1, 0, -1, 0, -1, 0, -1] := by decide
    simp only [List.map_cons, List.map_nil, List.length_cons, List.length_nil] at hloop
    have h2 : face_cells_loop (psums 0 [4]) [0, 1, 2, 3] 1 0 (List.replicate 8 (-1)) = some fc :=
      hloop
    rw [this] at h2
    exact (Option.some.inj h2).symm
  refine ⟨_, hfv, ?_, ?_, ?_, ?_, ?_⟩
  · simp only [derived_mesh]; exact hnum
  · simp only [derived_mesh, hF, hrun]; rfl
  · simp only [mesh_cell_faces, derived_mesh, hF, hrun, hcells, List.map_cons, List.map_nil,
      List.length_cons, List.length_nil]
    decide
  · simp only [derived_mesh, hF, hrun]; rfl
  · simp only [derived_mesh]; exact hfc

theorem mesh_of_block_built (num_nodes : Int) (block : fe_block_t) (h : 4 ≤ num_nodes)
    (hf : block.elem_faces = none) :
    (fe_mesh_new 0 num_nodes).bind (fun mesh => fe_mesh_add_block mesh "block_1" block)
      = some (mesh_of_block num_nodes block) := by
  have h4 : ¬ num_nodes < 4 := by omega
  simp [fe_mesh_new, h4, fe_mesh_add_block, hf, mesh_of_block, fe_block_num_elements,
    tagger_new]

theorem mesh_of_block_derivable (num_nodes : Int) (block : fe_block_t)
    (hb : nonpolyhedral_block block) : derivable_fe_mesh (mesh_of_block num_nodes block) where
  blocks := by
    intro b hmem
    simp only [mesh_of_block, List.mem_singleton] at hmem
    subst hmem
    exact hb
  elements := by simp [mesh_of_block, fe_mesh_num_elements, fe_block_num_elements]
  no_faces := rfl
  no_edges := rfl
  positions := by simp [mesh_of_block]
  elem_set_names := by simp [mesh_of_block]
  face_set_names := by simp [mesh_of_block]
  edge_set_names := by simp [mesh_of_block]
  node_set_names := by simp [mesh_of_block]

theorem one_tetrahedron_block_new :
    fe_block_new 1 FE_TETRAHEDRON 4 [0, 1, 2, 3] = some one_tetrahedron_block := by
  decide

theorem one_hexahedron_block_new :
    fe_block_new 1 FE_HEXAHEDRON 8 [0, 1, 2, 3, 4, 5, 6, 7] = some one_hexahedron_block := by
  decide

theorem three_tetrahedra_block_new :
    fe_block_new 3 FE_TETRAHEDRON 4 [0, 1, 2, 3, 4, 2, 1, 3, 5, 1, 2, 3] =
      some three_tetrahedra_block := by
  decide

theorem one_tetrahedron_mesh_derivable :
    derivable_fe_mesh (mesh_of_block 4 one_tetrahedron_block) :=
  mesh_of_block_derivable 4 one_tetrahedron_block
    ⟨1, 4, [0, 1, 2, 3], one_tetrahedron_block_new, by decide, by decide, by decide⟩

theorem one_hexahedron_mesh_derivable :
    derivable_fe_mesh (mesh_of_block 8 one_hexahedron_block) :=
  mesh_of_block_derivable 8 one_hexahedron_block
    ⟨1, 8, [0, 1, 2, 3, 4, 5, 6, 7], one_hexahedron_block_new, by decide, by decide, by decide⟩

theorem three_tetrahedra_mesh_derivable :
    derivable_fe_mesh (mesh_of_block 6 three_tetrahedra_block) :=
  mesh_of_block_derivable 6 three_tetrahedra_block
    ⟨3, 4, [0, 1, 2, 3, 4, 2, 1, 3, 5, 1, 2, 3], three_tetrahedra_block_new, by decide,
     by decide, by decide⟩

/-- The hypotheses of `single_tetrahedron_mesh` hold of the mesh holding
`one_tetrahedron_block`, and so does its conclusion. -/
theorem single_tetrahedron_mesh_witness :
    derivable_fe_mesh (mesh_of_block 4 one_tetrahedron_block) ∧
    ([0, 1, 2, 3] : List Int).Nodup ∧
    ∃ fv, mesh_from_fe_mesh (mesh_of_block 4 one_tetrahedron_block) = some fv ∧
      fv.num_cells = 1 ∧ fv.num_faces = 4 ∧
      mesh_cell_faces fv 0 = [0, 1, 2, 3] ∧ fv.cell_faces = [0, 1, 2, 3] ∧
      fv.face_cells = [0, -1, 0, -1, 0, -1, 0, -1] :=
  ⟨one_tetrahedron_mesh_derivable, by decide,
   single_tetrahedron_mesh (mesh_of_block 4 one_tetrahedron_block)
     one_tetrahedron_mesh_derivable one_tetrahedron_block 0 1 2 3 rfl
     one_tetrahedron_block_new (by decide)⟩

/-- C8: for an FE mesh holding a single hexahedron block of one element whose eight
node indices are pairwise distinct, `mesh_from_fe_mesh` yields exactly 6 faces, every
face has exactly 4 nodes in the face->node table, and the cell->face table of the one
cell has length 6, with `cell_face_offsets = [0, 6]`. -/
theorem single_hexahedron_mesh (m : fe_mesh_t) (h : derivable_fe_mesh m) (b : fe_block_t)
    (a0 a1 a2 a3 a4 a5 a6 a7 : Int) (hb : m.blocks = [b])
    (hnew : fe_block_new 1 FE_HEXAHEDRON 8 [a0, a1, a2, a3, a4, a5, a6, a7] = some b)
    (hd : [a0, a1, a2, a3, a4, a5, a6, a7].Nodup) :
    ∃ fv, mesh_from_fe_mesh m = some fv ∧ fv.num_cells = 1 ∧ fv.num_faces = 6 ∧
      (∀ f : Nat, f < 6 → ∃ nodes, mesh_face_nodes fv f = some nodes ∧ nodes.length = 4) ∧
      fv.cell_face_offsets = [0, 6] ∧ fv.cell_faces.length = 6 ∧
      mesh_cell_faces fv 0 = [0, 1, 2, 3, 4, 5] := by
  obtain ⟨fc, hfv, _, _⟩ := mesh_from_fe_mesh_derivable m h
  have hcells : mesh_cell_template_faces m =
      [[[a0, a1, a2, a3], [a4, a5, a6, a7], [a0, a1, a5, a4], [a2, a3, a7, a6],
        [a1, a2, a6, a5], [a3, a0, a4, a7]]] := by
    simp [mesh_cell_template_faces, hb, hexahedron_block_faces a0 a1 a2 a3 a4 a5 a6 a7 b hnew]
  have hF : mesh_template_faces m =
      [[a0, a1, a2, a3], [a4, a5, a6, a7], [a0, a1, a5, a4], [a2, a3, a7, a6],
        [a1, a2, a6, a5], [a3, a0, a4, a7]] := by
    simp [mesh_template_faces, hcells]
  have hrun := dedup_run_of_nodup _ (hexahedron_keys_nodup a0 a1 a2 a3 a4 a5 a6 a7 hd)
  have hnum : fe_mesh_num_elements m = 1 := by
    rw [mesh_cells_length m h, hcells]; rfl
  refine ⟨_, hfv, ?_, ?_, ?_, ?_, ?_, ?_⟩
  · simp only [derived_mesh]; exact hnum
  · simp only [derived_mesh, hF, hrun]; rfl
  · intro f hf
    simp only [derived_mesh, mesh_face_nodes, hF, hrun]
    have hlt : f < ([[a0, a1, a2, a3], [a4, a5, a6, a7], [a0, a1, a5, a4], [a2, a3, a7, a6],
        [a1, a2, a6, a5], [a3, a0, a4, a7]] : List (List Int)).length := hf
    refine ⟨_, segment_psums_flatten _ f _ (List.getElem?_eq_getElem hlt), ?_⟩
    have hall : ∀ t ∈ ([[a0, a1, a2, a3], [a4, a5, a6, a7], [a0, a1, a5, a4],
        [a2, a3, a7, a6], [a1, a2, a6, a5], [a3, a0, a4, a7]] : List (List Int)),
        t.length = 4 := by
      intro t ht
      simp only [List.mem_cons, List.mem_singleton, List.not_mem_nil, or_false] at ht
      rcases ht with rfl | rfl | rfl | rfl | rfl | rfl <;> rfl
    exact hall _ (List.getElem_mem _)
  · simp only [derived_mesh, hcells]; rfl
  · simp only [derived_mesh, hF, hrun]; rfl
  · simp only [mesh_cell_faces, derived_mesh, hF, hrun, hcells, List.map_cons, List.map_nil,
      List.length_cons, List.length_nil]
    decide

/-- The hypotheses of `single_hexahedron_mesh` hold of the mesh holding
`one_hexahedron_block`, and so does its conclusion. -/
theorem single_hexahedron_mesh_witness :
    derivable_fe_mesh (mesh_of_block 8 one_hexahedron_block) ∧
    ([0, 1, 2, 3, 4, 5, 6, 7] : List Int).Nodup ∧
    ∃ fv, mesh_from_fe_mesh (mesh_of_block 8 one_hexahedron_block) = some fv ∧
      fv.num_cells = 1 ∧ fv.num_faces = 6 ∧
      (∀ f : Nat, f < 6 → ∃ nodes, mesh_face_nodes fv f = some nodes ∧ nodes.length = 4) ∧
      fv.cell_face_offsets = [0, 6] ∧ fv.cell_faces.length = 6 ∧
      mesh_cell_faces fv 0 = [0, 1, 2, 3, 4, 5] :=
  ⟨one_hexahedron_mesh_derivable, by decide,
   single_hexahedron_mesh (mesh_of_block 8 one_hexahedron_block)
     one_hexahedron_mesh_derivable one_hexahedron_block 0 1 2 3 4 5 6 7 rfl
     one_hexahedron_block_new (by decide)⟩

/-! ## The cells of a face -/

theorem filter_face_pairs (l : List Int) (c f : Int) :
    ((l.map (fun x => (x, c))).filter (fun p => p.1 = f)).map Prod.snd =
      List.replicate (l.count f) c := by
  induction l with
  | nil => rfl
  | cons x xs ih =>
    by_cases hx : x = f
    · subst hx
      simp only [List.map_cons, List.count_cons_self, List.replicate_succ]
      rw [List.filter_cons_of_pos (by simp), List.map_cons, ih]
    · simp only [List.map_cons]
      rw [List.filter_cons_of_neg (by simpa using hx), ih, List.count_cons_of_ne (Ne.symm hx)]

theorem incident_cells_of_cells (g : Nat → List Int) (f : Int) :
    ∀ cs : List Nat,
      (((cs.map (fun c => (g c).map (fun x => (x, (c : Int))))).flatten.filter
        (fun p => p.1 = f)).map Prod.snd) =
      (cs.map (fun c => List.replicate ((g c).count f) (c : Int))).flatten := by
  intro cs
  induction cs with
  | nil => rfl
  | cons c cs ih =>
    simp only [List.map_cons, List.flatten_cons, List.filter_append, List.map_append]
    rw [ih, filter_face_pairs]

theorem incident_cells_once (g : Nat → List Int) (f : Int) :
    ∀ cs : List Nat, (∀ c ∈ cs, (g c).count f ≤ 1) →
      (cs.map (fun c => List.replicate ((g c).count f) (c : Int))).flatten =
        (cs.filter (fun c => decide (f ∈ g c))).map Int.ofNat := by
  intro cs
  induction cs with
  | nil => intro _; rfl
  | cons c cs ih =>
    intro h
    have hc := h c (List.mem_cons_self _ _)
    have ih' := ih (fun c hc => h c (List.mem_cons_of_mem _ hc))
    simp only [List.map_cons, List.flatten_cons]
    by_cases hm : f ∈ g c
    · have h1 : (g c).count f = 1 := by
        have := List.count_pos_iff.mpr hm
        omega
      rw [List.filter_cons_of_pos (by simpa using hm), h1, ih']
      rfl
    · have h0 : (g c).count f = 0 := List.count_eq_zero_of_not_mem hm
      rw [List.filter_cons_of_neg (by simpa using hm), h0, ih']
      rfl

/-- The cells of the incidences of a face, spelled out cell by cell; when the face
occurs at most once in every face list they are the cells whose face list contains
it, in increasing order. -/
theorem incident_cells_eq (cfo cf : List Int) (n : Nat) (f : Int) :
    incident_cells cfo cf n f =
        ((List.range n).map
          (fun c => List.replicate ((cell_face_list cfo cf c).count f) (c : Int))).flatten ∧
      ((∀ c, c < n → (cell_face_list cfo cf c).count f ≤ 1) →
        incident_cells cfo cf n f =
          ((List.range n).filter (fun c => decide (f ∈ cell_face_list cfo cf c))).map
            Int.ofNat) := by
  have h1 : incident_cells cfo cf n f =
      ((List.range n).map
        (fun c => List.replicate ((cell_face_list cfo cf c).count f) (c : Int))).flatten := by
    unfold incident_cells incidences
    rw [← List.range_eq_range']
    exact incident_cells_of_cells (cell_face_list cfo cf) f (List.range n)
  refine ⟨h1, ?_⟩
  intro h
  rw [h1]
  exact incident_cells_once (cell_face_list cfo cf) f (List.range n)
    (fun c hc => h c (List.mem_range.mp hc))

/-- The slots of a face of a mesh that `mesh_from_fe_mesh` returned, in terms of the
cells of its incidences. -/
theorem mesh_from_fe_mesh_slots (m : fe_mesh_t) (fv : mesh_t)
    (h : mesh_from_fe_mesh m = some fv) (f : Int) (hf0 : 0 ≤ f) (hf1 : f < fv.num_faces) :
    read_int fv.face_cells (2 * f) =
        some ((incident_cells fv.cell_face_offsets fv.cell_faces fv.num_cells.toNat f).head?.getD
          (-1)) ∧
      read_int fv.face_cells (2 * f + 1) =
        some (if 2 ≤ (incident_cells fv.cell_face_offsets fv.cell_faces
                  fv.num_cells.toNat f).length
              then (incident_cells fv.cell_face_offsets fv.cell_faces
                  fv.num_cells.toNat f).getLastD (-1)
              else -1) := by
  have hloop := mesh_from_fe_mesh_face_cells m fv h
  have hn : (2 * fv.num_faces).toNat = 2 * fv.num_faces.toNat := by omega
  rw [hn] at hloop
  exact (face_cells_loop_slots _ _ _ fv.num_faces.toNat _ hloop f hf0 (by omega)).2

theorem three_tetrahedra_mesh_translated :
    mesh_from_fe_mesh (mesh_of_block 6 three_tetrahedra_block) =
      some three_tetrahedra_translation := by
  decide

/-- C9: `mesh_from_fe_mesh` returns a mesh for every FE mesh of non-polyhedral blocks,
and in every mesh it returns, for every face `f` that occurs at most once in any one
cell's face list and in at most two cells' face lists, `face_cells[2f]` is the
lowest-indexed cell whose face list contains `f` and `face_cells[2f+1]` is the second
such cell if there is one and `-1` otherwise (`-1` in both slots when no cell has
`f`). -/
theorem face_cells_first_second (m : fe_mesh_t) :
    (derivable_fe_mesh m → ∃ fv, mesh_from_fe_mesh m = some fv) ∧
    ∀ fv, mesh_from_fe_mesh m = some fv →
      ∀ f : Int, 0 ≤ f → f < fv.num_faces →
      (∀ c, c < fv.num_cells.toNat → (mesh_cell_faces fv c).count f ≤ 1) →
      ((List.range fv.num_cells.toNat).filter
        (fun c => decide (f ∈ mesh_cell_faces fv c))).length ≤ 2 →
      read_int fv.face_cells (2 * f) =
          some ((((List.range fv.num_cells.toNat).filter
            (fun c => decide (f ∈ mesh_cell_faces fv c)))[0]?.map Int.ofNat).getD (-1)) ∧
        read_int fv.face_cells (2 * f + 1) =
          some ((((List.range fv.num_cells.toNat).filter
            (fun c => decide (f ∈ mesh_cell_faces fv c)))[1]?.map Int.ofNat).getD (-1)) := by
  constructor
  · intro h
    obtain ⟨fc, hfv, _, _⟩ := mesh_from_fe_mesh_derivable m h
    exact ⟨_, hfv⟩
  · intro fv h f hf0 hf1 honce htwo
    obtain ⟨h0, h1⟩ := mesh_from_fe_mesh_slots m fv h f hf0 hf1
    have hcells := (incident_cells_eq fv.cell_face_offsets fv.cell_faces fv.num_cells.toNat f).2
      honce
    rw [hcells] at h0 h1
    unfold mesh_cell_faces at htwo ⊢
    generalize (List.range fv.num_cells.toNat).filter
      (fun c => decide (f ∈ cell_face_list fv.cell_face_offsets fv.cell_faces c)) = cells
      at h0 h1 htwo
    rw [h0, h1]
    match cells, htwo with
    | [], _ => simp
    | [a], _ => simp
    | [a, b], _ => simp
    | _ :: _ :: _ :: _, h3 => simp at h3

/-- The two parts of `face_cells_first_second` at `two_tetrahedra_mesh`: the mesh is
translated, and the face 2 shared by its two cells has the cells 0 and 1 in its
slots. -/
theorem face_cells_first_second_witness :
    (∃ fv, mesh_from_fe_mesh two_tetrahedra_mesh = some fv) ∧
    read_int two_tetrahedra_translation.face_cells (2 * 2) = some 0 ∧
    read_int two_tetrahedra_translation.face_cells (2 * 2 + 1) = some 1 :=
  ⟨(face_cells_first_second two_tetrahedra_mesh).1 two_tetrahedra_mesh_derivable,
   (face_cells_first_second two_tetrahedra_mesh).2 two_tetrahedra_translation
     two_tetrahedra_mesh_translated 2 (by decide) (by decide) (by decide) (by decide)⟩

/-- C10, as stated, fails: three tetrahedra on one face make a face with three
incident cells, and `mesh_from_fe_mesh` returns a mesh all the same, in which slot 1
of that face holds cell 2, the cell 1 stored there before being overwritten. -/
theorem three_tetrahedra_not_rejected :
    derivable_fe_mesh (mesh_of_block 6 three_tetrahedra_block) ∧
    ∃ fv, mesh_from_fe_mesh (mesh_of_block 6 three_tetrahedra_block) = some fv ∧
      (2 ∈ mesh_cell_faces fv 0 ∧ 2 ∈ mesh_cell_faces fv 1 ∧ 2 ∈ mesh_cell_faces fv 2) ∧
      read_int fv.face_cells (2 * 2) = some 0 ∧ read_int fv.face_cells (2 * 2 + 1) = some 2 :=
  ⟨three_tetrahedra_mesh_derivable, three_tetrahedra_translation,
   three_tetrahedra_mesh_translated, by decide, by decide, by decide⟩

/-- C10, amended: `mesh_from_fe_mesh` makes no non-manifold check. It returns a mesh
for every FE mesh of non-polyhedral blocks, and in every mesh it returns, slot 0 of a
face holds the cell of the first incidence of the face in scan order (`-1` if it has
none) and slot 1 holds the cell of its last incidence when it has two or more, and
`-1` otherwise: an incidence beyond the second overwrites slot 1. -/
theorem face_cells_first_last (m : fe_mesh_t) :
    (derivable_fe_mesh m → ∃ fv, mesh_from_fe_mesh m = some fv) ∧
    ∀ fv, mesh_from_fe_mesh m = some fv →
      ∀ f : Int, 0 ≤ f → f < fv.num_faces →
      incident_cells fv.cell_face_offsets fv.cell_faces fv.num_cells.toNat f =
          ((List.range fv.num_cells.toNat).map
            (fun c => List.replicate ((mesh_cell_faces fv c).count f) (c : Int))).flatten ∧
        read_int fv.face_cells (2 * f) =
          some ((incident_cells fv.cell_face_offsets fv.cell_faces
            fv.num_cells.toNat f).head?.getD (-1)) ∧
        read_int fv.face_cells (2 * f + 1) =
          some (if 2 ≤ (incident_cells fv.cell_face_offsets fv.cell_faces
                    fv.num_cells.toNat f).length
                then (incident_cells fv.cell_face_offsets fv.cell_faces
                    fv.num_cells.toNat f).getLastD (-1)
                else -1) := by
  constructor
  · intro h
    obtain ⟨fc, hfv, _, _⟩ := mesh_from_fe_mesh_derivable m h
    exact ⟨_, hfv⟩
  · intro fv h f hf0 hf1
    exact ⟨(incident_cells_eq _ _ _ f).1, mesh_from_fe_mesh_slots m fv h f hf0 hf1⟩

/-- The two parts of `face_cells_first_last` at the mesh of three tetrahedra on one
face: the mesh is translated, and the cells of the incidences of face 2 are 0, 1, 2. -/
theorem face_cells_first_last_witness :
    (∃ fv, mesh_from_fe_mesh (mesh_of_block 6 three_tetrahedra_block) = some fv) ∧
    incident_cells three_tetrahedra_translation.cell_face_offsets
        three_tetrahedra_translation.cell_faces
        three_tetrahedra_translation.num_cells.toNat 2 = [0, 1, 2] ∧
    read_int three_tetrahedra_translation.face_cells (2 * 2) = some 0 ∧
    read_int three_tetrahedra_translation.face_cells (2 * 2 + 1) = some 2 := by
  refine ⟨(face_cells_first_last (mesh_of_block 6 three_tetrahedra_block)).1
    three_tetrahedra_mesh_derivable, by decide, ?_⟩
  have h := ((face_cells_first_last (mesh_of_block 6 three_tetrahedra_block)).2
    three_tetrahedra_translation three_tetrahedra_mesh_translated 2 (by decide)
    (by decide)).2
  have hc : incident_cells three_tetrahedra_translation.cell_face_offsets
      three_tetrahedra_translation.cell_faces
      three_tetrahedra_translation.num_cells.toNat 2 = [0, 1, 2] := by decide
  rw [hc] at h
  exact h

/-! ## Two tetrahedra on a common face -/

theorem erase_eq_erase_iff (S T : Finset Int) (hS : S.card = 4) (hT : T.card = 4)
    (hI : (S ∩ T).card = 3) (u v : Int) (hu : u ∈ S) (hv : v ∈ T) :
    S.erase u = T.erase v ↔ u ∉ T ∧ v ∉ S := by
  have hcu : (S.erase u).card = 3 := by rw [Finset.card_erase_of_mem hu, hS]
  have hcv : (T.erase v).card = 3 := by rw [Finset.card_erase_of_mem hv, hT]
  constructor
  · intro he
    have hsub : S.erase u ⊆ S ∩ T := by
      intro z hz
      rw [Finset.mem_inter]
      refine ⟨Finset.mem_of_mem_erase hz, ?_⟩
      rw [he] at hz
      exact Finset.mem_of_mem_erase hz
    have heq := Finset.eq_of_subset_of_card_le hsub (by rw [hI, hcu])
    constructor
    · intro huT
      have : u ∈ S.erase u := by rw [heq, Finset.mem_inter]; exact ⟨hu, huT⟩
      exact (Finset.not_mem_erase u S) this
    · intro hvS
      have : v ∈ T.erase v := by rw [← he, heq, Finset.mem_inter]; exact ⟨hvS, hv⟩
      exact (Finset.not_mem_erase v T) this
  · rintro ⟨huT, hvS⟩
    have h1 : S ∩ T ⊆ S.erase u := by
      intro z hz
      rw [Finset.mem_inter] at hz
      rw [Finset.mem_erase]
      exact ⟨fun e => huT (e ▸ hz.2), hz.1⟩
    have h2 : S ∩ T ⊆ T.erase v := by
      intro z hz
      rw [Finset.mem_inter] at hz
      rw [Finset.mem_erase]
      exact ⟨fun e => hvS (e ▸ hz.1), hz.2⟩
    rw [← Finset.eq_of_subset_of_card_le h1 (by rw [hI, hcu]),
      ← Finset.eq_of_subset_of_card_le h2 (by rw [hI, hcv])]

theorem erase_injOn (S : Finset Int) (u v : Int) (hu : u ∈ S)
    (h : S.erase u = S.erase v) : u = v := by
  by_contra hne
  have : u ∈ S.erase v := Finset.mem_erase.mpr ⟨hne, hu⟩
  rw [← h] at this
  exact (Finset.not_mem_erase u S) this

theorem unique_outsider (S T : Finset Int) (hS : S.card = 4) (hI : (S ∩ T).card = 3) :
    ∃ x, x ∈ S ∧ x ∉ T ∧ ∀ u ∈ S, u ≠ x → u ∈ T := by
  have hc : (S \ T).card = 1 := by
    have := Finset.card_sdiff_add_card_inter S T
    omega
  obtain ⟨x, hx⟩ := Finset.card_eq_one.mp hc
  have hxm : x ∈ S \ T := by rw [hx]; exact Finset.mem_singleton_self x
  rw [Finset.mem_sdiff] at hxm
  refine ⟨x, hxm.1, hxm.2, ?_⟩
  intro u hu hne
  by_contra huT
  have : u ∈ S \ T := Finset.mem_sdiff.mpr ⟨hu, huT⟩
  rw [hx, Finset.mem_singleton] at this
  exact hne this


theorem dedup_run_one_shared (FA pre post : List (List Int)) (y x : List Int) (p0 : Nat)
    (hx : FA[p0]? = some x) (hxy : int_qsort y = int_qsort x)
    (hnd : ((FA ++ (pre ++ post)).map int_qsort).Nodup) :
    dedup_run (FA ++ (pre ++ y :: post)) =
      (List.range' 0 (FA ++ pre).length ++
         (p0 :: List.range' (FA ++ pre).length post.length),
       FA ++ (pre ++ post)) := by
  have hnd1 : ((FA ++ pre).map int_qsort).Nodup := by
    have hsub : List.Sublist ((FA ++ pre).map int_qsort) ((FA ++ (pre ++ post)).map int_qsort) := by
      apply List.Sublist.map
      rw [← List.append_assoc]
      exact List.sublist_append_left _ _
    exact hnd.sublist hsub
  have h1 := dedup_from_fresh (FA ++ pre) [] (by simpa using hnd1)
  simp only [List.nil_append, List.length_nil] at h1
  have hp0 := getElem?_lt_of_some _ _ _ hx
  have hkey : ((FA ++ pre).map int_qsort)[p0]? = some (int_qsort y) := by
    rw [List.map_append, List.getElem?_append_left (by simpa using hp0), List.getElem?_map, hx,
      hxy]
    rfl
  have h2 := dedup_step_known (FA ++ pre) y p0 hkey hnd1
  have h3 := dedup_from_fresh post (FA ++ pre) (by simpa [List.append_assoc] using hnd)
  have hsplit : FA ++ (pre ++ y :: post) = (FA ++ pre) ++ (y :: post) := by
    simp [List.append_assoc]
  unfold dedup_run
  rw [hsplit, dedup_from_append, h1]
  simp only []
  rw [dedup_from_cons, h2]
  simp only []
  rw [h3]
  simp [List.append_assoc]

theorem toFinset_int_qsort (f : List Int) : (int_qsort f).toFinset = f.toFinset :=
  List.toFinset_eq_of_perm _ _ (List.perm_insertionSort _ f)

theorem keys_nodup_of_toFinset (F : List (List Int)) (h : (F.map List.toFinset).Nodup) :
    (F.map int_qsort).Nodup := by
  have e : F.map List.toFinset = (F.map int_qsort).map List.toFinset := by
    rw [List.map_map]
    apply List.map_congr_left
    intro f _
    exact (toFinset_int_qsort f).symm
  rw [e] at h
  exact List.Nodup.of_map _ h

theorem int_qsort_eq_of_toFinset (f g : List Int) (hf : f.Nodup) (hg : g.Nodup)
    (h : f.toFinset = g.toFinset) : int_qsort f = int_qsort g :=
  (int_qsort_eq_iff f g).mpr (List.perm_of_nodup_nodup_toFinset_eq hf hg h)

theorem erased_sets_nodup (S T : Finset Int) (hS : S.card = 4) (hT : T.card = 4)
    (hI : (S ∩ T).card = 3) (y : Int) (hy : ∀ v ∈ T, v ≠ y → v ∈ S)
    (oA oB : List Int) (hoA : oA.Nodup) (hoA1 : ∀ u ∈ oA, u ∈ S)
    (hoB : oB.Nodup) (hoB1 : ∀ v ∈ oB, v ∈ T ∧ v ≠ y) :
    (oA.map S.erase ++ oB.map T.erase).Nodup := by
  rw [List.nodup_append]
  refine ⟨?_, ?_, ?_⟩
  · exact List.Nodup.map_on (fun u hu v _ he => erase_injOn S u v (hoA1 u hu) he) hoA
  · exact List.Nodup.map_on (fun u hu v _ he => erase_injOn T u v (hoB1 u hu).1 he) hoB
  · intro E hEA hEB
    obtain ⟨u, hu, rfl⟩ := List.mem_map.mp hEA
    obtain ⟨v, hv, hev⟩ := List.mem_map.mp hEB
    have := (erase_eq_erase_iff S T hS hT hI u v (hoA1 u hu) (hoB1 v hv).1).mp hev.symm
    exact this.2 (hy v (hoB1 v hv).1 (hoB1 v hv).2)

theorem nodup_four (a0 a1 a2 a3 : Int) (hd : [a0, a1, a2, a3].Nodup) :
    a0 ≠ a1 ∧ a0 ≠ a2 ∧ a0 ≠ a3 ∧ a1 ≠ a2 ∧ a1 ≠ a3 ∧ a2 ≠ a3 := by
  simp only [List.nodup_cons, List.mem_cons, List.mem_singleton, List.not_mem_nil,
    List.nodup_nil, or_false, not_or, and_true, not_false_eq_true] at hd
  obtain ⟨⟨h01, h02, h03⟩, ⟨h12, h13⟩, h23⟩ := hd
  exact ⟨h01, h02, h03, h12, h13, h23⟩

theorem tetrahedron_face_sets (a0 a1 a2 a3 : Int) (hd : [a0, a1, a2, a3].Nodup) :
    ([a0, a1, a2] : List Int).toFinset = ([a0, a1, a2, a3] : List Int).toFinset.erase a3 ∧
    ([a0, a1, a3] : List Int).toFinset = ([a0, a1, a2, a3] : List Int).toFinset.erase a2 ∧
    ([a1, a2, a3] : List Int).toFinset = ([a0, a1, a2, a3] : List Int).toFinset.erase a0 ∧
    ([a2, a0, a3] : List Int).toFinset = ([a0, a1, a2, a3] : List Int).toFinset.erase a1 := by
  obtain ⟨h01, h02, h03, h12, h13, h23⟩ := nodup_four a0 a1 a2 a3 hd
  refine ⟨?_, ?_, ?_, ?_⟩ <;>
  · ext z
    simp only [List.toFinset_cons, List.toFinset_nil, Finset.mem_insert, Finset.mem_erase,
      Finset.not_mem_empty, or_false, insert_emptyc_eq, Finset.mem_singleton]
    omega

theorem tetrahedron_faces_nodup (a0 a1 a2 a3 : Int) (hd : [a0, a1, a2, a3].Nodup) :
    ([a0, a1, a2] : List Int).Nodup ∧ ([a0, a1, a3] : List Int).Nodup ∧
    ([a1, a2, a3] : List Int).Nodup ∧ ([a2, a0, a3] : List Int).Nodup := by
  obtain ⟨h01, h02, h03, h12, h13, h23⟩ := nodup_four a0 a1 a2 a3 hd
  refine ⟨?_, ?_, ?_, ?_⟩ <;>
  · simp only [List.nodup_cons, List.mem_cons, List.mem_singleton, List.not_mem_nil,
      List.nodup_nil, or_false, not_or, and_true, not_false_eq_true]
    omega

/-- The template face of a tetrahedron that leaves out the node `x`. -/
theorem tetrahedron_face_without (a0 a1 a2 a3 : Int) (hd : [a0, a1, a2, a3].Nodup)
    (x : Int) (hx : x ∈ [a0, a1, a2, a3]) :
    ∃ (p0 : Nat) (xf : List Int), p0 < 4 ∧
      ([[a0, a1, a2], [a0, a1, a3], [a1, a2, a3], [a2, a0, a3]] : List (List Int))[p0]? = some xf ∧
      xf.Nodup ∧ xf.toFinset = ([a0, a1, a2, a3] : List Int).toFinset.erase x := by
  obtain ⟨s0, s1, s2, s3⟩ := tetrahedron_face_sets a0 a1 a2 a3 hd
  obtain ⟨n0, n1, n2, n3⟩ := tetrahedron_faces_nodup a0 a1 a2 a3 hd
  simp only [List.mem_cons, List.mem_singleton, List.not_mem_nil, or_false] at hx
  rcases hx with rfl | rfl | rfl | rfl
  · exact ⟨2, _, by decide, rfl, n2, s2⟩
  · exact ⟨3, _, by decide, rfl, n3, s3⟩
  · exact ⟨1, _, by decide, rfl, n1, s1⟩
  · exact ⟨0, _, by decide, rfl, n0, s0⟩

/-- The template faces of a tetrahedron as the sets obtained by leaving out one
node each. -/
theorem tetrahedron_faces_erase (a0 a1 a2 a3 : Int) (hd : [a0, a1, a2, a3].Nodup) :
    ([[a0, a1, a2], [a0, a1, a3], [a1, a2, a3], [a2, a0, a3]] : List (List Int)).map
        List.toFinset =
      ([a3, a2, a0, a1] : List Int).map ([a0, a1, a2, a3] : List Int).toFinset.erase ∧
    ([a3, a2, a0, a1] : List Int).Nodup ∧
    ∀ u ∈ ([a3, a2, a0, a1] : List Int), u ∈ ([a0, a1, a2, a3] : List Int).toFinset := by
  obtain ⟨s0, s1, s2, s3⟩ := tetrahedron_face_sets a0 a1 a2 a3 hd
  obtain ⟨h01, h02, h03, h12, h13, h23⟩ := nodup_four a0 a1 a2 a3 hd
  refine ⟨?_, ?_, ?_⟩
  · simp only [List.map_cons, List.map_nil, s0, s1, s2, s3]
  · simp only [List.nodup_cons, List.mem_cons, List.mem_singleton, List.not_mem_nil,
      List.nodup_nil, or_false, not_or, and_true, not_false_eq_true]
    omega
  · intro u hu
    simp only [List.mem_cons, List.mem_singleton, List.not_mem_nil, or_false] at hu
    simp only [List.mem_toFinset, List.mem_cons, List.mem_singleton, List.not_mem_nil, or_false]
    omega

/-- The template faces of a tetrahedron split at the face that leaves out the node
`y`: the other three faces leave out the other three nodes. -/
theorem tetrahedron_faces_split (b0 b1 b2 b3 : Int) (hd : [b0, b1, b2, b3].Nodup)
    (y : Int) (hy : y ∈ [b0, b1, b2, b3]) :
    ∃ (pre post : List (List Int)) (yf : List Int) (oB : List Int),
      ([[b0, b1, b2], [b0, b1, b3], [b1, b2, b3], [b2, b0, b3]] : List (List Int)) =
        pre ++ yf :: post ∧
      pre.length + post.length = 3 ∧ yf.Nodup ∧
      yf.toFinset = ([b0, b1, b2, b3] : List Int).toFinset.erase y ∧
      (pre ++ post).map List.toFinset =
        oB.map ([b0, b1, b2, b3] : List Int).toFinset.erase ∧
      oB.Nodup ∧ ∀ v ∈ oB, v ∈ ([b0, b1, b2, b3] : List Int).toFinset ∧ v ≠ y := by
  obtain ⟨s0, s1, s2, s3⟩ := tetrahedron_face_sets b0 b1 b2 b3 hd
  obtain ⟨n0, n1, n2, n3⟩ := tetrahedron_faces_nodup b0 b1 b2 b3 hd
  obtain ⟨h01, h02, h03, h12, h13, h23⟩ := nodup_four b0 b1 b2 b3 hd
  simp only [List.mem_cons, List.mem_singleton, List.not_mem_nil, or_false] at hy
  rcases hy with rfl | rfl | rfl | rfl
  · refine ⟨[[y, b1, b2], [y, b1, b3]], [[b2, y, b3]], [b1, b2, b3], [b3, b2, b1],
      rfl, rfl, n2, s2, ?_, ?_, ?_⟩
    · simp only [List.cons_append, List.nil_append, List.map_cons, List.map_nil, s0, s1, s3]
    · simp only [List.nodup_cons, List.mem_cons, List.mem_singleton, List.not_mem_nil,
        List.nodup_nil, or_false, not_or, and_true, not_false_eq_true]
      omega
    · intro v hv
      simp only [List.mem_cons, List.mem_singleton, List.not_mem_nil, or_false] at hv
      simp only [List.mem_toFinset, List.mem_cons, List.mem_singleton, List.not_mem_nil,
        or_false]
      omega
  · refine ⟨[[b0, y, b2], [b0, y, b3], [y, b2, b3]], [], [b2, b0, b3], [b3, b2, b0],
      rfl, rfl, n3, s3, ?_, ?_, ?_⟩
    · simp only [List.append_nil, List.map_cons, List.map_nil, s0, s1, s2]
    · simp only [List.nodup_cons, List.mem_cons, List.mem_singleton, List.not_mem_nil,
        List.nodup_nil, or_false, not_or, and_true, not_false_eq_true]
      omega
    · intro v hv
      simp only [List.mem_cons, List.mem_singleton, List.not_mem_nil, or_false] at hv
      simp only [List.mem_toFinset, List.mem_cons, List.mem_singleton, List.not_mem_nil,
        or_false]
      omega
  · refine ⟨[[b0, b1, y]], [[b1, y, b3], [y, b0, b3]], [b0, b1, b3], [b3, b0, b1],
      rfl, rfl, n1, s1, ?_, ?_, ?_⟩
    · simp only [List.cons_append, List.nil_append, List.map_cons, List.map_nil, s0, s2, s3]
    · simp only [List.nodup_cons, List.mem_cons, List.mem_singleton, List.not_mem_nil,
        List.nodup_nil, or_false, not_or, and_true, not_false_eq_true]
      omega
    · intro v hv
      simp only [List.mem_cons, List.mem_singleton, List.not_mem_nil, or_false] at hv
      simp only [List.mem_toFinset, List.mem_cons, List.mem_singleton, List.not_mem_nil,
        or_false]
      omega
  · refine ⟨[], [[b0, b1, y], [b1, b2, y], [b2, b0, y]], [b0, b1, b2], [b2, b0, b1],
      rfl, rfl, n0, s0, ?_, ?_, ?_⟩
    · simp only [List.nil_append, List.map_cons, List.map_nil, s1, s2, s3]
    · simp only [List.nodup_cons, List.mem_cons, List.mem_singleton, List.not_mem_nil,
        List.nodup_nil, or_false, not_or, and_true, not_false_eq_true]
      omega
    · intro v hv
      simp only [List.mem_cons, List.mem_singleton, List.not_mem_nil, or_false] at hv
      simp only [List.mem_toFinset, List.mem_cons, List.mem_singleton, List.not_mem_nil,
        or_false]
      omega

theorem two_tetrahedra_block_faces (a0 a1 a2 a3 b0 b1 b2 b3 : Int) (b : fe_block_t)
    (hnew : fe_block_new 2 FE_TETRAHEDRON 4 [a0, a1, a2, a3, b0, b1, b2, b3] = some b) :
    block_template_faces b =
      [[[a0, a1, a2], [a0, a1, a3], [a1, a2, a3], [a2, a0, a3]],
       [[b0, b1, b2], [b0, b1, b3], [b1, b2, b3], [b2, b0, b3]]] := by
  have hb : b = { num_elem := 2, elem_type := FE_TETRAHEDRON,
                  elem_face_offsets := none, elem_faces := none,
                  elem_node_offsets := some [0, 4, 8],
                  elem_nodes := some [a0, a1, a2, a3, b0, b1, b2, b3] } := by
    simp [fe_block_new, uniform_offsets, read_slice] at hnew
    exact hnew.symm
  subst hb
  have hr : List.range 2 = [0, 1] := rfl
  simp [block_template_faces, block_element_nodes, segment, read_int, read_slice,
    template_faces, face_node_indices, hr]

/-- The tables of two tetrahedra that share the face at template position `p0` of
the first and position `q0` of the second: the run of the face->cell loop on the
cell->face table that the deduplication gives them. -/
theorem two_tetrahedra_tables :
    ∀ p0, p0 < 4 → ∀ q0, q0 < 4 →
      (face_cells_loop (psums 0 [4, 4])
        ((List.range' 0 (4 + q0) ++ (p0 :: List.range' (4 + q0) (3 - q0))).map Int.ofNat)
        2 0 (List.replicate 14 (-1))).isSome = true ∧
      (Int.ofNat p0 ∈ cell_face_list (psums 0 [4, 4])
        ((List.range' 0 (4 + q0) ++ (p0 :: List.range' (4 + q0) (3 - q0))).map Int.ofNat) 0 ∧
       Int.ofNat p0 ∈ cell_face_list (psums 0 [4, 4])
        ((List.range' 0 (4 + q0) ++ (p0 :: List.range' (4 + q0) (3 - q0))).map Int.ofNat) 1 ∧
       (∀ x ∈ cell_face_list (psums 0 [4, 4])
          ((List.range' 0 (4 + q0) ++ (p0 :: List.range' (4 + q0) (3 - q0))).map Int.ofNat) 0,
          x ∈ cell_face_list (psums 0 [4, 4])
            ((List.range' 0 (4 + q0) ++ (p0 :: List.range' (4 + q0) (3 - q0))).map Int.ofNat) 1 →
          x = Int.ofNat p0) ∧
       read_int ((face_cells_loop (psums 0 [4, 4])
          ((List.range' 0 (4 + q0) ++ (p0 :: List.range' (4 + q0) (3 - q0))).map Int.ofNat)
          2 0 (List.replicate 14 (-1))).getD []) (2 * Int.ofNat p0) = some 0 ∧
       read_int ((face_cells_loop (psums 0 [4, 4])
          ((List.range' 0 (4 + q0) ++ (p0 :: List.range' (4 + q0) (3 - q0))).map Int.ofNat)
          2 0 (List.replicate 14 (-1))).getD []) (2 * Int.ofNat p0 + 1) = some 1 ∧
       ∀ f, f < 7 → Int.ofNat f ≠ Int.ofNat p0 →
         read_int ((face_cells_loop (psums 0 [4, 4])
          ((List.range' 0 (4 + q0) ++ (p0 :: List.range' (4 + q0) (3 - q0))).map Int.ofNat)
          2 0 (List.replicate 14 (-1))).getD []) (2 * Int.ofNat f + 1) = some (-1)) := by
  intro p0 hp0 q0 hq0
  interval_cases p0 <;> interval_cases q0 <;>
    refine ⟨by decide, by decide, by decide, by decide, by decide, by decide, ?_⟩ <;>
    intro f hf <;> interval_cases f <;> decide

/-- Two tetrahedra whose node sets meet in three nodes, given by their template
faces: the translation has 7 faces, one of them in both cells. -/
theorem two_tetrahedra_shared_face (m : fe_mesh_t) (h : derivable_fe_mesh m)
    (a0 a1 a2 a3 b0 b1 b2 b3 : Int)
    (hcells : mesh_cell_template_faces m = [[[a0, a1, a2], [a0, a1, a3], [a1, a2, a3], [a2, a0, a3]], [[b0, b1, b2], [b0, b1, b3], [b1, b2, b3], [b2, b0, b3]]])
    (hA : [a0, a1, a2, a3].Nodup) (hB : [b0, b1, b2, b3].Nodup)
    (hI : (([a0, a1, a2, a3] : List Int).toFinset ∩
            ([b0, b1, b2, b3] : List Int).toFinset).card = 3) :
    ∃ fv, mesh_from_fe_mesh m = some fv ∧ fv.num_cells = 2 ∧ fv.num_faces = 7 ∧
      ∃ s : Int, 0 ≤ s ∧ s < 7 ∧ s ∈ mesh_cell_faces fv 0 ∧ s ∈ mesh_cell_faces fv 1 ∧
        (∀ x ∈ mesh_cell_faces fv 0, x ∈ mesh_cell_faces fv 1 → x = s) ∧
        read_int fv.face_cells (2 * s) = some 0 ∧
        read_int fv.face_cells (2 * s + 1) = some 1 ∧
        ∀ f : Nat, f < 7 → Int.ofNat f ≠ s →
          read_int fv.face_cells (2 * Int.ofNat f + 1) = some (-1) := by
  have hSc : ([a0, a1, a2, a3] : List Int).toFinset.card = 4 := by
    rw [List.toFinset_card_of_nodup hA]; rfl
  have hTc : ([b0, b1, b2, b3] : List Int).toFinset.card = 4 := by
    rw [List.toFinset_card_of_nodup hB]; rfl
  have hI2 : (([b0, b1, b2, b3] : List Int).toFinset ∩
      ([a0, a1, a2, a3] : List Int).toFinset).card = 3 := by
    rw [Finset.inter_comm]; exact hI
  obtain ⟨x, hxS, hxT, -⟩ := unique_outsider _ _ hSc hI
  obtain ⟨y, hyT, hyS, hyrest⟩ := unique_outsider _ _ hTc hI2
  obtain ⟨p0, xf, hp0, hxf, hxfn, hxfs⟩ :=
    tetrahedron_face_without a0 a1 a2 a3 hA x (List.mem_toFinset.mp hxS)
  obtain ⟨pre, post, yf, oB, hFB, hlen, hyfn, hyfs, hmap, hoBn, hoB1⟩ :=
    tetrahedron_faces_split b0 b1 b2 b3 hB y (List.mem_toFinset.mp hyT)
  obtain ⟨hFAmap, hoAn, hoA1⟩ := tetrahedron_faces_erase a0 a1 a2 a3 hA
  have hxy : int_qsort yf = int_qsort xf := by
    apply int_qsort_eq_of_toFinset yf xf hyfn hxfn
    rw [hyfs, hxfs]
    exact ((erase_eq_erase_iff _ _ hSc hTc hI x y hxS hyT).mpr ⟨hxT, hyS⟩).symm
  have hnd : (([[a0, a1, a2], [a0, a1, a3], [a1, a2, a3], [a2, a0, a3]] ++ (pre ++ post)).map int_qsort).Nodup := by
    apply keys_nodup_of_toFinset
    rw [List.map_append, hFAmap, hmap]
    exact erased_sets_nodup _ _ hSc hTc hI y hyrest _ oB hoAn hoA1 hoBn hoB1
  have hrun := dedup_run_one_shared [[a0, a1, a2], [a0, a1, a3], [a1, a2, a3], [a2, a0, a3]] pre post yf xf p0 hxf hxy hnd
  have hF : mesh_template_faces m = [[a0, a1, a2], [a0, a1, a3], [a1, a2, a3], [a2, a0, a3]] ++ (pre ++ yf :: post) := by
    rw [mesh_template_faces, hcells, hFB]
    simp [List.flatten]
  have hq : pre.length < 4 := by omega
  have hpost : post.length = 3 - pre.length := by omega
  have hl1 : ([[a0, a1, a2], [a0, a1, a3], [a1, a2, a3], [a2, a0, a3]] ++ pre).length = 4 + pre.length := by
    rw [List.length_append]; rfl
  have hl2 : ([[a0, a1, a2], [a0, a1, a3], [a1, a2, a3], [a2, a0, a3]] ++ (pre ++ post)).length = 7 := by
    simp only [List.length_append, List.length_cons, List.length_nil]
    omega
  obtain ⟨fc, hfv, hloop, -⟩ := mesh_from_fe_mesh_derivable m h
  have hloop2 : face_cells_loop (psums 0 [4, 4])
      ((List.range' 0 (4 + pre.length) ++
        (p0 :: List.range' (4 + pre.length) (3 - pre.length))).map Int.ofNat)
      2 0 (List.replicate 14 (-1)) = some fc := by
    rw [hcells, hF, hrun] at hloop
    simp only [hl1, hl2, hpost] at hloop
    exact hloop
  have hoff : (derived_mesh m fc).cell_face_offsets = psums 0 [4, 4] := by
    show psums 0 ((mesh_cell_template_faces m).map List.length) = _
    rw [hcells]; rfl
  have hcf : (derived_mesh m fc).cell_faces =
      (List.range' 0 (4 + pre.length) ++
        (p0 :: List.range' (4 + pre.length) (3 - pre.length))).map Int.ofNat := by
    show (dedup_run (mesh_template_faces m)).1.map Int.ofNat = _
    rw [hF, hrun]
    simp only [hl1, hpost]
  have hnf : (derived_mesh m fc).num_faces = 7 := by
    show (((dedup_run (mesh_template_faces m)).2.length : Nat) : Int) = 7
    rw [hF, hrun]
    simp only [hl2]
    rfl
  have hnc : (derived_mesh m fc).num_cells = 2 := by
    show fe_mesh_num_elements m = 2
    rw [mesh_cells_length m h, hcells]; rfl
  obtain ⟨-, t2, t3, t4, t5, t6, t7⟩ := two_tetrahedra_tables p0 hp0 pre.length hq
  rw [hloop2] at t5 t6 t7
  simp only [Option.getD_some] at t5 t6 t7
  have hs : Int.ofNat p0 = ((p0 : Nat) : Int) := rfl
  refine ⟨derived_mesh m fc, hfv, hnc, hnf, Int.ofNat p0, by omega, by omega, ?_, ?_, ?_,
    t5, t6, t7⟩
  · rw [mesh_cell_faces, hoff, hcf]; exact t2
  · rw [mesh_cell_faces, hoff, hcf]; exact t3
  · rw [mesh_cell_faces, mesh_cell_faces, hoff, hcf]; exact t4

/-- C7: for an FE mesh of exactly two tetrahedra (one block of two elements, or two
blocks of one element each), each with four pairwise distinct nodes, whose node sets
have exactly three nodes in common, `mesh_from_fe_mesh` yields exactly 7 faces;
exactly one face id `s` occurs in both cells' face lists, `s` has the face->cell slots
`(0, 1)`, and each of the other six faces has `-1` in slot 1. -/
theorem two_adjacent_tetrahedra (m : fe_mesh_t) (h : derivable_fe_mesh m)
    (a0 a1 a2 a3 b0 b1 b2 b3 : Int)
    (hcfg : (∃ b, m.blocks = [b] ∧
               fe_block_new 2 FE_TETRAHEDRON 4 [a0, a1, a2, a3, b0, b1, b2, b3] = some b) ∨
            (∃ ba bb, m.blocks = [ba, bb] ∧
               fe_block_new 1 FE_TETRAHEDRON 4 [a0, a1, a2, a3] = some ba ∧
               fe_block_new 1 FE_TETRAHEDRON 4 [b0, b1, b2, b3] = some bb))
    (hA : [a0, a1, a2, a3].Nodup) (hB : [b0, b1, b2, b3].Nodup)
    (hI : (([a0, a1, a2, a3] : List Int).toFinset ∩
            ([b0, b1, b2, b3] : List Int).toFinset).card = 3) :
    ∃ fv, mesh_from_fe_mesh m = some fv ∧ fv.num_cells = 2 ∧ fv.num_faces = 7 ∧
      ∃ s : Int, 0 ≤ s ∧ s < 7 ∧ s ∈ mesh_cell_faces fv 0 ∧ s ∈ mesh_cell_faces fv 1 ∧
        (∀ x ∈ mesh_cell_faces fv 0, x ∈ mesh_cell_faces fv 1 → x = s) ∧
        read_int fv.face_cells (2 * s) = some 0 ∧
        read_int fv.face_cells (2 * s + 1) = some 1 ∧
        ∀ f : Nat, f < 7 → Int.ofNat f ≠ s →
          read_int fv.face_cells (2 * Int.ofNat f + 1) = some (-1) := by
  have hcells : mesh_cell_template_faces m =
      [[[a0, a1, a2], [a0, a1, a3], [a1, a2, a3], [a2, a0, a3]],
       [[b0, b1, b2], [b0, b1, b3], [b1, b2, b3], [b2, b0, b3]]] := by
    rcases hcfg with ⟨b, hb, hnew⟩ | ⟨ba, bb, hb, hna, hnb⟩
    · simp [mesh_cell_template_faces, hb,
        two_tetrahedra_block_faces a0 a1 a2 a3 b0 b1 b2 b3 b hnew]
    · simp [mesh_cell_template_faces, hb, tetrahedron_block_faces a0 a1 a2 a3 ba hna,
        tetrahedron_block_faces b0 b1 b2 b3 bb hnb]
  exact two_tetrahedra_shared_face m h a0 a1 a2 a3 b0 b1 b2 b3 hcells hA hB hI

/-- The hypotheses of `two_adjacent_tetrahedra` hold of `two_tetrahedra_mesh`, whose
tetrahedra `(0,1,2,3)` and `(4,2,1,3)` meet in the nodes 1, 2, 3, and so does its
conclusion. -/
theorem two_adjacent_tetrahedra_witness :
    derivable_fe_mesh two_tetrahedra_mesh ∧
    ((∃ b, two_tetrahedra_mesh.blocks = [b] ∧
        fe_block_new 2 FE_TETRAHEDRON 4 [0, 1, 2, 3, 4, 2, 1, 3] = some b) ∨
     (∃ ba bb, two_tetrahedra_mesh.blocks = [ba, bb] ∧
        fe_block_new 1 FE_TETRAHEDRON 4 [0, 1, 2, 3] = some ba ∧
        fe_block_new 1 FE_TETRAHEDRON 4 [4, 2, 1, 3] = some bb)) ∧
    ([0, 1, 2, 3] : List Int).Nodup ∧ ([4, 2, 1, 3] : List Int).Nodup ∧
    (([0, 1, 2, 3] : List Int).toFinset ∩ ([4, 2, 1, 3] : List Int).toFinset).card = 3 ∧
    ∃ fv, mesh_from_fe_mesh two_tetrahedra_mesh = some fv ∧ fv.num_cells = 2 ∧
      fv.num_faces = 7 ∧
      ∃ s : Int, 0 ≤ s ∧ s < 7 ∧ s ∈ mesh_cell_faces fv 0 ∧ s ∈ mesh_cell_faces fv 1 ∧
        (∀ x ∈ mesh_cell_faces fv 0, x ∈ mesh_cell_faces fv 1 → x = s) ∧
        read_int fv.face_cells (2 * s) = some 0 ∧
        read_int fv.face_cells (2 * s + 1) = some 1 ∧
        ∀ f : Nat, f < 7 → Int.ofNat f ≠ s →
          read_int fv.face_cells (2 * Int.ofNat f + 1) = some (-1) :=
  ⟨two_tetrahedra_mesh_derivable, Or.inl ⟨two_tetrahedra_block, rfl, two_tetrahedra_block_new⟩,
   by decide, by decide, by decide,
   two_adjacent_tetrahedra two_tetrahedra_mesh two_tetrahedra_mesh_derivable 0 1 2 3 4 2 1 3
     (Or.inl ⟨two_tetrahedra_block, rfl, two_tetrahedra_block_new⟩)
     (by decide) (by decide) (by decide)⟩

/-! ## Explicit faces, entity sets and positions -/

theorem sets_to_tags_eq (src : tagger_t) :
    ∀ dst t : tagger_t, sets_to_tags src dst = some t → t = dst ++ src := by
  induction src with
  | nil => intro dst t h; simp [sets_to_tags] at h; simp [h]
  | cons p src ih =>
    intro dst t h
    obtain ⟨name, set⟩ := p
    simp only [sets_to_tags, tagger_create_tag] at h
    by_cases hmem : name ∈ dst.map Prod.fst
    · simp [hmem] at h
    · have hfill : fill_last_tag (dst ++ [(name, List.replicate set.length 0)]) set =
          some (dst ++ [(name, set)]) := by
        simp [fill_last_tag, List.getLast?_concat, copy_into_same_length]
      simp only [hmem, if_false, hfill] at h
      have := ih _ _ h
      rw [this]; simp [List.append_assoc]

theorem mesh_from_fe_mesh_fields (m : fe_mesh_t) (fv : mesh_t)
    (h : mesh_from_fe_mesh m = some fv) :
    fv.num_cells = fe_mesh_num_elements m ∧ fv.num_nodes = fe_mesh_num_nodes m ∧
    fv.nodes = (fe_mesh_node_positions m).take (fe_mesh_num_nodes m).toNat ∧
    (fe_mesh_num_nodes m).toNat ≤ (fe_mesh_node_positions m).length ∧
    fv.cell_tags = m.elem_sets ∧ fv.face_tags = m.face_sets ∧
    fv.edge_tags = m.edge_sets ∧ fv.node_tags = m.node_sets := by
  unfold mesh_from_fe_mesh at h
  simp only [mesh_new] at h
  split at h
  · simp at h
  · split at h
    · split at h
      · split at h
        · split at h
          · simp at h
          · split at h
            · simp at h
            · split at h
              · simp at h
              · split at h
                · rename_i ht1 ht2 ht3 ht4
                  have hlen : ¬ (fe_mesh_node_positions m).length <
                      (fe_mesh_num_nodes m).toNat := by assumption
                  simp only [Option.some.injEq] at h
                  subst h
                  have e1 := sets_to_tags_eq _ _ _ ht1
                  have e2 := sets_to_tags_eq _ _ _ ht2
                  have e3 := sets_to_tags_eq _ _ _ ht3
                  have e4 := sets_to_tags_eq _ _ _ ht4
                  simp only [tagger_new, List.nil_append] at e1 e2 e3 e4
                  refine ⟨rfl, rfl, rfl, ?_, e1, e2, e3, e4⟩
                  exact Nat.le_of_not_lt hlen
                · simp at h
        · simp at h
      · simp at h
    · simp at h

theorem explicit_faces_first_element (m : fe_mesh_t) (b : fe_block_t) (rest : List fe_block_t)
    (hb : m.blocks = b :: rest) (hf : fe_mesh_num_faces m ≠ 0)
    (hn : 0 < fe_block_num_elements b) : mesh_from_fe_mesh m = none := by
  have hborrow : borrow_faces m (fe_mesh_num_elements m) (fe_mesh_num_faces m) = none := by
    unfold borrow_faces
    split
    · rfl
    · have hcopy : ∀ buf, copy_offsets_blocks (b :: rest) 0 (some 0 :: buf) = none := by
        intro buf
        obtain ⟨n, hn1⟩ : ∃ n, (fe_block_num_elements b).toNat = n + 1 :=
          ⟨(fe_block_num_elements b).toNat - 1, by omega⟩
        unfold copy_offsets_blocks
        cases hoff : b.elem_face_offsets with
        | none => simp [not_le.mpr hn]
        | some offs =>
          simp only [hn1, copy_offsets_elements]
          simp [read_cell]
      simp only [hb, hcopy]
  unfold mesh_from_fe_mesh
  simp only [if_neg hf, hborrow]

theorem mesh_tag_snoc (tags : tagger_t) (name : String) (set : List Int)
    (h : name ∉ tags.map Prod.fst) : mesh_tag (tags ++ [(name, set)]) name = some set := by
  have hnone : tags.find? (fun p => decide (p.1 = name)) = none := by
    rw [List.find?_eq_none]
    intro p hp hpn
    apply h
    simp only [decide_eq_true_eq] at hpn
    exact List.mem_map.mpr ⟨p, hp, hpn⟩
  simp [mesh_tag, List.find?_append, hnone]

theorem create_fill_element_set (m m1 m2 : fe_mesh_t) (name : String) (set : List Int)
    (hcreate : fe_mesh_create_element_set m name set.length = some m1)
    (hfill : fill_element_set m1 set = some m2) :
    name ∉ m.elem_sets.map Prod.fst ∧
      m2 = { m with elem_sets := m.elem_sets ++ [(name, set)] } := by
  unfold fe_mesh_create_element_set tagger_create_tag at hcreate
  by_cases hmem : name ∈ m.elem_sets.map Prod.fst
  · simp [hmem] at hcreate
  · simp only [hmem, if_false, Option.some.injEq] at hcreate
    subst hcreate
    have hf : fill_last_tag (m.elem_sets ++ [(name, List.replicate set.length 0)]) set =
        some (m.elem_sets ++ [(name, set)]) := by
      simp [fill_last_tag, List.getLast?_concat, copy_into_same_length]
    simp only [fill_element_set, hf, Option.some.injEq] at hfill
    exact ⟨hmem, hfill.symm⟩

/-- C11 fails on the code: `one_polyhedron_mesh` is what `fe_mesh_new`,
`polyhedral_fe_block_new`, `fe_mesh_add_block` and `fe_mesh_set_face_nodes` build,
and `mesh_from_fe_mesh` does not return on it: the first iteration of the offset
loop of the branch for explicit faces reads `cell_face_offsets[-1]`. -/
theorem explicit_faces_translation_stops :
    ((fe_mesh_new 0 4).bind fun m =>
      (polyhedral_fe_block_new 1 [4] [0, 1, 2, 3]).bind fun b =>
        (fe_mesh_add_block m "block_1" b).bind fun m1 =>
          fe_mesh_set_face_nodes m1 4 [3, 3, 3, 3] [0, 1, 2, 0, 1, 3, 1, 2, 3, 2, 0, 3]) =
      some one_polyhedron_mesh ∧
    mesh_from_fe_mesh one_polyhedron_mesh = none := by
  decide

/-- C12 fails on the code: for every FE mesh that has faces and whose first block
holds an element, `mesh_from_fe_mesh` does not return: the offset loop of the branch
for explicit faces starts by reading `cell_face_offsets[-1]`, so no cell->face table
is copied. -/
theorem explicit_faces_offsets_stop (m : fe_mesh_t) (b : fe_block_t) (rest : List fe_block_t)
    (hb : m.blocks = b :: rest) (hf : fe_mesh_num_faces m ≠ 0)
    (hn : 0 < fe_block_num_elements b) : mesh_from_fe_mesh m = none :=
  explicit_faces_first_element m b rest hb hf hn

/-- The hypotheses of `explicit_faces_offsets_stop` hold of `one_polyhedron_mesh`. -/
theorem explicit_faces_offsets_stop_witness :
    fe_mesh_num_faces one_polyhedron_mesh ≠ 0 ∧ mesh_from_fe_mesh one_polyhedron_mesh = none :=
  ⟨by decide,
   explicit_faces_offsets_stop one_polyhedron_mesh
     { num_elem := 1, elem_type := FE_POLYHEDRON,
       elem_face_offsets := some [0, 4], elem_faces := some [0, 1, 2, 3],
       elem_node_offsets := none, elem_nodes := none } [] rfl (by decide) (by decide)⟩

/-- C18: when an element set `name` of size `k` is created on an FE mesh with
`fe_mesh_create_element_set` and filled with the `k` indices `set`, then
`mesh_from_fe_mesh` returns a mesh if the FE mesh is one of non-polyhedral blocks, and
every FV mesh it returns has a cell tag `name` holding `set`, in the same order. -/
theorem element_set_to_cell_tag (m m1 m2 : fe_mesh_t) (name : String) (set : List Int)
    (hcreate : fe_mesh_create_element_set m name set.length = some m1)
    (hfill : fill_element_set m1 set = some m2) :
    (derivable_fe_mesh m → ∃ fv, mesh_from_fe_mesh m2 = some fv) ∧
    ∀ fv, mesh_from_fe_mesh m2 = some fv →
      mesh_tag fv.cell_tags name = some set ∧ (name, set) ∈ fv.cell_tags := by
  obtain ⟨hmem, hm2⟩ := create_fill_element_set m m1 m2 name set hcreate hfill
  constructor
  · intro h
    have h2 : derivable_fe_mesh m2 := by
      subst hm2
      exact { blocks := h.blocks, elements := h.elements, no_faces := h.no_faces,
              no_edges := h.no_edges, positions := h.positions,
              elem_set_names := by
                show ((m.elem_sets ++ [(name, set)]).map Prod.fst).Nodup
                rw [List.map_append, List.nodup_append]
                refine ⟨h.elem_set_names, by simp, ?_⟩
                intro a ha hb
                simp only [List.map_cons, List.map_nil, List.mem_singleton] at hb
                subst hb
                exact hmem ha,
              face_set_names := h.face_set_names, edge_set_names := h.edge_set_names,
              node_set_names := h.node_set_names }
    obtain ⟨fc, hfv, _, _⟩ := mesh_from_fe_mesh_derivable m2 h2
    exact ⟨_, hfv⟩
  · intro fv hfv
    obtain ⟨-, -, -, -, htags, -, -, -⟩ := mesh_from_fe_mesh_fields m2 fv hfv
    rw [htags, hm2]
    exact ⟨mesh_tag_snoc _ _ _ hmem, by simp⟩

/-- The hypotheses of `element_set_to_cell_tag` hold when the set `"right"` is added
to the two tetrahedra that have the set `"left"`. -/
theorem element_set_to_cell_tag_witness :
    fe_mesh_create_element_set
        { two_tetrahedra_mesh with elem_sets := [("left", [0])] } "right" 1 =
      some { two_tetrahedra_mesh with elem_sets := [("left", [0]), ("right", [0])] } ∧
    fill_element_set
        { two_tetrahedra_mesh with elem_sets := [("left", [0]), ("right", [0])] } [1] =
      some two_sets_mesh ∧
    ∀ fv, mesh_from_fe_mesh two_sets_mesh = some fv →
      mesh_tag fv.cell_tags "right" = some [1] ∧ ("right", [1]) ∈ fv.cell_tags :=
  ⟨by decide, by decide,
   (element_set_to_cell_tag { two_tetrahedra_mesh with elem_sets := [("left", [0])] }
      { two_tetrahedra_mesh with elem_sets := [("left", [0]), ("right", [0])] }
      two_sets_mesh "right" [1] (by decide) (by decide)).2⟩

/-- C19, as stated, fails: the side set `"side_1"` of `side_set_mesh`, created with
`fe_mesh_create_side_set` and filled, is on none of the four tag collections of the
FV mesh that `mesh_from_fe_mesh` returns. -/
theorem side_sets_not_translated :
    (fe_mesh_create_side_set (mesh_of_block 4 one_tetrahedron_block) "side_1" 1).bind
        (fun m => fill_side_set m [0, 2]) = some side_set_mesh ∧
    ∃ fv, mesh_from_fe_mesh side_set_mesh = some fv ∧
      mesh_tag fv.cell_tags "side_1" = none ∧ mesh_tag fv.face_tags "side_1" = none ∧
      mesh_tag fv.edge_tags "side_1" = none ∧ mesh_tag fv.node_tags "side_1" = none := by
  refine ⟨by decide, (mesh_from_fe_mesh side_set_mesh).getD (mesh_new 0 0 0 0 0), by decide,
    by decide, by decide, by decide, by decide⟩

/-- C19, amended: `mesh_from_fe_mesh` returns a mesh for every FE mesh of
non-polyhedral blocks, and in every mesh it returns the cell, face, edge and node
tags are the element, face, edge and node sets of the FE mesh: the same names with the
same index sequences, in the same order. -/
theorem four_collections_to_tags (m : fe_mesh_t) :
    (derivable_fe_mesh m → ∃ fv, mesh_from_fe_mesh m = some fv) ∧
    ∀ fv, mesh_from_fe_mesh m = some fv →
      fv.cell_tags = m.elem_sets ∧ fv.face_tags = m.face_sets ∧
      fv.edge_tags = m.edge_sets ∧ fv.node_tags = m.node_sets := by
  constructor
  · intro h
    obtain ⟨fc, hfv, _, _⟩ := mesh_from_fe_mesh_derivable m h
    exact ⟨_, hfv⟩
  · intro fv hfv
    obtain ⟨-, -, -, -, h1, h2, h3, h4⟩ := mesh_from_fe_mesh_fields m fv hfv
    exact ⟨h1, h2, h3, h4⟩

/-- C20: `mesh_from_fe_mesh` returns a mesh for every FE mesh of non-polyhedral
blocks, and every mesh it returns has `fe_mesh_num_elements` cells,
`fe_mesh_num_nodes` nodes, and at every node index `i` the position that the FE mesh
has at `i`. -/
theorem counts_and_positions_copied (m : fe_mesh_t) :
    (derivable_fe_mesh m → ∃ fv, mesh_from_fe_mesh m = some fv) ∧
    ∀ fv, mesh_from_fe_mesh m = some fv →
      fv.num_cells = fe_mesh_num_elements m ∧ fv.num_nodes = fe_mesh_num_nodes m ∧
      ∀ i : Nat, ((i : Nat) : Int) < fe_mesh_num_nodes m →
        ∃ p, fv.nodes[i]? = some p ∧ (fe_mesh_node_positions m)[i]? = some p := by
  constructor
  · intro h
    obtain ⟨fc, hfv, _, _⟩ := mesh_from_fe_mesh_derivable m h
    exact ⟨_, hfv⟩
  · intro fv hfv
    obtain ⟨h1, h2, h3, h4, -⟩ := mesh_from_fe_mesh_fields m fv hfv
    refine ⟨h1, h2, ?_⟩
    intro i hi
    have hlt : i < (fe_mesh_num_nodes m).toNat := by omega
    have hlt2 : i < (fe_mesh_node_positions m).length := by omega
    refine ⟨(fe_mesh_node_positions m)[i], ?_, List.getElem?_eq_getElem hlt2⟩
    rw [h3, List.getElem?_take_of_lt hlt, List.getElem?_eq_getElem hlt2]

theorem two_sets_mesh_derivable : derivable_fe_mesh two_sets_mesh :=
  { blocks := two_tetrahedra_mesh_derivable.blocks,
    elements := two_tetrahedra_mesh_derivable.elements,
    no_faces := two_tetrahedra_mesh_derivable.no_faces,
    no_edges := two_tetrahedra_mesh_derivable.no_edges,
    positions := two_tetrahedra_mesh_derivable.positions,
    elem_set_names := by decide,
    face_set_names := two_tetrahedra_mesh_derivable.face_set_names,
    edge_set_names := two_tetrahedra_mesh_derivable.edge_set_names,
    node_set_names := two_tetrahedra_mesh_derivable.node_set_names }

/-- The mesh `two_sets_mesh` is translated, and its two element sets are the cell
tags of the result, as `four_collections_to_tags` says. -/
theorem four_collections_to_tags_witness :
    derivable_fe_mesh two_sets_mesh ∧
    ∃ fv, mesh_from_fe_mesh two_sets_mesh = some fv ∧
      fv.cell_tags = [("left", [0]), ("right", [1])] := by
  obtain ⟨fv, hfv⟩ := (four_collections_to_tags two_sets_mesh).1 two_sets_mesh_derivable
  exact ⟨two_sets_mesh_derivable, fv, hfv,
    ((four_collections_to_tags two_sets_mesh).2 fv hfv).1⟩

/-- The mesh `two_tetrahedra_mesh` is translated to a mesh of 2 cells and 5 nodes, as
`counts_and_positions_copied` says. -/
theorem counts_and_positions_copied_witness :
    derivable_fe_mesh two_tetrahedra_mesh ∧
    ∃ fv, mesh_from_fe_mesh two_tetrahedra_mesh = some fv ∧
      fv.num_cells = 2 ∧ fv.num_nodes = 5 := by
  obtain ⟨fv, hfv⟩ :=
    (counts_and_positions_copied two_tetrahedra_mesh).1 two_tetrahedra_mesh_derivable
  exact ⟨two_tetrahedra_mesh_derivable, fv, hfv,
    ((counts_and_positions_copied two_tetrahedra_mesh).2 fv hfv).1,
    ((counts_and_positions_copied two_tetrahedra_mesh).2 fv hfv).2.1⟩

/-! ## Finite volume -> finite element translation: one block -/

theorem cell_face_counts_map (offs : List Int) (f : Nat → Int) (cells : List Nat)
    (h : ∀ c ∈ cells, ∃ lo hi, offs[c]? = some lo ∧ offs[c + 1]? = some hi ∧ hi - lo = f c) :
    cell_face_counts offs (cells.map Int.ofNat) = some (cells.map f) := by
  induction cells with
  | nil => rfl
  | cons c rest ih =>
    obtain ⟨lo, hi, hlo, hhi, hf⟩ := h c (List.mem_cons_self _ _)
    have e1 : read_int offs (Int.ofNat c) = some lo := by
      rw [← hlo]; exact read_int_natCast offs c
    have e2 : read_int offs (Int.ofNat c + 1) = some hi := by
      rw [← hhi]; exact read_int_natCast offs (c + 1)
    simp only [List.map_cons, cell_face_counts, e1, e2,
      ih (fun c hc => h c (List.mem_cons_of_mem _ hc)), hf]

theorem psums_step (lens : List Nat) (c n : Nat) (hc : lens[c]? = some n) :
    ∃ lo hi, (psums 0 lens)[c]? = some lo ∧ (psums 0 lens)[c + 1]? = some hi ∧
      hi - lo = (n : Int) := by
  have hlt := getElem?_lt_of_some _ _ _ hc
  refine ⟨_, _, psums_getElem? lens 0 c (Nat.le_of_lt hlt), psums_getElem? lens 0 (c + 1) hlt, ?_⟩
  rw [sum_take_succ_getElem? lens c n hc]
  push_cast
  omega

theorem cell_face_counts_psums (lens : List Nat) :
    cell_face_counts (psums 0 lens) ((List.range lens.length).map Int.ofNat) =
      some (lens.map Int.ofNat) := by
  rw [cell_face_counts_map (psums 0 lens) (fun c => ((lens.getD c 0 : Nat) : Int))]
  · congr 1
    apply List.ext_getElem?
    intro i
    simp only [List.getElem?_map, List.getElem?_range]
    rcases Nat.lt_or_ge i lens.length with hi | hi
    · simp [List.getElem?_range hi, List.getElem?_eq_getElem hi, List.getD_eq_getElem?_getD]
    · simp [List.getElem?_eq_none hi]; exact hi
  · intro c hc
    have hlt : c < lens.length := List.mem_range.mp hc
    have hget : lens[c]? = some (lens.getD c 0) := by
      simp [List.getD_eq_getElem?_getD, List.getElem?_eq_getElem hlt]
    exact psums_step lens c _ hget

theorem offsets_of_counts_psums (lens : List Nat) :
    ∀ n, n ≤ lens.length →
      offsets_of_counts (lens.map Int.ofNat) n = some (psums 0 (lens.take n)) ∧
      sum_counts (lens.map Int.ofNat) n = some (((lens.take n).sum : Nat) : Int) := by
  intro n
  induction n with
  | zero => intro _; simp [offsets_of_counts, sum_counts, psums]
  | succ n ih =>
    intro hn
    obtain ⟨ih1, ih2⟩ := ih (Nat.le_of_succ_le hn)
    have hlt : n < lens.length := hn
    have hget : (lens.map Int.ofNat)[n]? = some ((lens[n] : Nat) : Int) := by
      simp [List.getElem?_eq_getElem hlt]
    have htake : lens.take (n + 1) = lens.take n ++ [lens[n]] := by
      rw [List.take_succ, List.getElem?_eq_getElem hlt]; rfl
    constructor
    · simp only [offsets_of_counts, ih1, hget]
      rw [htake, psums_snoc]
    · simp only [sum_counts, ih2, hget]
      rw [htake, List.sum_append, List.sum_singleton, Nat.cast_add]

theorem two_le_sum (lens : List Nat) (h : ∀ n ∈ lens, 2 ≤ n) : 2 * lens.length ≤ lens.sum := by
  induction lens with
  | nil => simp
  | cons n ns ih =>
    have h1 := h n (List.mem_cons_self _ _)
    have h2 := ih (fun k hk => h k (List.mem_cons_of_mem _ hk))
    simp only [List.length_cons, List.sum_cons]
    omega

theorem polyhedral_fe_block_new_psums (lens : List Nat) (faces : List Int)
    (hne : lens ≠ []) (hroom : ∀ n ∈ lens, 2 ≤ n) (hfaces : faces.length = lens.sum) :
    polyhedral_fe_block_new (lens.length : Int) (lens.map Int.ofNat) faces =
      some { num_elem := (lens.length : Int), elem_type := FE_POLYHEDRON,
             elem_face_offsets := some (psums 0 lens), elem_faces := some faces,
             elem_node_offsets := none, elem_nodes := none } := by
  have hpos : 0 < lens.length := List.length_pos.mpr hne
  obtain ⟨h1, h2⟩ := offsets_of_counts_psums lens lens.length (Nat.le_refl _)
  rw [List.take_length] at h1 h2
  have hsum := two_le_sum lens hroom
  have hlast : (psums 0 lens).getLastD 0 = ((faces.length : Nat) : Int) := by
    rw [psums_getLastD, hfaces]; simp
  unfold polyhedral_fe_block_new
  have hn : ¬ ((lens.length : Nat) : Int) ≤ 0 := by omega
  have hr : ¬ (((lens.sum : Nat) : Int) < ((lens.length : Nat) : Int) + 1) := by omega
  simp only [hn, if_false, Int.toNat_ofNat, h1, h2, hr, hlast, read_slice_full]

theorem fe_mesh_from_mesh_one_block (fv : mesh_t) (lens : List Nat)
    (h : sound_fv_mesh fv lens) (tags : Option (List String))
    (ht : ∀ l, tags = some l → l.length ≤ 1) :
    fe_mesh_from_mesh fv tags = some (one_block_mesh fv) := by
  have hsingle : ∀ fe : fe_mesh_t, fe.block_elem_offsets = [0] → fe.num_faces = 0 →
      single_block fv fe =
        some { fe with blocks := fe.blocks ++ [{ num_elem := fv.num_cells,
                                                 elem_type := FE_POLYHEDRON,
                                                 elem_face_offsets := some fv.cell_face_offsets,
                                                 elem_faces := some fv.cell_faces,
                                                 elem_node_offsets := none, elem_nodes := none }],
                       block_names := fe.block_names ++ ["block_1"],
                       block_elem_offsets := [0, 0 + fv.num_cells],
                       num_faces := int_wrap (fv.cell_faces.foldl max (0 - 1) + 1) } := by
    intro fe hoff hnf
    have hlast : read_int (psums 0 lens) ((lens.length : Nat) : Int) =
        some ((fv.cell_faces.length : Nat) : Int) := by
      rw [read_int_natCast, psums_getElem? lens 0 lens.length (Nat.le_refl _), List.take_length,
        h.faces]
      simp
    unfold single_block
    simp only [h.cells, Int.toNat_ofNat, h.offsets, cell_face_counts_psums,
      polyhedral_fe_block_new_psums lens fv.cell_faces h.some_cell h.faces_per_cell h.faces,
      fe_mesh_add_block, fe_block_num_elements, hlast, read_slice_full, hoff, hnf,
      int_wrap_neg_one]
    simp
  have hnodes : ¬ fv.num_nodes < 4 := not_lt.mpr h.nodes
  have hpos : ¬ fv.nodes.length < fv.num_nodes.toNat := by rw [h.positions]; exact lt_irrefl _
  have htake : fv.nodes.take fv.num_nodes.toNat = fv.nodes := by
    rw [← h.positions]; exact List.take_length _
  cases tags with
  | none =>
    unfold fe_mesh_from_mesh fe_mesh_new
    simp only [hnodes, if_false, hpos, htake, tagger_new]
    rw [hsingle _ rfl rfl]
    simp [one_block_mesh]
  | some l =>
    have hl : ¬ 1 < l.length := not_lt.mpr (ht l rfl)
    unfold fe_mesh_from_mesh fe_mesh_new
    simp only [hnodes, if_false, hl, hpos, htake, tagger_new]
    rw [hsingle _ rfl rfl]
    simp [one_block_mesh]


theorem fe_block_get_element_faces_eq (b : fe_block_t) (offs faces : List Int)
    (ho : b.elem_face_offsets = some offs) (hf : b.elem_faces = some faces)
    (i : Nat) (buf : List Int) :
    fe_block_get_element_faces b (i : Int) buf = (segment offs faces i).bind (copy_into buf) := by
  unfold fe_block_get_element_faces segment
  rw [hf, ho]
  simp only []
  cases read_int offs (i : Int) <;> cases read_int offs ((i : Int) + 1) <;> simp
  rename_i lo hi
  cases read_slice faces lo (hi - lo) <;> simp

theorem sound_cell_faces (fv : mesh_t) (lens : List Nat) (h : sound_fv_mesh fv lens)
    (i n : Nat) (hi : lens[i]? = some n) :
    mesh_cell_num_faces fv i = some (n : Int) ∧
    segment fv.cell_face_offsets fv.cell_faces i = some (mesh_cell_faces fv i) ∧
    (mesh_cell_faces fv i).length = n := by
  have hlt := getElem?_lt_of_some _ _ _ hi
  obtain ⟨lo, hi2, hlo, hhi, hd⟩ := psums_step lens i n hi
  have hseg := segment_psums lens fv.cell_faces i n hi (by rw [h.faces])
  have hle : (lens.take i).sum + n ≤ lens.sum := by
    have h1 := sum_take_succ_getElem? lens i n hi
    have h2 := sum_take_add_drop lens (i + 1)
    omega
  refine ⟨?_, ?_, ?_⟩
  · have e1 : read_int (psums 0 lens) ((i : Nat) : Int) = some lo := by
      rw [read_int_natCast]; exact hlo
    have e2 : read_int (psums 0 lens) (((i : Nat) : Int) + 1) = some hi2 := by
      rw [← hhi]; exact read_int_natCast _ (i + 1)
    simp only [mesh_cell_num_faces, h.offsets, e1, e2, hd]
  · rw [mesh_cell_faces, cell_face_list, h.offsets, hseg]; rfl
  · rw [mesh_cell_faces, cell_face_list, h.offsets, hseg]
    simp only [Option.getD_some, List.length_take, List.length_drop, h.faces]
    omega

theorem one_block_mesh_accessors (fv : mesh_t) (lens : List Nat) (h : sound_fv_mesh fv lens)
    (b : fe_block_t) (hb : (one_block_mesh fv).blocks = [b])
    (i n : Nat) (hi : lens[i]? = some n) :
    fe_block_num_element_faces b (i : Int) = some (n : Int) ∧
    fe_mesh_num_element_faces (one_block_mesh fv) (i : Int) = some (n : Int) ∧
    ∀ buf : List Int, buf.length = n →
      fe_block_get_element_faces b (i : Int) buf = some (mesh_cell_faces fv i) ∧
      fe_mesh_get_element_faces (one_block_mesh fv) (i : Int) buf =
        some (mesh_cell_faces fv i) := by
  obtain ⟨hnum, hseg, hlen⟩ := sound_cell_faces fv lens h i n hi
  simp only [one_block_mesh, List.cons.injEq, and_true] at hb
  subst hb
  simp only [mesh_cell_num_faces] at hnum
  have hget : ∀ buf : List Int, buf.length = n →
      fe_block_get_element_faces
        { num_elem := fv.num_cells, elem_type := FE_POLYHEDRON,
          elem_face_offsets := some fv.cell_face_offsets, elem_faces := some fv.cell_faces,
          elem_node_offsets := none, elem_nodes := none } (i : Int) buf =
        some (mesh_cell_faces fv i) := by
    intro buf hbuf
    rw [fe_block_get_element_faces_eq _ fv.cell_face_offsets fv.cell_faces rfl rfl, hseg]
    exact copy_into_same_length _ _ (by rw [hbuf, hlen])
  refine ⟨?_, ?_, ?_⟩
  · simp only [fe_block_num_element_faces]
    exact hnum
  · simp only [fe_mesh_num_element_faces, locate_block, one_block_mesh, List.length_singleton,
      lt_irrefl, if_false, List.getElem?_cons_zero, sub_zero, fe_block_num_element_faces]
    exact hnum
  · intro buf hbuf
    refine ⟨hget buf hbuf, ?_⟩
    simp only [fe_mesh_get_element_faces, locate_block, one_block_mesh, List.length_singleton,
      lt_irrefl, if_false, List.getElem?_cons_zero, sub_zero]
    exact hget buf hbuf

theorem template_faces_per_cell (m : fe_mesh_t) (h : derivable_fe_mesh m) :
    ∀ n ∈ (mesh_cell_template_faces m).map List.length, 2 ≤ n := by
  intro n hn
  obtain ⟨cell, hcell, rfl⟩ := List.mem_map.mp hn
  obtain ⟨l, hl, hcl⟩ := List.mem_flatten.mp hcell
  obtain ⟨b, hb, rfl⟩ := List.mem_map.mp hl
  obtain ⟨k, e, nf, nd, hk0, hnum, ho, hnd, hlen, hsig, he, hnf⟩ :=
    nonpolyhedral_block_shape b (h.blocks b hb)
  have hlens := block_template_faces_lengths b k e nf nd hnum ho hnd hlen hsig hnf
  have hmem : cell.length ∈ (block_template_faces b).map List.length :=
    List.mem_map.mpr ⟨cell, hcl, rfl⟩
  rw [hlens] at hmem
  have := (List.mem_replicate.mp hmem).2
  rw [this]
  cases ht : b.elem_type <;> rw [ht] at hnf <;> simp [get_num_cell_faces] at hnf <;> omega

theorem derived_mesh_sound (m : fe_mesh_t) (h : derivable_fe_mesh m)
    (h0 : 0 < fe_mesh_num_elements m) (h4 : 4 ≤ fe_mesh_num_nodes m) (fc : List Int) :
    sound_fv_mesh (derived_mesh m fc) ((mesh_cell_template_faces m).map List.length) where
  nodes := h4
  positions := h.positions
  cells := by
    show fe_mesh_num_elements m = _
    rw [mesh_cells_length m h, List.length_map]
  some_cell := by
    intro hnil
    rw [mesh_cells_length m h] at h0
    have : (mesh_cell_template_faces m).length = 0 := by
      rw [← List.length_map (mesh_cell_template_faces m) List.length, hnil]; rfl
    omega
  faces_per_cell := template_faces_per_cell m h
  offsets := rfl
  faces := by
    show ((dedup_run (mesh_template_faces m)).1.map Int.ofNat).length = _
    rw [List.length_map, dedup_run, dedup_from_length, mesh_template_faces, List.length_flatten]


theorem two_sets_translation_sound : sound_fv_mesh two_sets_translation [4, 4] where
  nodes := by decide
  positions := by decide
  cells := by decide
  some_cell := by decide
  faces_per_cell := by decide
  offsets := by decide
  faces := by decide

theorem two_sets_mesh_translated :
    mesh_from_fe_mesh two_sets_mesh = some two_sets_translation := by
  decide

theorem unit_tetrahedron_mesh_derivable : derivable_fe_mesh unit_tetrahedron_mesh :=
  { blocks := one_tetrahedron_mesh_derivable.blocks,
    elements := one_tetrahedron_mesh_derivable.elements,
    no_faces := one_tetrahedron_mesh_derivable.no_faces,
    no_edges := one_tetrahedron_mesh_derivable.no_edges,
    positions := by decide,
    elem_set_names := one_tetrahedron_mesh_derivable.elem_set_names,
    face_set_names := one_tetrahedron_mesh_derivable.face_set_names,
    edge_set_names := one_tetrahedron_mesh_derivable.edge_set_names,
    node_set_names := one_tetrahedron_mesh_derivable.node_set_names }

/-- C13: for every FE mesh of non-polyhedral blocks with at least one element, on at
least four nodes as `fe_mesh_new` requires, translating to FV with `mesh_from_fe_mesh`
and back with `fe_mesh_from_mesh` without grouping gives a mesh with a single
polyhedral block, whose element count is `fe_mesh_num_elements` of the first mesh,
whose node count is its `fe_mesh_num_nodes`, and whose node positions are its
positions. -/
theorem round_trip_counts_coordinates (m : fe_mesh_t) (h : derivable_fe_mesh m)
    (h0 : 0 < fe_mesh_num_elements m) (h4 : 4 ≤ fe_mesh_num_nodes m) :
    ∃ fv fe b, mesh_from_fe_mesh m = some fv ∧ fe_mesh_from_mesh fv none = some fe ∧
      fe.blocks = [b] ∧ fe_block_element_type b = FE_POLYHEDRON ∧
      fe_block_num_elements b = fe_mesh_num_elements m ∧
      fe_mesh_num_elements fe = fe_mesh_num_elements m ∧
      fe_mesh_num_nodes fe = fe_mesh_num_nodes m ∧
      fe_mesh_node_positions fe = fe_mesh_node_positions m := by
  obtain ⟨fc, hfv, -, -⟩ := mesh_from_fe_mesh_derivable m h
  have hs := derived_mesh_sound m h h0 h4 fc
  have hfe := fe_mesh_from_mesh_one_block _ _ hs none (by intro l hl; cases hl)
  refine ⟨_, _, _, hfv, hfe, rfl, rfl, rfl, ?_, rfl, rfl⟩
  simp [fe_mesh_num_elements, one_block_mesh, derived_mesh]

/-- The hypotheses of `round_trip_counts_coordinates` hold of the unit tetrahedron,
and the round trip gives its four positions back. -/
theorem round_trip_counts_coordinates_witness :
    derivable_fe_mesh unit_tetrahedron_mesh ∧
    0 < fe_mesh_num_elements unit_tetrahedron_mesh ∧
    4 ≤ fe_mesh_num_nodes unit_tetrahedron_mesh ∧
    ∃ fv fe b, mesh_from_fe_mesh unit_tetrahedron_mesh = some fv ∧
      fe_mesh_from_mesh fv none = some fe ∧
      fe.blocks = [b] ∧ fe_block_element_type b = FE_POLYHEDRON ∧
      fe_block_num_elements b = 1 ∧ fe_mesh_num_elements fe = 1 ∧
      fe_mesh_num_nodes fe = 4 ∧
      fe_mesh_node_positions fe = [⟨0, 0, 0⟩, ⟨1, 0, 0⟩, ⟨0, 1, 0⟩, ⟨0, 0, 1⟩] :=
  ⟨unit_tetrahedron_mesh_derivable, by decide, by decide,
   round_trip_counts_coordinates unit_tetrahedron_mesh unit_tetrahedron_mesh_derivable
     (by decide) (by decide)⟩

/-- C14 fails on the code: for every FE mesh of non-polyhedral blocks with at least
one element, the mesh that the translation to FV and back returns has no face->node
table: `fe_mesh_num_face_nodes` is `-1` for every face and `fe_mesh_get_face_nodes`
copies nothing, so no node set of a face can be read from it. -/
theorem round_trip_without_face_nodes (m : fe_mesh_t) (h : derivable_fe_mesh m)
    (h0 : 0 < fe_mesh_num_elements m) (h4 : 4 ≤ fe_mesh_num_nodes m) :
    ∃ fv fe, mesh_from_fe_mesh m = some fv ∧ fe_mesh_from_mesh fv none = some fe ∧
      fe.face_node_offsets = none ∧ fe.face_nodes = none ∧
      ∀ f : Int, fe_mesh_num_face_nodes fe f = some (-1) ∧
        ∀ buf : List Int, fe_mesh_get_face_nodes fe f buf = some buf := by
  obtain ⟨fc, hfv, -, -⟩ := mesh_from_fe_mesh_derivable m h
  have hs := derived_mesh_sound m h h0 h4 fc
  have hfe := fe_mesh_from_mesh_one_block _ _ hs none (by intro l hl; cases hl)
  exact ⟨_, _, hfv, hfe, rfl, rfl, fun f => ⟨rfl, fun buf => rfl⟩⟩

/-- The hypotheses of `round_trip_without_face_nodes` hold of the mesh of one
tetrahedron: after the round trip, face 0 has `-1` nodes and a buffer given to
`fe_mesh_get_face_nodes` stays as it was. -/
theorem round_trip_without_face_nodes_witness :
    derivable_fe_mesh (mesh_of_block 4 one_tetrahedron_block) ∧
    ∃ fv fe, mesh_from_fe_mesh (mesh_of_block 4 one_tetrahedron_block) = some fv ∧
      fe_mesh_from_mesh fv none = some fe ∧
      fe.face_node_offsets = none ∧ fe.face_nodes = none ∧
      ∀ f : Int, fe_mesh_num_face_nodes fe f = some (-1) ∧
        ∀ buf : List Int, fe_mesh_get_face_nodes fe f buf = some buf :=
  ⟨one_tetrahedron_mesh_derivable,
   round_trip_without_face_nodes (mesh_of_block 4 one_tetrahedron_block)
     one_tetrahedron_mesh_derivable (by decide) (by decide)⟩

/-- C15 fails on the code: for the two tetrahedra with cell 0 in the tag `"left"` and
cell 1 in the tag `"right"`, `fe_mesh_from_mesh` with both tags does not return: the
loop that fills `elem_faces` advances `offset` and `f` together and writes past the
buffer.  The block is built from the whole `cell_faces` table all the same, not from
`elem_faces`: for the tag `"right"` its one element gets the faces of cell 0, not
those of cell 1. -/
theorem tag_blocks_not_built :
    mesh_from_fe_mesh two_sets_mesh = some two_sets_translation ∧
    fe_mesh_from_mesh two_sets_translation (some ["left", "right"]) = none ∧
    fill_block_faces two_sets_translation [(1, 4)] 0 (List.replicate 4 0) = none ∧
    (polyhedral_fe_block_new 1 [4] two_sets_translation.cell_faces).bind
        (fun b => fe_block_get_element_faces b 0 [0, 0, 0, 0]) = some [0, 1, 2, 3] ∧
    mesh_cell_faces two_sets_translation 1 = [4, 5, 2, 6] := by
  decide

/-- C16, as stated, fails: given the one tag `"right"`, which holds the one cell 1,
`fe_mesh_from_mesh` builds a block named `"block_1"` with both cells of the mesh. -/
theorem one_tag_block_of_all_cells :
    mesh_tag two_sets_translation.cell_tags "right" = some [1] ∧
    ∃ fe b, fe_mesh_from_mesh two_sets_translation (some ["right"]) = some fe ∧
      fe.blocks = [b] ∧ fe.block_names = ["block_1"] ∧ fe_block_num_elements b = 2 :=
  ⟨by decide, one_block_mesh two_sets_translation, _, by decide, rfl, rfl, rfl⟩

/-- C16, amended: for a list of at most one requested tag, `fe_mesh_from_mesh` builds
exactly one polyhedral block, named `"block_1"`, which holds all `num_cells` cells of
the FV mesh, as it does when no grouping is requested. -/
theorem single_tag_one_block (fv : mesh_t) (lens : List Nat) (h : sound_fv_mesh fv lens)
    (tags : List String) (ht : tags.length ≤ 1) :
    ∃ fe b, fe_mesh_from_mesh fv (some tags) = some fe ∧
      fe_mesh_from_mesh fv (some tags) = fe_mesh_from_mesh fv none ∧
      fe.blocks = [b] ∧ fe.block_names = ["block_1"] ∧
      fe_block_element_type b = FE_POLYHEDRON ∧ fe_block_num_elements b = fv.num_cells := by
  have h1 := fe_mesh_from_mesh_one_block fv lens h (some tags)
    (by intro l hl; cases hl; exact ht)
  have h2 := fe_mesh_from_mesh_one_block fv lens h none (by intro l hl; cases hl)
  exact ⟨_, _, h1, by rw [h1, h2], rfl, rfl, rfl, rfl⟩

/-- The hypotheses of `single_tag_one_block` hold of the two tagged cells and the
list of the one tag `"right"`. -/
theorem single_tag_one_block_witness :
    sound_fv_mesh two_sets_translation [4, 4] ∧
    ∃ fe b, fe_mesh_from_mesh two_sets_translation (some ["right"]) = some fe ∧
      fe_mesh_from_mesh two_sets_translation (some ["right"]) =
        fe_mesh_from_mesh two_sets_translation none ∧
      fe.blocks = [b] ∧ fe.block_names = ["block_1"] ∧
      fe_block_element_type b = FE_POLYHEDRON ∧ fe_block_num_elements b = 2 :=
  ⟨two_sets_translation_sound,
   single_tag_one_block two_sets_translation [4, 4] two_sets_translation_sound ["right"]
     (by decide)⟩

/-- C17: when no grouping is requested, `fe_mesh_from_mesh` returns, for an FV mesh
with at least four nodes and at least one cell, an FE mesh with exactly one
polyhedral block holding `num_cells` elements, in which element `i` has the face
count and the face index list of FV cell `i`, read through the block and through the
mesh, and whose node positions are those of the FV mesh. -/
theorem no_grouping_one_block (fv : mesh_t) (lens : List Nat) (h : sound_fv_mesh fv lens) :
    ∃ fe b, fe_mesh_from_mesh fv none = some fe ∧ fe.blocks = [b] ∧
      fe_block_element_type b = FE_POLYHEDRON ∧ fe_block_num_elements b = fv.num_cells ∧
      fe_mesh_num_elements fe = fv.num_cells ∧
      (∀ i : Nat, ((i : Nat) : Int) < fv.num_cells →
        ∃ n : Nat, mesh_cell_num_faces fv i = some (n : Int) ∧
          (mesh_cell_faces fv i).length = n ∧
          fe_block_num_element_faces b (i : Int) = some (n : Int) ∧
          fe_mesh_num_element_faces fe (i : Int) = some (n : Int) ∧
          ∀ buf : List Int, buf.length = n →
            fe_block_get_element_faces b (i : Int) buf = some (mesh_cell_faces fv i) ∧
            fe_mesh_get_element_faces fe (i : Int) buf = some (mesh_cell_faces fv i)) ∧
      fe_mesh_node_positions fe = fv.nodes := by
  have hfe := fe_mesh_from_mesh_one_block fv lens h none (by intro l hl; cases hl)
  refine ⟨_, _, hfe, rfl, rfl, rfl, ?_, ?_, rfl⟩
  · simp [fe_mesh_num_elements, one_block_mesh]
  · intro i hi
    have hlt : i < lens.length := by
      have := h.cells
      omega
    have hget : lens[i]? = some lens[i] := List.getElem?_eq_getElem hlt
    obtain ⟨hnum, -, hlen⟩ := sound_cell_faces fv lens h i _ hget
    obtain ⟨a1, a2, a3⟩ := one_block_mesh_accessors fv lens h _ rfl i _ hget
    exact ⟨lens[i], hnum, hlen, a1, a2, a3⟩

/-- The hypothesis of `no_grouping_one_block` holds of the two tetrahedra as an FV
mesh, with four faces per cell. -/
theorem no_grouping_one_block_witness :
    sound_fv_mesh two_sets_translation [4, 4] ∧
    ∃ fe b, fe_mesh_from_mesh two_sets_translation none = some fe ∧ fe.blocks = [b] ∧
      fe_block_element_type b = FE_POLYHEDRON ∧
      fe_block_num_elements b = two_sets_translation.num_cells ∧
      fe_mesh_num_elements fe = two_sets_translation.num_cells ∧
      (∀ i : Nat, ((i : Nat) : Int) < two_sets_translation.num_cells →
        ∃ n : Nat, mesh_cell_num_faces two_sets_translation i = some (n : Int) ∧
          (mesh_cell_faces two_sets_translation i).length = n ∧
          fe_block_num_element_faces b (i : Int) = some (n : Int) ∧
          fe_mesh_num_element_faces fe (i : Int) = some (n : Int) ∧
          ∀ buf : List Int, buf.length = n →
            fe_block_get_element_faces b (i : Int) buf =
              some (mesh_cell_faces two_sets_translation i) ∧
            fe_mesh_get_element_faces fe (i : Int) buf =
              some (mesh_cell_faces two_sets_translation i)) ∧
      fe_mesh_node_positions fe = two_sets_translation.nodes :=
  ⟨two_sets_translation_sound,
   no_grouping_one_block two_sets_translation [4, 4] two_sets_translation_sound⟩

/-! ## Adding blocks -/

theorem running_sums_length (l : List Int) : ∀ a, (running_sums a l).length = l.length + 1 := by
  induction l with
  | nil => intro a; rfl
  | cons x xs ih => intro a; simp [running_sums, ih]

theorem running_sums_getLastD (l : List Int) :
    ∀ a d, (running_sums a l).getLastD d = a + l.sum := by
  induction l with
  | nil => intro a d; simp [running_sums]
  | cons x xs ih =>
    intro a d
    simp only [running_sums, List.getLastD_cons, List.sum_cons]
    rw [ih]; ring

theorem running_sums_snoc (l : List Int) (x : Int) :
    ∀ a, running_sums a (l ++ [x]) = running_sums a l ++ [(running_sums a l).getLastD 0 + x] := by
  induction l with
  | nil => intro a; simp [running_sums]
  | cons y ys ih =>
    intro a
    show running_sums a (y :: (ys ++ [x])) = _
    simp only [running_sums, List.cons_append, List.getLastD_cons]
    rw [ih, running_sums_getLastD, running_sums_getLastD]

theorem running_sums_getElem? (l : List Int) :
    ∀ (a : Int) (k : Nat), k ≤ l.length → (running_sums a l)[k]? = some (a + (l.take k).sum) := by
  induction l with
  | nil => intro a k hk; simp at hk; subst hk; simp [running_sums]
  | cons x xs ih =>
    intro a k hk
    cases k with
    | zero => simp [running_sums]
    | succ k =>
      simp only [running_sums, List.getElem?_cons_succ, List.take_succ_cons, List.sum_cons]
      rw [ih (a + x) k (by simpa using hk)]
      congr 1; ring

theorem running_sums_chain (l : List Int) (h : ∀ x ∈ l, 0 < x) :
    ∀ a, List.Chain' (fun u v : Int => u < v) (running_sums a l) := by
  induction l with
  | nil => intro a; simp [running_sums]
  | cons x xs ih =>
    intro a
    have hx := h x (List.mem_cons_self _ _)
    have ih1 := ih (fun y hy => h y (List.mem_cons_of_mem _ hy)) (a + x)
    simp only [running_sums]
    cases xs with
    | nil =>
      simp only [running_sums, List.chain'_cons, List.chain'_singleton, and_true]
      omega
    | cons y ys =>
      simp only [running_sums] at ih1 ⊢
      rw [List.chain'_cons]
      exact ⟨by omega, ih1⟩

theorem offsets_of_counts_shape (counts : List Int) :
    ∀ (n : Nat) (offs : List Int), offsets_of_counts counts n = some offs →
      offs.length = n + 1 ∧ offs[n]? = some (offs.getLastD 0) ∧
      ∀ i, i < n → ∃ lo hi x, offs[i]? = some lo ∧ offs[i + 1]? = some hi ∧
        counts[i]? = some x ∧ hi - lo = x := by
  intro n
  induction n with
  | zero =>
    intro offs h
    simp only [offsets_of_counts, Option.some.injEq] at h
    subst h
    exact ⟨rfl, rfl, fun i hi => absurd hi (Nat.not_lt_zero i)⟩
  | succ n ih =>
    intro offs h
    simp only [offsets_of_counts] at h
    cases hprev : offsets_of_counts counts n with
    | none => rw [hprev] at h; simp at h
    | some prev =>
      cases hc : counts[n]? with
      | none => rw [hprev, hc] at h; simp at h
      | some c =>
        rw [hprev, hc] at h
        simp only [Option.some.injEq] at h
        subst h
        obtain ⟨hlen, hlast, hstep⟩ := ih prev hprev
        refine ⟨by simp [hlen], ?_, ?_⟩
        · rw [List.getElem?_append_right (by omega)]
          simp [hlen]
        · intro i hi
          rcases Nat.lt_or_ge i n with hlt | hge
          · obtain ⟨lo, hi2, x, h1, h2, h3, h4⟩ := hstep i hlt
            refine ⟨lo, hi2, x, ?_, ?_, h3, h4⟩
            · rw [List.getElem?_append_left (by omega)]; exact h1
            · rw [List.getElem?_append_left (by omega)]; exact h2
          · have hin : i = n := by omega
            subst hin
            refine ⟨prev.getLastD 0, prev.getLastD 0 + c, c, ?_, ?_, hc, by ring⟩
            · rw [List.getElem?_append_left (by omega)]; exact hlast
            · rw [List.getElem?_append_right (by omega)]
              simp [hlen]

theorem polyhedral_block_shape (n : Int) (counts idx : List Int) (b : fe_block_t)
    (h : polyhedral_fe_block_new n counts idx = some b) :
    ∃ offs faces, 0 < n ∧
      b = { num_elem := n, elem_type := FE_POLYHEDRON,
            elem_face_offsets := some offs, elem_faces := some faces,
            elem_node_offsets := none, elem_nodes := none } ∧
      offsets_of_counts counts n.toNat = some offs ∧
      (faces.length : Int) = offs.getLastD 0 := by
  unfold polyhedral_fe_block_new at h
  by_cases hn : n ≤ 0
  · simp [hn] at h
  rw [if_neg hn] at h
  cases hs : sum_counts counts n.toNat with
  | none => rw [hs] at h; simp at h
  | some tot =>
    cases ho : offsets_of_counts counts n.toNat with
    | none => rw [hs, ho] at h; simp at h
    | some offs =>
      rw [hs, ho] at h
      simp only [] at h
      by_cases ht : tot < n + 1
      · simp [ht] at h
      rw [if_neg ht] at h
      cases hr : read_slice idx 0 (offs.getLastD 0) with
      | none => rw [hr] at h; simp at h
      | some faces =>
        rw [hr] at h
        simp only [Option.some.injEq] at h
        refine ⟨offs, faces, by omega, h.symm, rfl, ?_⟩
        unfold read_slice at hr
        by_cases hc : (0 : Int) < 0 ∨ offs.getLastD 0 < 0 ∨ (idx.length : Int) < 0 + offs.getLastD 0
        · rw [if_pos hc] at hr; simp at hr
        · rw [if_neg hc] at hr
          simp only [Option.some.injEq] at hr
          rw [← hr]
          simp only [Int.toNat_zero, List.drop_zero, List.length_take]
          omega

theorem fe_mesh_add_block_fields (mesh mesh1 : fe_mesh_t) (name : String) (block : fe_block_t)
    (h : fe_mesh_add_block mesh name block = some mesh1) :
    mesh1.blocks = mesh.blocks ++ [block] ∧ mesh1.block_names = mesh.block_names ++ [name] ∧
    mesh1.block_elem_offsets = mesh.block_elem_offsets ++
      [mesh.block_elem_offsets.getLastD 0 + fe_block_num_elements block] ∧
    (block.elem_faces = none → mesh1.num_faces = mesh.num_faces) ∧
    mesh1.face_node_offsets = mesh.face_node_offsets ∧
    mesh1.face_edge_offsets = mesh.face_edge_offsets ∧
    mesh1.edge_node_offsets = mesh.edge_node_offsets := by
  unfold fe_mesh_add_block at h
  simp only [] at h
  split at h
  · simp only [Option.some.injEq] at h
    subst h
    exact ⟨rfl, rfl, rfl, fun _ => rfl, rfl, rfl, rfl⟩
  · split at h
    · simp at h
    · split at h
      · simp at h
      · split at h
        · simp at h
        · simp only [Option.some.injEq] at h
          subst h
          refine ⟨rfl, rfl, rfl, ?_, rfl, rfl, rfl⟩
          intro hnone
          simp_all

theorem fe_mesh_add_block_nodes (mesh : fe_mesh_t) (name : String) (block : fe_block_t)
    (h : block.elem_faces = none) :
    fe_mesh_add_block mesh name block =
      some { mesh with blocks := mesh.blocks ++ [block],
                       block_names := mesh.block_names ++ [name],
                       block_elem_offsets := mesh.block_elem_offsets ++
                         [mesh.block_elem_offsets.getLastD 0 + fe_block_num_elements block] } := by
  simp [fe_mesh_add_block, h]

theorem fe_mesh_add_block_faces (mesh : fe_mesh_t) (name : String) (n : Int)
    (offs faces : List Int) (hoffs : offs[n.toNat]? = some (offs.getLastD 0)) (hn : 0 ≤ n)
    (hfaces : (faces.length : Int) = offs.getLastD 0) :
    fe_mesh_add_block mesh name
        { num_elem := n, elem_type := FE_POLYHEDRON,
          elem_face_offsets := some offs, elem_faces := some faces,
          elem_node_offsets := none, elem_nodes := none } =
      some { mesh with blocks := mesh.blocks ++
                         [{ num_elem := n, elem_type := FE_POLYHEDRON,
                            elem_face_offsets := some offs, elem_faces := some faces,
                            elem_node_offsets := none, elem_nodes := none }],
                       block_names := mesh.block_names ++ [name],
                       block_elem_offsets := mesh.block_elem_offsets ++
                         [mesh.block_elem_offsets.getLastD 0 + n],
                       num_faces :=
                         int_wrap (faces.foldl max (int_wrap (mesh.num_faces - 1)) + 1) } := by
  have hread : read_int offs n = some ((faces.length : Nat) : Int) := by
    rw [hfaces]
    unfold read_int
    rw [if_neg (by omega)]
    exact hoffs
  simp only [fe_mesh_add_block, fe_block_num_elements, hread, read_slice_full]

theorem fe_block_new_no_faces (n : Int) (t : fe_mesh_element_t) (k : Int) (idx : List Int)
    (b : fe_block_t) (h : fe_block_new n t k idx = some b) :
    b.elem_faces = none ∧ b.elem_face_offsets = none ∧ 0 < n ∧ n + 1 ≤ k * n ∧
    b.num_elem = n ∧ b.elem_type = t ∧
    b.elem_node_offsets = some (uniform_offsets k n.toNat) ∧
    ∃ nodes, read_slice idx 0 ((uniform_offsets k n.toNat).getLastD 0) = some nodes ∧
      b.elem_nodes = some nodes := by
  unfold fe_block_new at h
  by_cases h1 : n ≤ 0
  · simp [h1] at h
  rw [if_neg h1] at h
  by_cases h2 : k * n < n + 1
  · simp [h2] at h
  rw [if_neg h2] at h
  simp only [] at h
  cases hr : read_slice idx 0 ((uniform_offsets k n.toNat).getLastD 0) with
  | none => rw [hr] at h; simp at h
  | some nodes =>
    rw [hr] at h
    simp only [Option.some.injEq] at h
    subst h
    exact ⟨rfl, rfl, by omega, by omega, rfl, rfl, rfl, nodes, rfl, rfl⟩

theorem constructed_block_added (mesh : fe_mesh_t) (name : String) (block : fe_block_t)
    (h : constructed_block block) : ∃ mesh1, fe_mesh_add_block mesh name block = some mesh1 := by
  rcases h with ⟨n, t, k, idx, hnew⟩ | ⟨n, counts, idx, hnew⟩
  · exact ⟨_, fe_mesh_add_block_nodes mesh name block
      (fe_block_new_no_faces n t k idx block hnew).1⟩
  · obtain ⟨offs, faces, hn, hb, hoffs, hlen⟩ := polyhedral_block_shape n counts idx block hnew
    obtain ⟨-, hlast, -⟩ := offsets_of_counts_shape counts n.toNat offs hoffs
    subst hb
    exact ⟨_, fe_mesh_add_block_faces mesh name n offs faces hlast (by omega) hlen⟩

theorem add_blocks_total (named : List (String × fe_block_t))
    (h : ∀ p ∈ named, constructed_block p.2) :
    ∀ mesh, ∃ mesh1, add_blocks mesh named = some mesh1 := by
  induction named with
  | nil => intro mesh; exact ⟨mesh, rfl⟩
  | cons p rest ih =>
    intro mesh
    obtain ⟨name, block⟩ := p
    obtain ⟨m1, hm1⟩ := constructed_block_added mesh name block (h _ (List.mem_cons_self _ _))
    obtain ⟨m2, hm2⟩ := ih (fun q hq => h q (List.mem_cons_of_mem _ hq)) m1
    exact ⟨m2, by simp only [add_blocks, hm1, hm2]⟩

theorem add_blocks_fields (named : List (String × fe_block_t)) :
    ∀ mesh mesh1 : fe_mesh_t, add_blocks mesh named = some mesh1 →
      mesh.block_elem_offsets = running_sums 0 (mesh.blocks.map fe_block_num_elements) →
      mesh1.blocks = mesh.blocks ++ named.map Prod.snd ∧
      mesh1.block_names = mesh.block_names ++ named.map Prod.fst ∧
      mesh1.block_elem_offsets = running_sums 0 (mesh1.blocks.map fe_block_num_elements) ∧
      ((∀ p ∈ named, p.2.elem_faces = none) → mesh1.num_faces = mesh.num_faces) ∧
      mesh1.face_node_offsets = mesh.face_node_offsets ∧
      mesh1.face_edge_offsets = mesh.face_edge_offsets ∧
      mesh1.edge_node_offsets = mesh.edge_node_offsets := by
  induction named with
  | nil =>
    intro mesh mesh1 h hinv
    simp only [add_blocks, Option.some.injEq] at h
    subst h
    simp [hinv]
  | cons p rest ih =>
    intro mesh mesh1 h hinv
    obtain ⟨name, block⟩ := p
    simp only [add_blocks] at h
    cases hm : fe_mesh_add_block mesh name block with
    | none => rw [hm] at h; simp at h
    | some m1 =>
      rw [hm] at h
      obtain ⟨f1, f2, f3, f4, f5, f6, f7⟩ := fe_mesh_add_block_fields mesh m1 name block hm
      have hinv1 : m1.block_elem_offsets =
          running_sums 0 (m1.blocks.map fe_block_num_elements) := by
        rw [f3, f1, List.map_append, List.map_cons, List.map_nil, running_sums_snoc, hinv]
      obtain ⟨g1, g2, g3, g4, g5, g6, g7⟩ := ih m1 mesh1 h hinv1
      refine ⟨?_, ?_, g3, ?_, by rw [g5, f5], by rw [g6, f6], by rw [g7, f7]⟩
      · rw [g1, f1]; simp
      · rw [g2, f2]; simp
      · intro hall
        rw [g4 (fun q hq => hall q (List.mem_cons_of_mem _ hq)),
          f4 (hall (name, block) (List.mem_cons_self _ _))]

/-- C22: after any sequence of `fe_mesh_add_block` calls on a new mesh, the blocks
and their names are those added, in order, the offset table has one entry more than
there are blocks, its entry 0 is 0, its entry `k` is the sum of the element counts of
the first `k` blocks, it is strictly increasing when every block has an element, and
`fe_mesh_num_elements` is the sum of the element counts of all blocks; the calls
return for blocks that the constructors built. -/
theorem offsets_after_add_blocks (comm : Nat) (N : Int) (named : List (String × fe_block_t))
    (mesh0 : fe_mesh_t) (h0 : fe_mesh_new comm N = some mesh0) :
    ((∀ p ∈ named, constructed_block p.2) → ∃ mesh, add_blocks mesh0 named = some mesh) ∧
    ∀ mesh, add_blocks mesh0 named = some mesh →
      mesh.blocks = named.map Prod.snd ∧ mesh.block_names = named.map Prod.fst ∧
      mesh.block_elem_offsets.length = mesh.blocks.length + 1 ∧
      mesh.block_elem_offsets[0]? = some 0 ∧
      (∀ k, k ≤ mesh.blocks.length →
        mesh.block_elem_offsets[k]? =
          some ((mesh.blocks.take k).map fe_block_num_elements).sum) ∧
      ((∀ b ∈ mesh.blocks, 0 < fe_block_num_elements b) →
        List.Chain' (fun u v : Int => u < v) mesh.block_elem_offsets) ∧
      fe_mesh_num_elements mesh = (mesh.blocks.map fe_block_num_elements).sum := by
  have hm0 : mesh0.blocks = [] ∧ mesh0.block_names = [] ∧ mesh0.block_elem_offsets = [0] := by
    unfold fe_mesh_new at h0
    split at h0
    · simp at h0
    · simp only [Option.some.injEq] at h0
      subst h0
      exact ⟨rfl, rfl, rfl⟩
  obtain ⟨hb0, hn0, ho0⟩ := hm0
  constructor
  · intro h
    exact add_blocks_total named h mesh0
  · intro mesh h
    obtain ⟨g1, g2, g3, -⟩ := add_blocks_fields named mesh0 mesh h (by rw [ho0, hb0]; rfl)
    rw [hb0, List.nil_append] at g1
    rw [hn0, List.nil_append] at g2
    refine ⟨g1, g2, ?_, ?_, ?_, ?_, ?_⟩
    · rw [g3, running_sums_length, List.length_map]
    · rw [g3, running_sums_getElem? _ 0 0 (Nat.zero_le _)]; simp
    · intro k hk
      rw [g3, running_sums_getElem? _ 0 k (by rw [List.length_map]; exact hk), List.map_take]
      simp
    · intro hpos
      rw [g3]
      apply running_sums_chain
      intro x hx
      obtain ⟨b, hb, rfl⟩ := List.mem_map.mp hx
      exact hpos b hb
    · rw [fe_mesh_num_elements, g3, running_sums_getLastD]; simp

/-- The hypothesis of `offsets_after_add_blocks` holds of a new mesh on seven nodes;
adding the two blocks of two tetrahedra to it gives the offsets 0, 2, 4. -/
theorem offsets_after_add_blocks_witness :
    ∃ mesh0, fe_mesh_new 0 7 = some mesh0 ∧
      ∃ mesh, add_blocks mesh0 [("block_1", two_tetrahedra_block),
          ("block_2", second_tetrahedra_block)] = some mesh ∧
        mesh.block_elem_offsets = [0, 2, 4] ∧ fe_mesh_num_elements mesh = 4 ∧
        mesh.block_elem_offsets.length = mesh.blocks.length + 1 := by
  refine ⟨(fe_mesh_new 0 7).getD zeroed_mesh, by decide, two_blocks_mesh, by decide, by decide,
    by decide, ?_⟩
  exact ((offsets_after_add_blocks 0 7 [("block_1", two_tetrahedra_block),
    ("block_2", second_tetrahedra_block)] ((fe_mesh_new 0 7).getD zeroed_mesh)
    (by decide)).2 two_blocks_mesh (by decide)).2.2.1

theorem fe_block_new_shape (n : Int) (t : fe_mesh_element_t) (k : Int) (idx : List Int)
    (b : fe_block_t) (h : fe_block_new n t k idx = some b) :
    ∃ (N K : Nat), 0 < N ∧ 2 ≤ K ∧ n = (N : Int) ∧ k = (K : Int) ∧ N * K ≤ idx.length ∧
      b = { num_elem := n, elem_type := t, elem_face_offsets := none, elem_faces := none,
            elem_node_offsets := some (psums 0 (List.replicate N K)),
            elem_nodes := some (idx.take (N * K)) } := by
  obtain ⟨h1, h2, hn, hk, h5, h6, h7, nodes, h8, h9⟩ := fe_block_new_no_faces n t k idx b h
  have hk2 : 2 ≤ k := by
    by_contra hc
    have : k * n ≤ 1 * n := by
      apply mul_le_mul_of_nonneg_right _ (le_of_lt hn)
      omega
    omega
  obtain ⟨N, rfl⟩ : ∃ N : Nat, n = (N : Int) := ⟨n.toNat, by omega⟩
  obtain ⟨K, rfl⟩ : ∃ K : Nat, k = (K : Int) := ⟨k.toNat, by omega⟩
  refine ⟨N, K, by omega, by omega, rfl, rfl, ?_⟩
  rw [Int.toNat_natCast, uniform_offsets_eq, psums_getLastD] at h8
  rw [Int.toNat_natCast, uniform_offsets_eq] at h7
  simp only [sum_replicate_nat, zero_add] at h8
  unfold read_slice at h8
  by_cases hc : (0 : Int) < 0 ∨ ((N * K : Nat) : Int) < 0 ∨
      (idx.length : Int) < 0 + ((N * K : Nat) : Int)
  · rw [if_pos hc] at h8
    simp at h8
  · rw [if_neg hc] at h8
    simp only [Int.toNat_zero, List.drop_zero, Int.toNat_natCast, Option.some.injEq] at h8
    refine ⟨by omega, ?_⟩
    cases b
    simp only [] at h1 h2 h5 h6 h7 h9
    subst h1 h2 h5 h6 h7 h9
    rw [h8]

theorem replicate_offsets_step (N K i : Nat) (hi : i < N) :
    read_int (psums 0 (List.replicate N K)) ((i : Nat) : Int) = some (((i * K : Nat)) : Int) ∧
    read_int (psums 0 (List.replicate N K)) (((i : Nat) : Int) + 1) =
      some (((i * K : Nat) : Int) + (K : Int)) := by
  have h1 := psums_getElem? (List.replicate N K) 0 i (by simp; omega)
  have h2 := psums_getElem? (List.replicate N K) 0 (i + 1) (by simp; omega)
  rw [take_replicate_sum N K i (by omega)] at h1
  rw [take_replicate_sum N K (i + 1) (by omega)] at h2
  constructor
  · rw [read_int_natCast, h1]; simp
  · have e : (((i : Nat) : Int) + 1) = (((i + 1 : Nat)) : Int) := by push_cast; ring
    rw [e, read_int_natCast, h2]
    congr 1
    push_cast
    ring

theorem take_drop_take (idx : List Int) (N K i : Nat) (hi : i < N) :
    ((idx.take (N * K)).drop (i * K)).take K = (idx.drop (i * K)).take K := by
  rw [List.drop_take, List.take_take]
  congr 1
  have : (i + 1) * K ≤ N * K := Nat.mul_le_mul_right K hi
  have e : (i + 1) * K = i * K + K := by ring
  omega

theorem fe_block_new_elements (N K : Nat) (t : fe_mesh_element_t) (idx : List Int)
    (i : Nat) (hi : i < N) (hlen : N * K ≤ idx.length) :
    fe_block_num_element_nodes
        { num_elem := (N : Int), elem_type := t, elem_face_offsets := none, elem_faces := none,
          elem_node_offsets := some (psums 0 (List.replicate N K)),
          elem_nodes := some (idx.take (N * K)) } (i : Int) = some (K : Int) ∧
    ∀ buf : List Int, buf.length = K →
      fe_block_get_element_nodes
        { num_elem := (N : Int), elem_type := t, elem_face_offsets := none, elem_faces := none,
          elem_node_offsets := some (psums 0 (List.replicate N K)),
          elem_nodes := some (idx.take (N * K)) } (i : Int) buf =
        some ((idx.drop (i * K)).take K) := by
  obtain ⟨e1, e2⟩ := replicate_offsets_step N K i hi
  constructor
  · simp only [fe_block_num_element_nodes, e1, e2]
    congr 1; ring
  · intro buf hbuf
    have hget : (List.replicate N K)[i]? = some K := by simp [hi]
    have hseg := segment_psums (List.replicate N K) (idx.take (N * K)) i K hget
      (by simp [List.length_take]; omega)
    rw [fe_block_get_element_nodes_eq _ _ (idx.take (N * K)) rfl rfl, hseg,
      take_replicate_sum N K i (by omega), take_drop_take idx N K i hi]
    simp only [Option.some_bind]
    apply copy_into_same_length
    rw [hbuf, List.length_take, List.length_drop]
    have : (i + 1) * K ≤ N * K := Nat.mul_le_mul_right K hi
    have e : (i + 1) * K = i * K + K := by ring
    omega

theorem fe_block_new_built (N K : Nat) (t : fe_mesh_element_t) (idx : List Int)
    (hN : 0 < N) (hK : 2 ≤ K) (hlen : N * K ≤ idx.length) :
    fe_block_new (N : Int) t (K : Int) idx =
      some { num_elem := (N : Int), elem_type := t, elem_face_offsets := none,
             elem_faces := none,
             elem_node_offsets := some (psums 0 (List.replicate N K)),
             elem_nodes := some (idx.take (N * K)) } := by
  have h1 : ¬ ((N : Nat) : Int) ≤ 0 := by omega
  have h2 : ¬ ((K : Nat) : Int) * ((N : Nat) : Int) < ((N : Nat) : Int) + 1 := by
    have : 2 * N ≤ K * N := Nat.mul_le_mul_right N hK
    have e : ((K : Nat) : Int) * ((N : Nat) : Int) = ((K * N : Nat) : Int) := by push_cast; ring
    rw [e]
    omega
  have hr : read_slice idx 0 ((N * K : Nat) : Int) = some (idx.take (N * K)) := by
    unfold read_slice
    rw [if_neg (by omega)]
    simp only [Int.toNat_zero, List.drop_zero, Int.toNat_natCast]
  have hlast : (uniform_offsets ((K : Nat) : Int) N).getLastD 0 = ((N * K : Nat) : Int) := by
    rw [uniform_offsets_eq, psums_getLastD, sum_replicate_nat, zero_add]
  unfold fe_block_new
  rw [if_neg h1, if_neg h2]
  simp only [Int.toNat_natCast]
  rw [hlast, hr, uniform_offsets_eq]

theorem offsets_step (offs : List Int) (hp : offs.Pairwise (fun a b => a ≤ b)) (f : Nat)
    (hf : f + 1 < offs.length) :
    ∃ lo hi, offs[f]? = some lo ∧ offs[f + 1]? = some hi ∧
      read_int offs ((f : Nat) : Int) = some lo ∧
      read_int offs (((f : Nat) : Int) + 1) = some hi ∧ 0 ≤ hi - lo := by
  have hf0 : f < offs.length := by omega
  have e0 : offs[f]? = some offs[f] := List.getElem?_eq_getElem hf0
  have e1 : offs[f + 1]? = some offs[f + 1] := List.getElem?_eq_getElem hf
  have hle : offs[f] ≤ offs[f + 1] :=
    List.pairwise_iff_getElem.mp hp f (f + 1) hf0 hf (Nat.lt_succ_self f)
  refine ⟨offs[f], offs[f + 1], e0, e1, ?_, ?_, by omega⟩
  · rw [read_int_natCast]; exact e0
  · have h := read_int_natCast offs (f + 1)
    rw [e1] at h
    rw [← h]
    rfl

/-- C27: a count accessor returns `-1` for connectivity that was never populated:
`fe_block_num_element_faces` on every block that `fe_block_new` built,
`fe_block_num_element_nodes` on every block that `polyhedral_fe_block_new` built, and
`fe_mesh_num_face_nodes`, `fe_mesh_num_face_edges` and `fe_mesh_num_edge_nodes` on
every mesh built by `fe_mesh_new` and `fe_mesh_add_block` calls; and it returns a count
that is not negative for an index in range when the connectivity was populated, by
`fe_block_new`, or from counts that are not negative by `polyhedral_fe_block_new` or by
`fe_mesh_set_face_nodes`; and on a mesh that holds a face->edge or an edge->node offset
table whose entries do not decrease, `fe_mesh_num_face_edges` and
`fe_mesh_num_edge_nodes` return for every index `i` with entries `i` and `i+1` in the
table the difference of the two entries, which is not negative. -/
theorem count_sentinels :
    (∀ (n : Int) (t : fe_mesh_element_t) (k : Int) (idx : List Int) (b : fe_block_t),
      fe_block_new n t k idx = some b →
        (∀ i : Int, fe_block_num_element_faces b i = some (-1)) ∧
        ∀ i : Nat, ((i : Nat) : Int) < n →
          ∃ c, fe_block_num_element_nodes b (i : Int) = some c ∧ 0 ≤ c) ∧
    (∀ (n : Int) (counts idx : List Int) (b : fe_block_t),
      polyhedral_fe_block_new n counts idx = some b →
        (∀ i : Int, fe_block_num_element_nodes b i = some (-1)) ∧
        ((∀ c ∈ counts, 0 ≤ c) → ∀ i : Nat, ((i : Nat) : Int) < n →
          ∃ c, fe_block_num_element_faces b (i : Int) = some c ∧ 0 ≤ c)) ∧
    (∀ (comm : Nat) (N : Int) (named : List (String × fe_block_t)) (mesh0 mesh : fe_mesh_t),
      fe_mesh_new comm N = some mesh0 → add_blocks mesh0 named = some mesh →
        ∀ j : Int, fe_mesh_num_face_nodes mesh j = some (-1) ∧
          fe_mesh_num_face_edges mesh j = some (-1) ∧
          fe_mesh_num_edge_nodes mesh j = some (-1)) ∧
    (∀ (mesh : fe_mesh_t) (num_faces : Int) (counts nodes : List Int) (mesh1 : fe_mesh_t),
      fe_mesh_set_face_nodes mesh num_faces counts nodes = some mesh1 →
        (∀ c ∈ counts, 0 ≤ c) → ∀ f : Nat, ((f : Nat) : Int) < num_faces →
          ∃ c, fe_mesh_num_face_nodes mesh1 (f : Int) = some c ∧ 0 ≤ c) ∧
    (∀ (mesh : fe_mesh_t) (offs : List Int), mesh.face_edge_offsets = some offs →
      offs.Pairwise (fun a b => a ≤ b) → ∀ f : Nat, f + 1 < offs.length →
        ∃ lo hi, offs[f]? = some lo ∧ offs[f + 1]? = some hi ∧
          fe_mesh_num_face_edges mesh (f : Int) = some (hi - lo) ∧ 0 ≤ hi - lo) ∧
    (∀ (mesh : fe_mesh_t) (offs : List Int), mesh.edge_node_offsets = some offs →
      offs.Pairwise (fun a b => a ≤ b) → ∀ e : Nat, e + 1 < offs.length →
        ∃ lo hi, offs[e]? = some lo ∧ offs[e + 1]? = some hi ∧
          fe_mesh_num_edge_nodes mesh (e : Int) = some (hi - lo) ∧ 0 ≤ hi - lo) := by
  refine ⟨?_, ?_, ?_, ?_, ?_, ?_⟩
  · intro n t k idx b h
    obtain ⟨N, K, hN, hK, rfl, rfl, hlen, rfl⟩ := fe_block_new_shape n t k idx b h
    refine ⟨fun i => rfl, ?_⟩
    intro i hi
    exact ⟨K, (fe_block_new_elements N K t idx i (by omega) hlen).1, by omega⟩
  · intro n counts idx b h
    obtain ⟨offs, faces, hn, rfl, hoffs, hlen⟩ := polyhedral_block_shape n counts idx b h
    refine ⟨fun i => rfl, ?_⟩
    intro hnonneg i hi
    obtain ⟨-, -, hstep⟩ := offsets_of_counts_shape counts n.toNat offs hoffs
    obtain ⟨lo, hi2, x, h1, h2, h3, h4⟩ := hstep i (by omega)
    have e1 : read_int offs ((i : Nat) : Int) = some lo := by rw [read_int_natCast]; exact h1
    have e2 : read_int offs (((i : Nat) : Int) + 1) = some hi2 := by
      rw [← h2]; exact read_int_natCast offs (i + 1)
    refine ⟨hi2 - lo, by simp only [fe_block_num_element_faces, e1, e2], ?_⟩
    rw [h4]
    exact hnonneg x (List.getElem?_mem h3)
  · intro comm N named mesh0 mesh h0 h j
    have hm0 : mesh0.blocks = [] ∧ mesh0.block_elem_offsets = [0] ∧
        mesh0.face_node_offsets = none ∧ mesh0.face_edge_offsets = none ∧
        mesh0.edge_node_offsets = none := by
      unfold fe_mesh_new at h0
      split at h0
      · simp at h0
      · simp only [Option.some.injEq] at h0
        subst h0
        exact ⟨rfl, rfl, rfl, rfl, rfl⟩
    obtain ⟨hb0, ho0, hf0, he0, hn0⟩ := hm0
    obtain ⟨-, -, -, -, g5, g6, g7⟩ :=
      add_blocks_fields named mesh0 mesh h (by rw [ho0, hb0]; rfl)
    refine ⟨?_, ?_, ?_⟩
    · simp only [fe_mesh_num_face_nodes, g5, hf0]
    · simp only [fe_mesh_num_face_edges, g6, he0]
    · simp only [fe_mesh_num_edge_nodes, g7, hn0]
  · intro mesh num_faces counts nodes mesh1 h hnonneg f hf
    unfold fe_mesh_set_face_nodes at h
    by_cases h1 : num_faces ≤ 0
    · simp [h1] at h
    rw [if_neg h1] at h
    cases hoffs : offsets_of_counts counts num_faces.toNat with
    | none => rw [hoffs] at h; simp at h
    | some offs =>
      rw [hoffs] at h
      simp only [] at h
      cases hr : read_slice nodes 0 (offs.getLastD 0) with
      | none => rw [hr] at h; simp at h
      | some nd =>
        rw [hr] at h
        simp only [Option.some.injEq] at h
        subst h
        obtain ⟨-, -, hstep⟩ := offsets_of_counts_shape counts num_faces.toNat offs hoffs
        obtain ⟨lo, hi2, x, h1, h2, h3, h4⟩ := hstep f (by omega)
        have e1 : read_int offs ((f : Nat) : Int) = some lo := by
          rw [read_int_natCast]; exact h1
        have e2 : read_int offs (((f : Nat) : Int) + 1) = some hi2 := by
          rw [← h2]; exact read_int_natCast offs (f + 1)
        refine ⟨hi2 - lo, by simp only [fe_mesh_num_face_nodes, e1, e2], ?_⟩
        rw [h4]
        exact hnonneg x (List.getElem?_mem h3)
  · intro mesh offs hm hp f hf
    obtain ⟨lo, hi, e0, e1, r0, r1, hle⟩ := offsets_step offs hp f hf
    exact ⟨lo, hi, e0, e1, by simp only [fe_mesh_num_face_edges, hm, r0, r1], hle⟩
  · intro mesh offs hm hp e he
    obtain ⟨lo, hi, e0, e1, r0, r1, hle⟩ := offsets_step offs hp e he
    exact ⟨lo, hi, e0, e1, by simp only [fe_mesh_num_edge_nodes, hm, r0, r1], hle⟩

/-- The block of one tetrahedron has `-1` faces and 4 nodes in element 0, and the
mesh holding it has `-1` nodes in face 0; with the face->edge offsets 0, 3, 5 and the
edge->node offsets 0, 2, 4 it has 2 edges in face 1 and 2 nodes in edge 0, as
`count_sentinels` says. -/
theorem count_sentinels_witness :
    fe_block_num_element_faces one_tetrahedron_block 0 = some (-1) ∧
    fe_block_num_element_nodes one_tetrahedron_block 0 = some 4 ∧
    fe_mesh_num_face_nodes (mesh_of_block 4 one_tetrahedron_block) 0 = some (-1) ∧
    fe_mesh_num_face_edges
      { mesh_of_block 4 one_tetrahedron_block with face_edge_offsets := some [0, 3, 5] } 1 =
        some 2 ∧
    fe_mesh_num_edge_nodes
      { mesh_of_block 4 one_tetrahedron_block with edge_node_offsets := some [0, 2, 4] } 0 =
        some 2 :=
  ⟨(count_sentinels.1 1 FE_TETRAHEDRON 4 [0, 1, 2, 3] one_tetrahedron_block
      one_tetrahedron_block_new).1 0, by decide, by decide,
   by
    obtain ⟨lo, hi, e0, e1, h, -⟩ := count_sentinels.2.2.2.2.1
      { mesh_of_block 4 one_tetrahedron_block with face_edge_offsets := some [0, 3, 5] }
      [0, 3, 5] rfl (by decide) 1 (by decide)
    simp only [List.getElem?_cons_succ, List.getElem?_cons_zero, Option.some.injEq] at e0 e1
    subst e0 e1
    exact h,
   by
    obtain ⟨lo, hi, e0, e1, h, -⟩ := count_sentinels.2.2.2.2.2
      { mesh_of_block 4 one_tetrahedron_block with edge_node_offsets := some [0, 2, 4] }
      [0, 2, 4] rfl (by decide) 0 (by decide)
    simp only [List.getElem?_cons_succ, List.getElem?_cons_zero, Option.some.injEq] at e0 e1
    subst e0 e1
    exact h⟩

/-- C30 fails on the code for one node per element: the offset table is allocated
with `num_elem_nodes * num_elem` entries and receives `num_elem + 1`, so with `k = 1`
the last write is past the buffer and no block is returned.  For every `k >= 2` the
block reports `num_elem` elements of the given type, its offset table holds `i*k` at
`i`, and for every `i < num_elem` `fe_block_num_element_nodes` returns `k` and
`fe_block_get_element_nodes` returns `nodes[i*k .. (i+1)*k)`. -/
theorem fe_block_new_one_node_per_element :
    fe_block_new 3 FE_TETRAHEDRON 1 [0, 1, 2] = none ∧
    ∀ (n k : Nat) (t : fe_mesh_element_t) (nodes : List Int),
      0 < n → 2 ≤ k → n * k ≤ nodes.length →
      ∃ b, fe_block_new (n : Int) t (k : Int) nodes = some b ∧
        fe_block_num_elements b = (n : Int) ∧ fe_block_element_type b = t ∧
        (∃ offs, b.elem_node_offsets = some offs ∧ offs.length = n + 1 ∧
          ∀ i : Nat, i ≤ n → offs[i]? = some ((i * k : Nat) : Int)) ∧
        ∀ i : Nat, i < n →
          fe_block_num_element_nodes b (i : Int) = some (k : Int) ∧
          ∀ buf : List Int, buf.length = k →
            fe_block_get_element_nodes b (i : Int) buf = some ((nodes.drop (i * k)).take k) := by
  refine ⟨by decide, ?_⟩
  intro n k t nodes hn hk hlen
  refine ⟨_, fe_block_new_built n k t nodes hn hk hlen, rfl, rfl,
    ⟨_, rfl, by rw [psums_length, List.length_replicate], ?_⟩, ?_⟩
  · intro i hi
    rw [psums_getElem? _ 0 i (by simp; exact hi), take_replicate_sum n k i hi]
    simp
  · intro i hi
    exact fe_block_new_elements n k t nodes i hi hlen

/-! ## Block search, assertions and constructors -/

/-- C21 fails on the code: `two_blocks_mesh` is what two `fe_mesh_add_block` calls
build from two blocks of two tetrahedra, element 3 is local element 1 of the second
block, which has 4 nodes, `(6,2,1,3)`, and the mesh-level accessors return the
sentinel `-1` and copy nothing for it; for element 1, local element 1 of the first
block, the search picks the second block and the local index `-1`. -/
theorem element_search_picks_wrong_block :
    ((fe_mesh_new 0 7).bind fun m =>
      (fe_block_new 2 FE_TETRAHEDRON 4 [0, 1, 2, 3, 4, 2, 1, 3]).bind fun a =>
        (fe_block_new 2 FE_TETRAHEDRON 4 [5, 1, 2, 3, 6, 2, 1, 3]).bind fun b =>
          add_blocks m [("block_1", a), ("block_2", b)]) = some two_blocks_mesh ∧
    fe_mesh_num_elements two_blocks_mesh = 4 ∧
    fe_block_num_element_nodes second_tetrahedra_block 1 = some 4 ∧
    fe_block_get_element_nodes second_tetrahedra_block 1 [0, 0, 0, 0] = some [6, 2, 1, 3] ∧
    fe_mesh_num_element_nodes two_blocks_mesh 3 = some (-1) ∧
    fe_mesh_get_element_nodes two_blocks_mesh 3 [0, 0, 0, 0] = some [0, 0, 0, 0] ∧
    locate_block two_blocks_mesh 3 = some none ∧
    locate_block two_blocks_mesh 1 = some (some 1) ∧
    fe_mesh_num_element_nodes two_blocks_mesh 1 = none ∧
    fe_mesh_get_element_nodes two_blocks_mesh 1 [0, 0, 0, 0] = none := by
  decide

/-- C24 fails on the code: `fe_mesh_num_element_nodes` stops on its assertions for
every index outside `0 <= elem_index < fe_mesh_num_elements`, and the other three
mesh-level element accessors have no such check: for the index 7 in a mesh of one
element they return `-1`, or return with the buffer untouched. -/
theorem element_index_checked_in_one_accessor :
    (∀ (mesh : fe_mesh_t) (elem_index : Int),
      elem_index < 0 ∨ fe_mesh_num_elements mesh ≤ elem_index →
        fe_mesh_num_element_nodes mesh elem_index = none) ∧
    fe_mesh_num_elements (mesh_of_block 4 one_tetrahedron_block) = 1 ∧
    fe_mesh_num_element_faces (mesh_of_block 4 one_tetrahedron_block) 7 = some (-1) ∧
    fe_mesh_get_element_faces (mesh_of_block 4 one_tetrahedron_block) 7 [0, 0, 0, 0] =
      some [0, 0, 0, 0] ∧
    fe_mesh_num_elements one_polyhedron_mesh = 1 ∧
    fe_mesh_get_element_nodes one_polyhedron_mesh 7 [0, 0, 0, 0] = some [0, 0, 0, 0] ∧
    fe_mesh_get_element_nodes one_polyhedron_mesh (-1) [0, 0, 0, 0] = some [0, 0, 0, 0] := by
  refine ⟨?_, by decide, by decide, by decide, by decide, by decide, by decide⟩
  intro mesh elem_index h
  unfold fe_mesh_num_element_nodes
  rcases h with h | h
  · simp [h]
  · by_cases h1 : elem_index < 0
    · simp [h1]
    · simp [h1, h]

/-- C25, as stated, fails: `fe_block_new` returns a block of one tetrahedron with 5
nodes per element. -/
theorem tetrahedron_with_five_nodes :
    ∃ b, fe_block_new 1 FE_TETRAHEDRON 5 [0, 1, 2, 3, 4] = some b ∧
      fe_block_element_type b = FE_TETRAHEDRON ∧
      fe_block_num_element_nodes b 0 = some 5 :=
  ⟨_, rfl, by decide, by decide⟩

/-- C25, amended: `fe_block_new` returns no block whenever the element count is not
positive, and it does not compare the node count per element with the topology: for
every topology, every positive element count `n` and every node count `k >= 2` per
element it returns a block of that topology with `k` nodes in every element. -/
theorem fe_block_new_element_count (type : fe_mesh_element_t) :
    (∀ (num_elem num_elem_nodes : Int) (elem_node_indices : List Int), num_elem ≤ 0 →
      fe_block_new num_elem type num_elem_nodes elem_node_indices = none) ∧
    ∀ (n k : Nat) (nodes : List Int), 0 < n → 2 ≤ k → n * k ≤ nodes.length →
      ∃ b, fe_block_new (n : Int) type (k : Int) nodes = some b ∧
        fe_block_element_type b = type ∧
        ∀ i : Nat, i < n → fe_block_num_element_nodes b (i : Int) = some (k : Int) := by
  constructor
  · intro num_elem num_elem_nodes elem_node_indices h
    simp [fe_block_new, h]
  · intro n k nodes hn hk hlen
    exact ⟨_, fe_block_new_built n k type nodes hn hk hlen, rfl,
      fun i hi => (fe_block_new_elements n k type nodes i hi hlen).1⟩

/-- No block for the element count 0, as `fe_block_new_element_count` says. -/
theorem fe_block_new_element_count_witness :
    fe_block_new 0 FE_TETRAHEDRON 4 [0, 1, 2, 3] = none :=
  (fe_block_new_element_count FE_TETRAHEDRON).1 0 4 [0, 1, 2, 3] (by decide)

/-- C26: `fe_mesh_new` returns no mesh when the node count is less than 4, and for
every node count `N >= 4` it returns a mesh with `N` nodes, all at `(0,0,0)`, no
blocks, 0 elements, 0 faces, 0 edges, the offset table `[0]`, and no entity set in
any of the five collections. -/
theorem fe_mesh_new_empty (comm : Nat) (N : Int) :
    (N < 4 → fe_mesh_new comm N = none) ∧
    (4 ≤ N → ∃ m, fe_mesh_new comm N = some m ∧
      fe_mesh_num_nodes m = N ∧
      fe_mesh_node_positions m = List.replicate N.toNat ⟨0, 0, 0⟩ ∧
      (fe_mesh_node_positions m).length = N.toNat ∧
      fe_mesh_num_blocks m = 0 ∧ fe_mesh_next_block m 0 = none ∧
      fe_mesh_num_elements m = 0 ∧ fe_mesh_num_faces m = 0 ∧ fe_mesh_num_edges m = 0 ∧
      m.block_elem_offsets = [0] ∧
      fe_mesh_next_element_set m 0 = none ∧ fe_mesh_next_face_set m 0 = none ∧
      fe_mesh_next_edge_set m 0 = none ∧ fe_mesh_next_node_set m 0 = none ∧
      fe_mesh_next_side_set m 0 = none) := by
  constructor
  · intro h
    simp [fe_mesh_new, h]
  · intro h
    have h4 : ¬ N < 4 := not_lt.mpr h
    have hnew : fe_mesh_new comm N =
        some { comm := comm, blocks := [], block_names := [], block_elem_offsets := [0],
               num_nodes := N, node_coords := List.replicate N.toNat ⟨0, 0, 0⟩,
               num_faces := 0, face_edge_offsets := none, face_edges := none,
               face_node_offsets := none, face_nodes := none,
               num_edges := 0, edge_node_offsets := none, edge_nodes := none,
               elem_sets := [], face_sets := [], edge_sets := [], node_sets := [],
               side_sets := [] } := by
      simp only [fe_mesh_new, h4, if_false, tagger_new]
    exact ⟨_, hnew, rfl, rfl, List.length_replicate _ _, rfl, rfl, rfl, rfl, rfl, rfl, rfl, rfl,
      rfl, rfl, rfl⟩

/-- The mesh that `fe_mesh_new` returns for 5 nodes, and none for 3 nodes. -/
theorem fe_mesh_new_empty_witness :
    fe_mesh_new 0 3 = none ∧
    ∃ m, fe_mesh_new 0 5 = some m ∧ fe_mesh_num_nodes m = 5 ∧
      fe_mesh_node_positions m = List.replicate 5 ⟨0, 0, 0⟩ :=
  ⟨(fe_mesh_new_empty 0 3).1 (by decide),
   match (fe_mesh_new_empty 0 5).2 (by decide) with
   | ⟨m, h1, h2, h3, _⟩ => ⟨m, h1, h2, h3⟩⟩

/-- C28 fails on the code: whatever the allocated memory holds and whatever room a
new array has, a mesh that `fe_mesh_clone` returns has no block and no block name,
since the clones are stored without being appended, and its face count, its
connectivity tables and its five set collections are those of the allocated memory,
not those of the mesh that was cloned. -/
theorem fe_mesh_clone_without_blocks (capacity : Nat) (fresh mesh copy : fe_mesh_t)
    (h : fe_mesh_clone capacity fresh mesh = some copy) :
    fe_mesh_num_blocks copy = 0 ∧ fe_mesh_next_block copy 0 = none ∧
    copy.num_faces = fresh.num_faces ∧ copy.face_node_offsets = fresh.face_node_offsets ∧
    copy.face_nodes = fresh.face_nodes ∧
    copy.elem_sets = fresh.elem_sets ∧ copy.face_sets = fresh.face_sets ∧
    copy.edge_sets = fresh.edge_sets ∧ copy.node_sets = fresh.node_sets ∧
    copy.side_sets = fresh.side_sets := by
  unfold fe_mesh_clone at h
  split at h
  · simp at h
  · split at h
    · simp at h
    · simp only [Option.some.injEq] at h
      subst h
      exact ⟨rfl, rfl, rfl, rfl, rfl, rfl, rfl, rfl, rfl, rfl⟩

/-- The clone of `two_sets_mesh`, which has one block and two element sets, in
zeroed memory: it has no block and no element set. -/
theorem fe_mesh_clone_without_blocks_witness :
    fe_mesh_num_blocks two_sets_mesh = 1 ∧
    fe_mesh_next_element_set two_sets_mesh 0 = some (1, "left", [0], 1) ∧
    ∃ copy, fe_mesh_clone 16 zeroed_mesh two_sets_mesh = some copy ∧
      fe_mesh_num_blocks copy = 0 ∧ fe_mesh_next_block copy 0 = none ∧
      fe_mesh_next_element_set copy 0 = none :=
  ⟨by decide, by decide, (fe_mesh_clone 16 zeroed_mesh two_sets_mesh).getD zeroed_mesh,
   by decide,
   (fe_mesh_clone_without_blocks 16 zeroed_mesh two_sets_mesh
      ((fe_mesh_clone 16 zeroed_mesh two_sets_mesh).getD zeroed_mesh) (by decide)).1,
   (fe_mesh_clone_without_blocks 16 zeroed_mesh two_sets_mesh
      ((fe_mesh_clone 16 zeroed_mesh two_sets_mesh).getD zeroed_mesh) (by decide)).2.1,
   by decide⟩

/-- C29 fails on the code: the connectivity of a block that `fe_block_clone` returns
is that of the allocated memory, whatever block was cloned; in zeroed memory the
clone of the block of one tetrahedron reports `-1` nodes for element 0 and copies no
node list, where the block itself reports 4 nodes and the list `(0,1,2,3)`. -/
theorem fe_block_clone_without_connectivity :
    (∀ fresh block : fe_block_t,
      fe_block_num_elements (fe_block_clone fresh block) = fe_block_num_elements block ∧
      fe_block_element_type (fe_block_clone fresh block) = fe_block_element_type block ∧
      (fe_block_clone fresh block).elem_node_offsets = fresh.elem_node_offsets ∧
      (fe_block_clone fresh block).elem_nodes = fresh.elem_nodes ∧
      (fe_block_clone fresh block).elem_face_offsets = fresh.elem_face_offsets ∧
      (fe_block_clone fresh block).elem_faces = fresh.elem_faces) ∧
    fe_block_new 1 FE_TETRAHEDRON 4 [0, 1, 2, 3] = some one_tetrahedron_block ∧
    fe_block_num_element_nodes one_tetrahedron_block 0 = some 4 ∧
    fe_block_get_element_nodes one_tetrahedron_block 0 [0, 0, 0, 0] = some [0, 1, 2, 3] ∧
    fe_block_num_element_nodes (fe_block_clone zeroed_block one_tetrahedron_block) 0 =
      some (-1) ∧
    fe_block_get_element_nodes (fe_block_clone zeroed_block one_tetrahedron_block) 0
      [0, 0, 0, 0] = some [0, 0, 0, 0] :=
  ⟨fun _ _ => ⟨rfl, rfl, rfl, rfl, rfl, rfl⟩, by decide, by decide, by decide, by decide,
   by decide⟩

/-! ## Face->node setter, importer types, cursors and set creators -/

theorem take_drop_take_of_le (l : List Int) (m a c : Nat) (h : a + c ≤ m) :
    ((l.take m).drop a).take c = (l.drop a).take c := by
  rw [List.drop_take, List.take_take]
  congr 1
  omega

/-- C31: after `fe_mesh_set_face_nodes(mesh, n, counts, nodes)` with `n > 0`, `n`
counts that are not negative and a node array that holds their sum,
`fe_mesh_num_faces` is `n`, and for every face `f < n` `fe_mesh_num_face_nodes` is
`counts[f]` and `fe_mesh_get_face_nodes` copies the `counts[f]` entries of `nodes`
that start at `counts[0] + ... + counts[f-1]`; the blocks, their names, the offset
table, the element count, the node count and the node positions stay as they were. -/
theorem set_face_nodes_table (mesh : fe_mesh_t) (counts : List Nat) (nodes : List Int)
    (hn : counts ≠ []) (hnodes : counts.sum ≤ nodes.length) :
    ∃ mesh1, fe_mesh_set_face_nodes mesh (counts.length : Int) (counts.map Int.ofNat) nodes =
        some mesh1 ∧
      fe_mesh_num_faces mesh1 = (counts.length : Int) ∧
      (∀ (f c : Nat), counts[f]? = some c →
        fe_mesh_num_face_nodes mesh1 (f : Int) = some (c : Int) ∧
        ∀ buf : List Int, buf.length = c →
          fe_mesh_get_face_nodes mesh1 (f : Int) buf =
            some ((nodes.drop (counts.take f).sum).take c)) ∧
      mesh1.blocks = mesh.blocks ∧ mesh1.block_names = mesh.block_names ∧
      mesh1.block_elem_offsets = mesh.block_elem_offsets ∧
      fe_mesh_num_elements mesh1 = fe_mesh_num_elements mesh ∧
      fe_mesh_num_nodes mesh1 = fe_mesh_num_nodes mesh ∧
      fe_mesh_node_positions mesh1 = fe_mesh_node_positions mesh := by
  have hpos : 0 < counts.length := List.length_pos.mpr hn
  obtain ⟨h1, -⟩ := offsets_of_counts_psums counts counts.length (Nat.le_refl _)
  rw [List.take_length] at h1
  have hr : read_slice nodes 0 ((psums 0 counts).getLastD 0) = some (nodes.take counts.sum) := by
    rw [psums_getLastD]
    unfold read_slice
    rw [if_neg (by omega)]
    simp only [Int.toNat_zero, List.drop_zero, zero_add, Int.toNat_natCast]
  have hset : fe_mesh_set_face_nodes mesh (counts.length : Int) (counts.map Int.ofNat) nodes =
      some { mesh with num_faces := (counts.length : Int),
                       face_node_offsets := some (psums 0 counts),
                       face_nodes := some (nodes.take counts.sum) } := by
    unfold fe_mesh_set_face_nodes
    rw [if_neg (by omega)]
    simp only [Int.toNat_natCast, h1, hr]
  refine ⟨_, hset, rfl, ?_, rfl, rfl, rfl, rfl, rfl, rfl⟩
  intro f c hf
  obtain ⟨lo, hi, hlo, hhi, hd⟩ := psums_step counts f c hf
  have e1 : read_int (psums 0 counts) ((f : Nat) : Int) = some lo := by
    rw [read_int_natCast]; exact hlo
  have e2 : read_int (psums 0 counts) (((f : Nat) : Int) + 1) = some hi := by
    rw [← hhi]; exact read_int_natCast _ (f + 1)
  have hle : (counts.take f).sum + c ≤ counts.sum := by
    have a1 := sum_take_succ_getElem? counts f c hf
    have a2 := sum_take_add_drop counts (f + 1)
    omega
  constructor
  · simp only [fe_mesh_num_face_nodes, e1, e2, hd]
  · intro buf hbuf
    have hseg := segment_psums counts (nodes.take counts.sum) f c hf
      (by rw [List.length_take]; omega)
    unfold segment at hseg
    rw [e1, e2] at hseg
    simp only [] at hseg
    simp only [fe_mesh_get_face_nodes, e1, e2, hseg]
    rw [take_drop_take_of_le nodes counts.sum _ c hle]
    apply copy_into_same_length
    rw [hbuf, List.length_take, List.length_drop]
    omega

/-- Two faces of 3 and 4 nodes set on the two tetrahedra: face 1 has 4 nodes, the
entries 3..6 of the node array, as `set_face_nodes_table` says. -/
theorem set_face_nodes_table_witness :
    ([3, 4] : List Nat) ≠ [] ∧
    ([3, 4] : List Nat).sum ≤ ([0, 1, 2, 3, 4, 5, 6] : List Int).length ∧
    ∃ mesh1, fe_mesh_set_face_nodes two_tetrahedra_mesh 2 [3, 4] [0, 1, 2, 3, 4, 5, 6] =
        some mesh1 ∧
      fe_mesh_num_faces mesh1 = 2 ∧
      fe_mesh_num_face_nodes mesh1 1 = some 4 ∧
      fe_mesh_get_face_nodes mesh1 1 [0, 0, 0, 0] = some [3, 4, 5, 6] := by
  obtain ⟨mesh1, h1, h2, h3, -⟩ := set_face_nodes_table two_tetrahedra_mesh [3, 4]
    [0, 1, 2, 3, 4, 5, 6] (by decide) (by decide)
  exact ⟨by decide, by decide, mesh1, h1, h2, (h3 1 4 rfl).1, (h3 1 4 rfl).2 [0, 0, 0, 0] rfl⟩

/-- C32 fails on the code: `get_element_type` returns for `wedge` with 16 nodes the
value it returns with 15 nodes, `FE_WEDGE_15`, and for `pyramid` with 5 and with 13
nodes the names `FE_HEXAHEDRON_5` and `FE_HEXAHEDRON_13`, not the pyramids of the
header; the tetrahedron and hexahedron pairs and `wedge` with 6 and 15 nodes give the
variant with that node count. -/
theorem get_element_type_aliases :
    get_element_type "wedge".toList 16 = some fe_element_t.FE_WEDGE_15 ∧
    get_element_type "wedge".toList 15 = some fe_element_t.FE_WEDGE_15 ∧
    get_element_type "wedge".toList 6 = some fe_element_t.FE_WEDGE_6 ∧
    get_element_type "pyramid".toList 5 = some fe_element_t.FE_HEXAHEDRON_5 ∧
    get_element_type "pyramid".toList 13 = some fe_element_t.FE_HEXAHEDRON_13 ∧
    get_element_type "tetra".toList 4 = some fe_element_t.FE_TETRAHEDRON_4 ∧
    get_element_type "tetra".toList 8 = some fe_element_t.FE_TETRAHEDRON_8 ∧
    get_element_type "tetra".toList 10 = some fe_element_t.FE_TETRAHEDRON_10 ∧
    get_element_type "tetra".toList 14 = some fe_element_t.FE_TETRAHEDRON_14 ∧
    get_element_type "hex".toList 8 = some fe_element_t.FE_HEXAHEDRON_8 ∧
    get_element_type "hex".toList 9 = some fe_element_t.FE_HEXAHEDRON_9 ∧
    get_element_type "hex".toList 20 = some fe_element_t.FE_HEXAHEDRON_20 ∧
    get_element_type "hex".toList 27 = some fe_element_t.FE_HEXAHEDRON_27 := by
  decide

/-- C33, as stated, fails: for `tetra` with 5 nodes and for `hex` with 7 nodes
`get_element_type` stops on an assertion and returns no value, not `FE_INVALID`. -/
theorem get_element_type_asserts :
    get_element_type "tetra".toList 5 = none ∧ get_element_type "hex".toList 7 = none ∧
    get_element_type "tetra".toList 5 ≠ some fe_element_t.FE_INVALID ∧
    get_element_type "hex".toList 7 ≠ some fe_element_t.FE_INVALID := by
  decide

theorem string_ncasecmp_head (s : List Char) (c : Char) (t : List Char) (n : Nat)
    (h : string_ncasecmp s (c :: t) (n + 1) = 0) :
    ∃ a rest, s = a :: rest ∧ a.toLower = c.toLower := by
  unfold string_ncasecmp at h
  cases s with
  | nil => simp at h
  | cons a rest =>
    refine ⟨a, rest, rfl, ?_⟩
    by_cases he : ((a :: rest).take (n + 1)).map Char.toLower =
        ((c :: t).take (n + 1)).map Char.toLower
    · simp only [List.take_succ_cons, List.map_cons, List.cons.injEq] at he
      exact he.1
    · rw [if_neg he] at h
      exact absurd h (by decide)

theorem string_ncasecmp_other (s : List Char) (c d : Char) (t u : List Char) (n k : Nat)
    (h : string_ncasecmp s (c :: t) (n + 1) = 0) (hcd : c.toLower ≠ d.toLower) :
    ¬ string_ncasecmp s (d :: u) (k + 1) = 0 := by
  intro h2
  obtain ⟨a, rest, hs, ha⟩ := string_ncasecmp_head s c t n h
  obtain ⟨b, rest2, hs2, hb⟩ := string_ncasecmp_head s d u k h2
  rw [hs] at hs2
  simp only [List.cons.injEq] at hs2
  rw [← hs2.1] at hb
  exact hcd (ha.symm.trans hb)

/-- C33, amended: `get_element_type` returns `FE_INVALID` for every name that starts,
without regard to case, with none of `nfaced`, `tetra`, `pyramid`, `wedge`, `hex`;
for a name that starts with one of them and a node count that is not one of that
family's, it stops on an assertion and returns no value. -/
theorem get_element_type_unrecognized (name : List Char) (n : Int) :
    (string_ncasecmp name "nfaced".toList 6 ≠ 0 → string_ncasecmp name "tetra".toList 5 ≠ 0 →
      string_ncasecmp name "pyramid".toList 7 ≠ 0 → string_ncasecmp name "wedge".toList 5 ≠ 0 →
      string_ncasecmp name "hex".toList 3 ≠ 0 →
      get_element_type name n = some fe_element_t.FE_INVALID) ∧
    (string_ncasecmp name "nfaced".toList 6 = 0 → n ≠ 0 → get_element_type name n = none) ∧
    (string_ncasecmp name "tetra".toList 5 = 0 → n ≠ 4 → n ≠ 8 → n ≠ 10 → n ≠ 14 →
      get_element_type name n = none) ∧
    (string_ncasecmp name "pyramid".toList 7 = 0 → n ≠ 5 → n ≠ 13 →
      get_element_type name n = none) ∧
    (string_ncasecmp name "wedge".toList 5 = 0 → n ≠ 6 → n ≠ 15 → n ≠ 16 →
      get_element_type name n = none) ∧
    (string_ncasecmp name "hex".toList 3 = 0 → n ≠ 8 → n ≠ 9 → n ≠ 20 → n ≠ 27 →
      get_element_type name n = none) := by
  refine ⟨?_, ?_, ?_, ?_, ?_, ?_⟩
  · intro h1 h2 h3 h4 h5
    simp only [get_element_type, h1, h2, h3, h4, h5, if_false]
  · intro h1 hn
    simp only [get_element_type, h1, hn, if_true, if_false]
  · intro h2 a b c d
    have h1 : ¬ string_ncasecmp name "nfaced".toList 6 = 0 :=
      string_ncasecmp_other name 't' 'n' "etra".toList "faced".toList 4 5 h2 (by decide)
    simp only [get_element_type, h1, h2, a, b, c, d, if_true, if_false]
  · intro h3 a b
    have h1 : ¬ string_ncasecmp name "nfaced".toList 6 = 0 :=
      string_ncasecmp_other name 'p' 'n' "yramid".toList "faced".toList 6 5 h3
      (by decide)
    have h2 : ¬ string_ncasecmp name "tetra".toList 5 = 0 :=
      string_ncasecmp_other name 'p' 't' "yramid".toList "etra".toList 6 4 h3
      (by decide)
    simp only [get_element_type, h1, h2, h3, a, b, if_true, if_false]
  · intro h4 a b c
    have h1 : ¬ string_ncasecmp name "nfaced".toList 6 = 0 :=
      string_ncasecmp_other name 'w' 'n' "edge".toList "faced".toList 4 5 h4 (by decide)
    have h2 : ¬ string_ncasecmp name "tetra".toList 5 = 0 :=
      string_ncasecmp_other name 'w' 't' "edge".toList "etra".toList 4 4 h4 (by decide)
    have h3 : ¬ string_ncasecmp name "pyramid".toList 7 = 0 :=
      string_ncasecmp_other name 'w' 'p' "edge".toList "yramid".toList 4 6 h4
      (by decide)
    simp only [get_element_type, h1, h2, h3, h4, a, b, c, if_true, if_false]
  · intro h5 a b c d
    have h1 : ¬ string_ncasecmp name "nfaced".toList 6 = 0 :=
      string_ncasecmp_other name 'h' 'n' "ex".toList "faced".toList 2 5 h5 (by decide)
    have h2 : ¬ string_ncasecmp name "tetra".toList 5 = 0 :=
      string_ncasecmp_other name 'h' 't' "ex".toList "etra".toList 2 4 h5 (by decide)
    have h3 : ¬ string_ncasecmp name "pyramid".toList 7 = 0 :=
      string_ncasecmp_other name 'h' 'p' "ex".toList "yramid".toList 2 6 h5 (by decide)
    have h4 : ¬ string_ncasecmp name "wedge".toList 5 = 0 :=
      string_ncasecmp_other name 'h' 'w' "ex".toList "edge".toList 2 4 h5 (by decide)
    simp only [get_element_type, h1, h2, h3, h4, h5, a, b, c, d, if_true, if_false]

/-- The name `sphere` gives `FE_INVALID`, and `wedge` with 7 nodes gives no value, as
`get_element_type_unrecognized` says. -/
theorem get_element_type_unrecognized_witness :
    get_element_type "sphere".toList 1 = some fe_element_t.FE_INVALID ∧
    get_element_type "wedge".toList 7 = none :=
  ⟨(get_element_type_unrecognized "sphere".toList 1).1 (by decide) (by decide) (by decide)
     (by decide) (by decide),
   (get_element_type_unrecognized "wedge".toList 7).2.2.2.2.1 (by decide) (by decide)
     (by decide) (by decide)⟩

theorem fe_mesh_next_block_at (mesh : fe_mesh_t) (named : List (String × fe_block_t))
    (hb : mesh.blocks = named.map Prod.snd) (hn : mesh.block_names = named.map Prod.fst) :
    (∀ (k : Nat) (p : String × fe_block_t), named[k]? = some p →
      fe_mesh_next_block mesh k = some (k + 1, p.1, p.2)) ∧
    ∀ pos : Nat, named.length ≤ pos → fe_mesh_next_block mesh pos = none := by
  constructor
  · intro k p hk
    have hlt := getElem?_lt_of_some _ _ _ hk
    unfold fe_mesh_next_block
    rw [hb, hn, List.length_map, if_neg (by omega)]
    simp [List.getElem?_map, hk]
  · intro pos hpos
    unfold fe_mesh_next_block
    rw [hb, List.length_map, if_pos hpos]

theorem traverse_blocks_drop (mesh : fe_mesh_t) (named : List (String × fe_block_t))
    (hb : mesh.blocks = named.map Prod.snd) (hn : mesh.block_names = named.map Prod.fst) :
    ∀ (fuel pos : Nat), named.length < fuel + pos →
      traverse_blocks mesh fuel pos = named.drop pos := by
  obtain ⟨h1, h2⟩ := fe_mesh_next_block_at mesh named hb hn
  intro fuel
  induction fuel with
  | zero =>
    intro pos h
    rw [List.drop_eq_nil_of_le (by omega)]
    rfl
  | succ fuel ih =>
    intro pos h
    rcases Nat.lt_or_ge pos named.length with hlt | hge
    · have hget : named[pos]? = some named[pos] := List.getElem?_eq_getElem hlt
      simp only [traverse_blocks, h1 pos _ hget]
      rw [ih (pos + 1) (by omega), List.drop_eq_getElem_cons hlt]
    · simp only [traverse_blocks, h2 pos hge]
      rw [List.drop_eq_nil_of_le hge]

/-- C34: on a mesh built by `fe_mesh_new` and `fe_mesh_add_block` calls,
`fe_mesh_next_block` with the cursor at `k` below the number of blocks yields the
block added at position `k` with its name and the cursor `k + 1`; with the cursor at
or beyond the number of blocks it yields nothing; and the traversal from the cursor
0 yields the added blocks with their names, in the order in which they were added, as
often as it is run. -/
theorem next_block_traversal (comm : Nat) (N : Int) (named : List (String × fe_block_t))
    (mesh0 mesh : fe_mesh_t) (h0 : fe_mesh_new comm N = some mesh0)
    (h : add_blocks mesh0 named = some mesh) :
    (∀ (k : Nat) (p : String × fe_block_t), named[k]? = some p →
      fe_mesh_next_block mesh k = some (k + 1, p.1, p.2)) ∧
    (∀ pos : Nat, named.length ≤ pos → fe_mesh_next_block mesh pos = none) ∧
    fe_mesh_num_blocks mesh = (named.length : Int) ∧
    ∀ fuel : Nat, named.length < fuel → traverse_blocks mesh fuel 0 = named := by
  have hm0 : mesh0.blocks = [] ∧ mesh0.block_names = [] ∧ mesh0.block_elem_offsets = [0] := by
    unfold fe_mesh_new at h0
    split at h0
    · simp at h0
    · simp only [Option.some.injEq] at h0
      subst h0
      exact ⟨rfl, rfl, rfl⟩
  obtain ⟨hb0, hn0, ho0⟩ := hm0
  obtain ⟨g1, g2, -⟩ := add_blocks_fields named mesh0 mesh h (by rw [ho0, hb0]; rfl)
  rw [hb0, List.nil_append] at g1
  rw [hn0, List.nil_append] at g2
  obtain ⟨a1, a2⟩ := fe_mesh_next_block_at mesh named g1 g2
  refine ⟨a1, a2, ?_, ?_⟩
  · simp [fe_mesh_num_blocks, g1]
  · intro fuel hf
    rw [traverse_blocks_drop mesh named g1 g2 fuel 0 (by omega)]
    rfl

/-- The traversal of the mesh with the two blocks of two tetrahedra yields the two
blocks in the order in which they were added, as `next_block_traversal` says. -/
theorem next_block_traversal_witness :
    fe_mesh_new 0 7 = some ((fe_mesh_new 0 7).getD zeroed_mesh) ∧
    add_blocks ((fe_mesh_new 0 7).getD zeroed_mesh)
      [("block_1", two_tetrahedra_block), ("block_2", second_tetrahedra_block)] =
        some two_blocks_mesh ∧
    fe_mesh_next_block two_blocks_mesh 1 = some (2, "block_2", second_tetrahedra_block) ∧
    fe_mesh_next_block two_blocks_mesh 2 = none ∧
    traverse_blocks two_blocks_mesh 3 0 =
      [("block_1", two_tetrahedra_block), ("block_2", second_tetrahedra_block)] :=
  ⟨by decide, by decide,
   (next_block_traversal 0 7 [("block_1", two_tetrahedra_block),
      ("block_2", second_tetrahedra_block)] ((fe_mesh_new 0 7).getD zeroed_mesh)
      two_blocks_mesh (by decide) (by decide)).1 1 _ rfl,
   (next_block_traversal 0 7 [("block_1", two_tetrahedra_block),
      ("block_2", second_tetrahedra_block)] ((fe_mesh_new 0 7).getD zeroed_mesh)
      two_blocks_mesh (by decide) (by decide)).2.1 2 (by decide),
   (next_block_traversal 0 7 [("block_1", two_tetrahedra_block),
      ("block_2", second_tetrahedra_block)] ((fe_mesh_new 0 7).getD zeroed_mesh)
      two_blocks_mesh (by decide) (by decide)).2.2.2 3 (by decide)⟩

theorem tagger_create_tag_fresh (tagger : tagger_t) (name : String) (size : Nat)
    (h : name ∉ tagger.map Prod.fst) :
    tagger_create_tag tagger name size = some (tagger ++ [(name, List.replicate size 0)]) ∧
    tagger_next_tag (tagger ++ [(name, List.replicate size 0)]) tagger.length =
      some (tagger.length + 1, name, List.replicate size 0, size) := by
  constructor
  · simp [tagger_create_tag, h]
  · simp [tagger_next_tag]

/-- C35: for a name not yet in use, `fe_mesh_create_side_set(mesh, name, size)` adds
to the side sets a set with a buffer of exactly `2*size` entries, and the creators
of element, face, edge and node sets add to their collection a set with a buffer of
exactly `size` entries; the traversal of the collection reports these sizes. -/
theorem set_creators_sizes (mesh : fe_mesh_t) (name : String) (size : Nat) :
    (name ∉ mesh.side_sets.map Prod.fst →
      ∃ mesh1 buf, fe_mesh_create_side_set mesh name size = some mesh1 ∧
        mesh1.side_sets = mesh.side_sets ++ [(name, buf)] ∧ buf.length = 2 * size ∧
        fe_mesh_next_side_set mesh1 mesh.side_sets.length =
          some (mesh.side_sets.length + 1, name, buf, 2 * size)) ∧
    (name ∉ mesh.elem_sets.map Prod.fst →
      ∃ mesh1 buf, fe_mesh_create_element_set mesh name size = some mesh1 ∧
        mesh1.elem_sets = mesh.elem_sets ++ [(name, buf)] ∧ buf.length = size ∧
        fe_mesh_next_element_set mesh1 mesh.elem_sets.length =
          some (mesh.elem_sets.length + 1, name, buf, size)) ∧
    (name ∉ mesh.face_sets.map Prod.fst →
      ∃ mesh1 buf, fe_mesh_create_face_set mesh name size = some mesh1 ∧
        mesh1.face_sets = mesh.face_sets ++ [(name, buf)] ∧ buf.length = size ∧
        fe_mesh_next_face_set mesh1 mesh.face_sets.length =
          some (mesh.face_sets.length + 1, name, buf, size)) ∧
    (name ∉ mesh.edge_sets.map Prod.fst →
      ∃ mesh1 buf, fe_mesh_create_edge_set mesh name size = some mesh1 ∧
        mesh1.edge_sets = mesh.edge_sets ++ [(name, buf)] ∧ buf.length = size ∧
        fe_mesh_next_edge_set mesh1 mesh.edge_sets.length =
          some (mesh.edge_sets.length + 1, name, buf, size)) ∧
    (name ∉ mesh.node_sets.map Prod.fst →
      ∃ mesh1 buf, fe_mesh_create_node_set mesh name size = some mesh1 ∧
        mesh1.node_sets = mesh.node_sets ++ [(name, buf)] ∧ buf.length = size ∧
        fe_mesh_next_node_set mesh1 mesh.node_sets.length =
          some (mesh.node_sets.length + 1, name, buf, size)) := by
  refine ⟨?_, ?_, ?_, ?_, ?_⟩
  · intro h
    obtain ⟨h1, h2⟩ := tagger_create_tag_fresh mesh.side_sets name (2 * size) h
    exact ⟨{ mesh with side_sets := mesh.side_sets ++ [(name, List.replicate (2 * size) 0)] },
      List.replicate (2 * size) 0, by simp only [fe_mesh_create_side_set, h1], rfl,
      List.length_replicate _ _, h2⟩
  · intro h
    obtain ⟨h1, h2⟩ := tagger_create_tag_fresh mesh.elem_sets name size h
    exact ⟨{ mesh with elem_sets := mesh.elem_sets ++ [(name, List.replicate (size) 0)] },
      List.replicate (size) 0, by simp only [fe_mesh_create_element_set, h1], rfl,
      List.length_replicate _ _, h2⟩
  · intro h
    obtain ⟨h1, h2⟩ := tagger_create_tag_fresh mesh.face_sets name size h
    exact ⟨{ mesh with face_sets := mesh.face_sets ++ [(name, List.replicate (size) 0)] },
      List.replicate (size) 0, by simp only [fe_mesh_create_face_set, h1], rfl,
      List.length_replicate _ _, h2⟩
  · intro h
    obtain ⟨h1, h2⟩ := tagger_create_tag_fresh mesh.edge_sets name size h
    exact ⟨{ mesh with edge_sets := mesh.edge_sets ++ [(name, List.replicate (size) 0)] },
      List.replicate (size) 0, by simp only [fe_mesh_create_edge_set, h1], rfl,
      List.length_replicate _ _, h2⟩
  · intro h
    obtain ⟨h1, h2⟩ := tagger_create_tag_fresh mesh.node_sets name size h
    exact ⟨{ mesh with node_sets := mesh.node_sets ++ [(name, List.replicate (size) 0)] },
      List.replicate (size) 0, by simp only [fe_mesh_create_node_set, h1], rfl,
      List.length_replicate _ _, h2⟩

/-- A side set of 3 sides on the two tetrahedra gets 6 entries and an element set of
size 3 gets 3, as `set_creators_sizes` says. -/
theorem set_creators_sizes_witness :
    (∃ mesh1 buf, fe_mesh_create_side_set two_tetrahedra_mesh "s" 3 = some mesh1 ∧
      mesh1.side_sets = two_tetrahedra_mesh.side_sets ++ [("s", buf)] ∧ buf.length = 2 * 3 ∧
      fe_mesh_next_side_set mesh1 two_tetrahedra_mesh.side_sets.length =
        some (two_tetrahedra_mesh.side_sets.length + 1, "s", buf, 2 * 3)) ∧
    (∃ mesh1 buf, fe_mesh_create_element_set two_tetrahedra_mesh "s" 3 = some mesh1 ∧
      mesh1.elem_sets = two_tetrahedra_mesh.elem_sets ++ [("s", buf)] ∧ buf.length = 3 ∧
      fe_mesh_next_element_set mesh1 two_tetrahedra_mesh.elem_sets.length =
        some (two_tetrahedra_mesh.elem_sets.length + 1, "s", buf, 3)) :=
  ⟨(set_creators_sizes two_tetrahedra_mesh "s" 3).1 (by decide),
   (set_creators_sizes two_tetrahedra_mesh "s" 3).2.1 (by decide)⟩

/-- C36: for every FE mesh with exactly one block, whose offset table starts at 0,
and every element index `i` with `0 <= i < fe_mesh_num_elements`, the mesh-level
accessors give what the block-level accessors give for `i`: the node count, the
buffer after `fe_mesh_get_element_nodes`, the face count and the buffer after
`fe_mesh_get_element_faces`. -/
theorem single_block_accessors (mesh : fe_mesh_t) (block : fe_block_t)
    (hb : mesh.blocks = [block]) (ho : mesh.block_elem_offsets[0]? = some 0)
    (i : Int) (hi0 : 0 ≤ i) (hi1 : i < fe_mesh_num_elements mesh) :
    fe_mesh_num_element_nodes mesh i = fe_block_num_element_nodes block i ∧
    (∀ buf : List Int,
      fe_mesh_get_element_nodes mesh i buf = fe_block_get_element_nodes block i buf) ∧
    fe_mesh_num_element_faces mesh i = fe_block_num_element_faces block i ∧
    ∀ buf : List Int,
      fe_mesh_get_element_faces mesh i buf = fe_block_get_element_faces block i buf := by
  have hloc : locate_block mesh i = some (some 0) := by
    simp [locate_block, hb]
  have hb0 : mesh.blocks[0]? = some block := by rw [hb]; rfl
  refine ⟨?_, ?_, ?_, ?_⟩
  · simp only [fe_mesh_num_element_nodes, if_neg (not_lt.mpr hi0), if_neg (not_le.mpr hi1),
      hloc, hb0, ho, sub_zero]
  · intro buf
    simp only [fe_mesh_get_element_nodes, hloc, hb0, ho, sub_zero]
  · simp only [fe_mesh_num_element_faces, hloc, hb0, ho, sub_zero]
  · intro buf
    simp only [fe_mesh_get_element_faces, hloc, hb0, ho, sub_zero]

/-- The hypotheses of `single_block_accessors` hold of the mesh with the one block
of two tetrahedra and the element 1, whose nodes are `(4,2,1,3)`. -/
theorem single_block_accessors_witness :
    two_tetrahedra_mesh.blocks = [two_tetrahedra_block] ∧
    two_tetrahedra_mesh.block_elem_offsets[0]? = some 0 ∧
    (0 : Int) ≤ 1 ∧ (1 : Int) < fe_mesh_num_elements two_tetrahedra_mesh ∧
    fe_mesh_num_element_nodes two_tetrahedra_mesh 1 = some 4 ∧
    fe_mesh_num_element_nodes two_tetrahedra_mesh 1 =
      fe_block_num_element_nodes two_tetrahedra_block 1 ∧
    fe_mesh_get_element_nodes two_tetrahedra_mesh 1 [0, 0, 0, 0] = some [4, 2, 1, 3] ∧
    fe_mesh_get_element_nodes two_tetrahedra_mesh 1 [0, 0, 0, 0] =
      fe_block_get_element_nodes two_tetrahedra_block 1 [0, 0, 0, 0] :=
  ⟨rfl, rfl, by decide, by decide, by decide,
   (single_block_accessors two_tetrahedra_mesh two_tetrahedra_block rfl rfl 1 (by decide)
      (by decide)).1, by decide,
   (single_block_accessors two_tetrahedra_mesh two_tetrahedra_block rfl rfl 1 (by decide)
      (by decide)).2.1 [0, 0, 0, 0]⟩

/-! ## The state of the deduplication -/

theorem map_of_keys_values (ks : List (List Int)) :
    ∀ s, (map_of_keys s ks).map Prod.snd = (List.range' s ks.length).map Int.ofNat := by
  induction ks with
  | nil => intro s; rfl
  | cons k ks ih =>
    intro s
    simp only [map_of_keys, List.map_cons, List.length_cons, List.range'_succ, ih]
    rfl

theorem foldl_calls_state_of (calls : List (List Int × Nat))
    (h : ∀ r ∈ calls, r.2 ≤ r.1.length) :
    ∀ fl, ∃ fl1, calls.foldl (fun st r => (map_nodes_to_face st r.1 r.2).2) (state_of fl) =
      state_of fl1 := by
  induction calls with
  | nil => intro fl; exact ⟨fl, rfl⟩
  | cons r rest ih =>
    intro fl
    have hr := h r (List.mem_cons_self _ _)
    rw [List.foldl_cons, map_nodes_to_face_state_of fl r.1 r.2 hr]
    exact ih (fun q hq => h q (List.mem_cons_of_mem _ hq)) _

theorem run_calls_state_of (calls : List (List Int × Nat))
    (h : ∀ r ∈ calls, r.2 ≤ r.1.length) : ∃ fl, run_calls calls = state_of fl := by
  unfold run_calls
  rw [← state_of_nil]
  exact foldl_calls_state_of calls h []

theorem state_of_call (fl : List (List Int)) (nodes : List Int) (k : Nat)
    (hk : k ≤ nodes.length) :
    0 ≤ (map_nodes_to_face (state_of fl) nodes k).1 ∧
    (map_nodes_to_face (state_of fl) nodes k).1 <
      ((map_nodes_to_face (state_of fl) nodes k).2.node_face_map.length : Int) := by
  rw [map_nodes_to_face_state_of fl nodes k hk]
  unfold dedup_step
  by_cases hmem : int_qsort (nodes.take k) ∈ fl.map int_qsort
  · rw [if_pos hmem]
    have hlt := (key_index_spec _ _ hmem).1
    rw [List.length_map] at hlt
    simp only [List.nil_append, List.map_cons, List.map_nil, List.headD_cons, state_of,
      map_of_keys_length, List.length_map]
    constructor
    · exact Int.ofNat_nonneg _
    · exact Int.ofNat_lt.mpr hlt
  · rw [if_neg hmem]
    simp only [List.nil_append, List.map_cons, List.map_nil, List.headD_cons, state_of,
      map_of_keys_length, List.length_map, List.length_append, List.length_singleton]
    constructor
    · exact Int.ofNat_nonneg _
    · exact Int.ofNat_lt.mpr (Nat.lt_succ_self _)

/-- C38: after any sequence of `map_nodes_to_face` calls from the empty map, with
`face_node_offsets = [0]` and `face_nodes` empty, the map has one entry less than
`face_node_offsets`, the last offset is the length of `face_nodes`, the stored ids are
`0, 1, ..., size-1`, the face id that a further call returns is at least 0 and below
the size of the map after the call, and a call that finds its key leaves the map and
the two tables as they were.  For every FE mesh of non-polyhedral blocks
`mesh_from_fe_mesh` returns a mesh, and every entry of its cell->face table is at
least 0 and below the face count. -/
theorem dedup_state_invariant (calls : List (List Int × Nat))
    (h : ∀ r ∈ calls, r.2 ≤ r.1.length) :
    ((run_calls calls).node_face_map.length : Int) =
      ((run_calls calls).face_node_offsets.length : Int) - 1 ∧
    (run_calls calls).face_node_offsets.getLastD 0 =
      ((run_calls calls).face_nodes.length : Int) ∧
    (run_calls calls).node_face_map.map Prod.snd =
      (List.range (run_calls calls).node_face_map.length).map Int.ofNat ∧
    (∀ (nodes : List Int) (k : Nat), k ≤ nodes.length →
      0 ≤ (map_nodes_to_face (run_calls calls) nodes k).1 ∧
      (map_nodes_to_face (run_calls calls) nodes k).1 <
        ((map_nodes_to_face (run_calls calls) nodes k).2.node_face_map.length : Int)) ∧
    (∀ (nodes : List Int) (k : Nat) (e : Int),
      int_tuple_int_unordered_map_get (run_calls calls).node_face_map
          (int_qsort (nodes.take k)) = some e →
        map_nodes_to_face (run_calls calls) nodes k = (e, run_calls calls)) ∧
    ∀ m : fe_mesh_t, derivable_fe_mesh m →
      ∃ fv, mesh_from_fe_mesh m = some fv ∧
        ∀ x ∈ fv.cell_faces, 0 ≤ x ∧ x < fv.num_faces := by
  obtain ⟨fl, hfl⟩ := run_calls_state_of calls h
  rw [hfl]
  refine ⟨?_, ?_, ?_, ?_, ?_, ?_⟩
  · simp only [state_of, map_of_keys_length, List.length_map, psums_length]
    push_cast
    ring
  · simp only [state_of, psums_getLastD, List.length_flatten, zero_add]
  · simp only [state_of, map_of_keys_values, map_of_keys_length, List.length_map]
    rw [List.range_eq_range']
  · intro nodes k hk
    exact state_of_call fl nodes k hk
  · intro nodes k e he
    simp only [map_nodes_to_face, he]
  · intro m hm
    obtain ⟨fc, hfv, -, -⟩ := mesh_from_fe_mesh_derivable m hm
    exact ⟨_, hfv, dedup_run_ids_range (mesh_template_faces m)⟩

/-- The hypothesis of `dedup_state_invariant` holds of three calls, the third with
the nodes of the first in another order: two faces are on record. -/
theorem dedup_state_invariant_witness :
    (∀ r ∈ [([0, 1, 2], 3), ([0, 1, 3], 3), ([2, 0, 1], 3)], r.2 ≤ r.1.length) ∧
    run_calls [([0, 1, 2], 3), ([0, 1, 3], 3), ([2, 0, 1], 3)] =
      { node_face_map := [([0, 1, 2], 0), ([0, 1, 3], 1)],
        face_node_offsets := [0, 3, 6], face_nodes := [0, 1, 2, 0, 1, 3] } ∧
    ((run_calls [([0, 1, 2], 3), ([0, 1, 3], 3), ([2, 0, 1], 3)]).node_face_map.length : Int) =
      ((run_calls [([0, 1, 2], 3), ([0, 1, 3], 3),
        ([2, 0, 1], 3)]).face_node_offsets.length : Int) - 1 :=
  ⟨by decide, by decide,
   (dedup_state_invariant [([0, 1, 2], 3), ([0, 1, 3], 3), ([2, 0, 1], 3)] (by decide)).1⟩

/-! ## Soundness and completeness of the face->cell table -/

theorem mem_cells_of_counts (cnt : Nat → Nat) (x : Int) :
    ∀ n : Nat, x ∈ ((List.range n).map
        (fun c => List.replicate (cnt c) (Int.ofNat c))).flatten ↔
      ∃ c : Nat, c < n ∧ 0 < cnt c ∧ x = Int.ofNat c := by
  intro n
  simp only [List.mem_flatten, List.mem_map, List.mem_range]
  constructor
  · rintro ⟨l, ⟨c, hc, rfl⟩, hx⟩
    obtain ⟨h1, h2⟩ := List.mem_replicate.mp hx
    exact ⟨c, hc, Nat.pos_of_ne_zero h1, h2⟩
  · rintro ⟨c, hc, hpos, rfl⟩
    exact ⟨_, ⟨c, hc, rfl⟩, List.mem_replicate.mpr ⟨by omega, rfl⟩⟩

theorem cells_of_counts_sorted (cnt : Nat → Nat) :
    ∀ n : Nat, List.Pairwise (fun u v : Int => u ≤ v)
      ((List.range n).map (fun c => List.replicate (cnt c) (Int.ofNat c))).flatten := by
  intro n
  induction n with
  | zero => simp
  | succ n ih =>
    rw [List.range_succ, List.map_append, List.flatten_append, List.pairwise_append]
    refine ⟨ih, ?_, ?_⟩
    · simp only [List.map_cons, List.map_nil, List.flatten_cons, List.flatten_nil,
        List.append_nil]
      rw [List.pairwise_replicate]
      right
      exact le_refl _
    · intro u hu v hv
      obtain ⟨c, hc, -, rfl⟩ := (mem_cells_of_counts cnt u n).mp hu
      simp only [List.map_cons, List.map_nil, List.flatten_cons, List.flatten_nil,
        List.append_nil] at hv
      rw [(List.mem_replicate.mp hv).2]
      exact Int.ofNat_le.mpr (Nat.le_of_lt hc)

theorem getLastD_mem (l : List Int) (hl : l ≠ []) : ∀ d, l.getLastD d ∈ l := by
  induction l with
  | nil => exact absurd rfl hl
  | cons a t ih =>
    intro d
    rw [List.getLastD_cons]
    cases t with
    | nil => simp
    | cons b u => exact List.mem_cons_of_mem _ (ih (by simp) a)

theorem sorted_le_getLastD (l : List Int) (h : List.Pairwise (fun u v : Int => u ≤ v) l) :
    ∀ d, ∀ x ∈ l, x ≤ l.getLastD d := by
  induction l with
  | nil => intro d x hx; simp at hx
  | cons a t ih =>
    intro d x hx
    rw [List.getLastD_cons]
    rw [List.pairwise_cons] at h
    rcases List.mem_cons.mp hx with rfl | hx
    · cases t with
      | nil => simp
      | cons b u => exact h.1 _ (getLastD_mem (b :: u) (by simp) x)
    · exact ih h.2 a x hx

theorem mem_segment_of_mem (x : Int) (lens : List Nat) :
    ∀ data : List Int, data.length ≤ lens.sum → x ∈ data →
      ∃ c n, lens[c]? = some n ∧ x ∈ (data.drop (lens.take c).sum).take n := by
  induction lens with
  | nil =>
    intro data hlen hx
    simp only [List.sum_nil, Nat.le_zero, List.length_eq_zero] at hlen
    rw [hlen] at hx
    simp at hx
  | cons n ns ih =>
    intro data hlen hx
    rw [← List.take_append_drop n data] at hx
    rcases List.mem_append.mp hx with h1 | h1
    · exact ⟨0, n, by simp, by simpa using h1⟩
    · have hl : (data.drop n).length ≤ ns.sum := by
        rw [List.length_drop]
        simp only [List.sum_cons] at hlen
        omega
      obtain ⟨c, k, hc, hmem⟩ := ih (data.drop n) hl h1
      refine ⟨c + 1, k, by simpa using hc, ?_⟩
      rw [List.drop_drop] at hmem
      simpa [List.take_succ_cons, List.sum_cons, Nat.add_comm] using hmem

theorem three_in_filter (p : Nat → Bool) (n a b c : Nat)
    (ha : a ∈ (List.range n).filter p) (hb : b ∈ (List.range n).filter p)
    (hc : c ∈ (List.range n).filter p) (hab : a ≠ b) (hbc : b ≠ c) (hac : a ≠ c) :
    3 ≤ ((List.range n).filter p).length := by
  have hnd : ((List.range n).filter p).Nodup := (List.nodup_range n).filter _
  have hsub : ({a, b, c} : Finset Nat) ⊆ ((List.range n).filter p).toFinset := by
    intro x hx
    simp only [Finset.mem_insert, Finset.mem_singleton] at hx
    rw [List.mem_toFinset]
    rcases hx with rfl | rfl | rfl
    · exact ha
    · exact hb
    · exact hc
  have hcard : ({a, b, c} : Finset Nat).card = 3 := by
    rw [Finset.card_insert_of_not_mem, Finset.card_insert_of_not_mem, Finset.card_singleton]
    · simpa using hbc
    · simp only [Finset.mem_insert, Finset.mem_singleton, not_or]
      exact ⟨hab, hac⟩
  have := Finset.card_le_card hsub
  rw [hcard, List.toFinset_card_of_nodup hnd] at this
  exact this

theorem derived_face_in_some_cell (m : fe_mesh_t) (fc : List Int)
    (f : Nat) (hf : f < (dedup_run (mesh_template_faces m)).2.length) :
    ∃ c : Nat, c < (mesh_cell_template_faces m).length ∧
      Int.ofNat f ∈ mesh_cell_faces (derived_mesh m fc) c := by
  have hin := (dedup_inv_run (mesh_template_faces m)).onto f hf
  have hmem : Int.ofNat f ∈ (dedup_run (mesh_template_faces m)).1.map Int.ofNat :=
    List.mem_map.mpr ⟨f, hin, rfl⟩
  have hlen : ((dedup_run (mesh_template_faces m)).1.map Int.ofNat).length =
      ((mesh_cell_template_faces m).map List.length).sum := by
    rw [List.length_map, dedup_run, dedup_from_length, mesh_template_faces, List.length_flatten]
  obtain ⟨c, k, hc, hx⟩ := mem_segment_of_mem (Int.ofNat f)
    ((mesh_cell_template_faces m).map List.length) _ (le_of_eq hlen) hmem
  have hlt := getElem?_lt_of_some _ _ _ hc
  rw [List.length_map] at hlt
  refine ⟨c, hlt, ?_⟩
  show Int.ofNat f ∈ cell_face_list (psums 0 ((mesh_cell_template_faces m).map List.length))
    ((dedup_run (mesh_template_faces m)).1.map Int.ofNat) c
  rw [cell_face_list_psums _ _ c k hc (le_of_eq hlen.symm)]
  exact hx

/-- C37: for every FE mesh of non-polyhedral blocks `mesh_from_fe_mesh` returns a
mesh in which, for every face `f`, slot 0 of `face_cells` is not `-1`, every entry of
the two slots other than `-1` is a cell whose face list contains `f`, slot 0 is at
most slot 1 when slot 1 is not `-1`, and if `f` lies in the face lists of at most two
cells then every cell whose face list contains `f` is in one of the two slots. -/
theorem face_cells_sound_complete (m : fe_mesh_t) (h : derivable_fe_mesh m) :
    ∃ fv, mesh_from_fe_mesh m = some fv ∧
      ∀ f : Nat, Int.ofNat f < fv.num_faces →
        ∃ s0 s1 : Int, read_int fv.face_cells (2 * Int.ofNat f) = some s0 ∧
          read_int fv.face_cells (2 * Int.ofNat f + 1) = some s1 ∧
          s0 ≠ -1 ∧
          (∀ s : Int, s = s0 ∨ s = s1 → s ≠ -1 →
            ∃ c : Nat, s = Int.ofNat c ∧ Int.ofNat c < fv.num_cells ∧
              Int.ofNat f ∈ mesh_cell_faces fv c) ∧
          (s1 ≠ -1 → s0 ≤ s1) ∧
          (((List.range fv.num_cells.toNat).filter
              (fun c => decide (Int.ofNat f ∈ mesh_cell_faces fv c))).length ≤ 2 →
            ∀ c : Nat, Int.ofNat c < fv.num_cells → Int.ofNat f ∈ mesh_cell_faces fv c →
              Int.ofNat c = s0 ∨ Int.ofNat c = s1) := by
  obtain ⟨fc, hfv, -, -⟩ := mesh_from_fe_mesh_derivable m h
  refine ⟨derived_mesh m fc, hfv, ?_⟩
  intro f hf
  have hcells : (derived_mesh m fc).num_cells =
      (((mesh_cell_template_faces m).length : Nat) : Int) := mesh_cells_length m h
  have hn : (derived_mesh m fc).num_cells.toNat = (mesh_cell_template_faces m).length := by
    rw [hcells]; exact Int.toNat_natCast _
  have hflt : f < (dedup_run (mesh_template_faces m)).2.length := by
    have : Int.ofNat f < (((dedup_run (mesh_template_faces m)).2.length : Nat) : Int) := hf
    exact Int.ofNat_lt.mp this
  obtain ⟨hs0, hs1⟩ := mesh_from_fe_mesh_slots m (derived_mesh m fc) hfv (Int.ofNat f)
    (Int.ofNat_nonneg f) hf
  have hL : incident_cells (derived_mesh m fc).cell_face_offsets
      (derived_mesh m fc).cell_faces (derived_mesh m fc).num_cells.toNat (Int.ofNat f) =
      ((List.range (derived_mesh m fc).num_cells.toNat).map
        (fun c => List.replicate ((mesh_cell_faces (derived_mesh m fc) c).count (Int.ofNat f))
          (Int.ofNat c))).flatten :=
    (incident_cells_eq _ _ _ _).1
  have hmem := mem_cells_of_counts
    (fun c => (mesh_cell_faces (derived_mesh m fc) c).count (Int.ofNat f))
  have hsorted := cells_of_counts_sorted
    (fun c => (mesh_cell_faces (derived_mesh m fc) c).count (Int.ofNat f))
    (derived_mesh m fc).num_cells.toNat
  rw [← hL] at hsorted
  have hin : ∀ x : Int, x ∈ incident_cells (derived_mesh m fc).cell_face_offsets
      (derived_mesh m fc).cell_faces (derived_mesh m fc).num_cells.toNat (Int.ofNat f) ↔
      ∃ c : Nat, c < (derived_mesh m fc).num_cells.toNat ∧
        Int.ofNat f ∈ mesh_cell_faces (derived_mesh m fc) c ∧ x = Int.ofNat c := by
    intro x
    rw [hL, hmem x]
    simp only [List.count_pos_iff]
  obtain ⟨c0, hc0, hfc0⟩ := derived_face_in_some_cell m fc f hflt
  have hc0in := (hin (Int.ofNat c0)).mpr ⟨c0, by rw [hn]; exact hc0, hfc0, rfl⟩
  generalize incident_cells (derived_mesh m fc).cell_face_offsets
      (derived_mesh m fc).cell_faces (derived_mesh m fc).num_cells.toNat (Int.ofNat f) = L
    at hs0 hs1 hsorted hin hc0in
  have hvalid : ∀ x ∈ L, ∃ c : Nat, x = Int.ofNat c ∧
      Int.ofNat c < (derived_mesh m fc).num_cells ∧
      Int.ofNat f ∈ mesh_cell_faces (derived_mesh m fc) c := by
    intro x hx
    obtain ⟨c, hc, hfc, rfl⟩ := (hin x).mp hx
    refine ⟨c, rfl, ?_, hfc⟩
    rw [hcells]
    rw [hn] at hc
    exact Int.ofNat_lt.mpr hc
  have hnonneg : ∀ x ∈ L, x ≠ -1 := by
    intro x hx
    obtain ⟨c, rfl, -, -⟩ := hvalid x hx
    intro e
    have h0 : (0 : Int) ≤ Int.ofNat c := Int.ofNat_nonneg c
    rw [e] at h0
    exact absurd h0 (by decide)
  cases L with
  | nil => simp at hc0in
  | cons a t =>
    have ha : a ∈ a :: t := List.mem_cons_self _ _
    have hlast : (a :: t).getLastD (-1) ∈ a :: t := getLastD_mem (a :: t) (by simp) (-1)
    have hle : ∀ x ∈ a :: t, a ≤ x := by
      intro x hx
      rcases List.mem_cons.mp hx with rfl | hx
      · exact le_refl _
      · exact (List.pairwise_cons.mp hsorted).1 x hx
    have hge := sorted_le_getLastD (a :: t) hsorted (-1)
    simp only [List.head?_cons, Option.getD_some] at hs0
    refine ⟨a, _, hs0, hs1, hnonneg a ha, ?_, ?_, ?_⟩
    · intro s hs hne
      rcases hs with rfl | rfl
      · exact hvalid _ ha
      · by_cases h2 : 2 ≤ (a :: t).length
        · rw [if_pos h2]
          exact hvalid _ hlast
        · rw [if_neg h2] at hne
          exact absurd rfl hne
    · intro hne
      by_cases h2 : 2 ≤ (a :: t).length
      · rw [if_pos h2]
        exact hle _ hlast
      · rw [if_neg h2] at hne
        exact absurd rfl hne
    · intro htwo c hc hfc
      have hclt : c < (derived_mesh m fc).num_cells.toNat := by
        rw [hn]
        rw [hcells] at hc
        exact Int.ofNat_lt.mp hc
      have hcin : Int.ofNat c ∈ a :: t := (hin (Int.ofNat c)).mpr ⟨c, hclt, hfc, rfl⟩
      by_cases hca : Int.ofNat c = a
      · exact Or.inl hca
      · right
        have h2 : 2 ≤ (a :: t).length := by
          rcases List.mem_cons.mp hcin with e | e
          · exact absurd e hca
          · have : 0 < t.length := List.length_pos_of_mem e
            simp only [List.length_cons]
            omega
        rw [if_pos h2]
        by_contra hcl
        obtain ⟨ca, hca1, hca2, hca3⟩ := (hin a).mp ha
        obtain ⟨cl, hcl1, hcl2, hcl3⟩ := (hin _).mp hlast
        have h1 := hle _ hcin
        have h3 := hge _ hcin
        have hac : ca ≠ c := by
          intro e
          apply hca
          rw [hca3, e]
        have hcc : c ≠ cl := by
          intro e
          apply hcl
          rw [hcl3, e]
        have hal : ca ≠ cl := by
          intro e
          rw [hca3] at h1
          rw [hcl3] at h3
          have e1 := Int.ofNat_le.mp h1
          have e2 := Int.ofNat_le.mp h3
          omega
        have hthree := three_in_filter
          (fun c => decide (Int.ofNat f ∈ mesh_cell_faces (derived_mesh m fc) c))
          (derived_mesh m fc).num_cells.toNat ca c cl
          (List.mem_filter.mpr ⟨List.mem_range.mpr hca1, by simpa using hca2⟩)
          (List.mem_filter.mpr ⟨List.mem_range.mpr hclt, by simpa using hfc⟩)
          (List.mem_filter.mpr ⟨List.mem_range.mpr hcl1, by simpa using hcl2⟩)
          hac hcc hal
        omega

/-- The hypothesis of `face_cells_sound_complete` holds of `two_tetrahedra_mesh`; in
its translation the shared face 2 has the slots 0 and 1. -/
theorem face_cells_sound_complete_witness :
    derivable_fe_mesh two_tetrahedra_mesh ∧
    mesh_from_fe_mesh two_tetrahedra_mesh = some two_tetrahedra_translation ∧
    read_int two_tetrahedra_translation.face_cells (2 * 2) = some 0 ∧
    read_int two_tetrahedra_translation.face_cells (2 * 2 + 1) = some 1 ∧
    ∃ fv, mesh_from_fe_mesh two_tetrahedra_mesh = some fv ∧
      ∀ f : Nat, Int.ofNat f < fv.num_faces →
        ∃ s0 s1 : Int, read_int fv.face_cells (2 * Int.ofNat f) = some s0 ∧
          read_int fv.face_cells (2 * Int.ofNat f + 1) = some s1 ∧
          s0 ≠ -1 ∧
          (∀ s : Int, s = s0 ∨ s = s1 → s ≠ -1 →
            ∃ c : Nat, s = Int.ofNat c ∧ Int.ofNat c < fv.num_cells ∧
              Int.ofNat f ∈ mesh_cell_faces fv c) ∧
          (s1 ≠ -1 → s0 ≤ s1) ∧
          (((List.range fv.num_cells.toNat).filter
              (fun c => decide (Int.ofNat f ∈ mesh_cell_faces fv c))).length ≤ 2 →
            ∀ c : Nat, Int.ofNat c < fv.num_cells → Int.ofNat f ∈ mesh_cell_faces fv c →
              Int.ofNat c = s0 ∨ Int.ofNat c = s1) :=
  ⟨two_tetrahedra_mesh_derivable, two_tetrahedra_mesh_translated, by decide, by decide,
   face_cells_sound_complete two_tetrahedra_mesh two_tetrahedra_mesh_derivable⟩

/-! ## The face templates as closed surfaces -/

theorem face_boundary_three (a b c : Int) :
    face_boundary [a, b, c] = [Sym2.mk (a, b), Sym2.mk (b, c), Sym2.mk (c, a)] := rfl

theorem face_boundary_four (a b c d : Int) :
    face_boundary [a, b, c, d] =
      [Sym2.mk (a, b), Sym2.mk (b, c), Sym2.mk (c, d), Sym2.mk (d, a)] := rfl

theorem sets_nodup_of_pairwise (F : List (List Int))
    (h : F.Pairwise (fun f g => ¬ f ⊆ g)) : (F.map List.toFinset).Nodup := by
  unfold List.Nodup
  rw [List.pairwise_map]
  refine h.imp ?_
  intro f g hfg heq
  apply hfg
  intro x hx
  have hm : x ∈ f.toFinset := List.mem_toFinset.mpr hx
  rw [heq] at hm
  exact List.mem_toFinset.mp hm

set_option maxHeartbeats 4000000 in
theorem tetrahedron_closed_surface (a0 a1 a2 a3 : Int) (rest : List Int)
    (hd : [a0, a1, a2, a3].Nodup) :
    closed_surface (template_faces FE_TETRAHEDRON (a0 :: a1 :: a2 :: a3 :: rest)) 6 := by
  simp only [List.nodup_cons, List.mem_cons, List.mem_singleton, List.not_mem_nil,
    List.nodup_nil, or_false, not_or, and_true, not_false_eq_true] at hd
  obtain ⟨⟨h01, h02, h03⟩, ⟨h12, h13⟩, h23⟩ := hd
  have hF : template_faces FE_TETRAHEDRON (a0 :: a1 :: a2 :: a3 :: rest) =
      [[a0, a1, a2], [a0, a1, a3], [a1, a2, a3], [a2, a0, a3]] := by
    simp [template_faces, face_node_indices]
  rw [hF]
  refine ⟨sets_nodup_of_pairwise _ ?_, ?_, ?_⟩
  · simp [List.cons_subset, h01, h02, h03, h12, h13, h23, Ne.symm h01, Ne.symm h02, Ne.symm h03, Ne.symm h12,
      Ne.symm h13, Ne.symm h23]
  · simp [face_boundary_three, face_boundary_four, List.filter_cons, Sym2.eq_iff,
      h01, h02, h03, h12, h13, h23, Ne.symm h01, Ne.symm h02, Ne.symm h03, Ne.symm h12,
      Ne.symm h13, Ne.symm h23]
  · simp [face_boundary_three, face_boundary_four, Finset.card_insert_eq_ite, Sym2.eq_iff,
      h01, h02, h03, h12, h13, h23, Ne.symm h01, Ne.symm h02, Ne.symm h03, Ne.symm h12,
      Ne.symm h13, Ne.symm h23]

set_option maxHeartbeats 4000000 in
theorem pyramid_closed_surface (a0 a1 a2 a3 a4 : Int) (rest : List Int)
    (hd : [a0, a1, a2, a3, a4].Nodup) :
    closed_surface (template_faces FE_PYRAMID (a0 :: a1 :: a2 :: a3 :: a4 :: rest)) 8 := by
  simp only [List.nodup_cons, List.mem_cons, List.mem_singleton, List.not_mem_nil,
    List.nodup_nil, or_false, not_or, and_true, not_false_eq_true] at hd
  obtain ⟨⟨h01, h02, h03, h04⟩, ⟨h12, h13, h14⟩, ⟨h23, h24⟩, h34⟩ := hd
  have hF : template_faces FE_PYRAMID (a0 :: a1 :: a2 :: a3 :: a4 :: rest) =
      [[a0, a1, a2, a3], [a0, a1, a4], [a1, a2, a4], [a2, a3, a4], [a3, a0, a4]] := by
    simp [template_faces, face_node_indices]
  rw [hF]
  refine ⟨sets_nodup_of_pairwise _ ?_, ?_, ?_⟩
  · simp [List.cons_subset, h01, h02, h03, h04, h12, h13, h14, h23, h24, h34, Ne.symm h01, Ne.symm h02,
      Ne.symm h03, Ne.symm h04, Ne.symm h12, Ne.symm h13, Ne.symm h14, Ne.symm h23,
      Ne.symm h24, Ne.symm h34]
  · simp [face_boundary_three, face_boundary_four, List.filter_cons, Sym2.eq_iff,
      h01, h02, h03, h04, h12, h13, h14, h23, h24, h34, Ne.symm h01, Ne.symm h02,
      Ne.symm h03, Ne.symm h04, Ne.symm h12, Ne.symm h13, Ne.symm h14, Ne.symm h23,
      Ne.symm h24, Ne.symm h34]
  · simp [face_boundary_three, face_boundary_four, Finset.card_insert_eq_ite, Sym2.eq_iff,
      h01, h02, h03, h04, h12, h13, h14, h23, h24, h34, Ne.symm h01, Ne.symm h02,
      Ne.symm h03, Ne.symm h04, Ne.symm h12, Ne.symm h13, Ne.symm h14, Ne.symm h23,
      Ne.symm h24, Ne.symm h34]

set_option maxHeartbeats 4000000 in
theorem wedge_closed_surface (a0 a1 a2 a3 a4 a5 : Int) (rest : List Int)
    (hd : [a0, a1, a2, a3, a4, a5].Nodup) :
    closed_surface (template_faces FE_WEDGE (a0 :: a1 :: a2 :: a3 :: a4 :: a5 :: rest)) 9 := by
  simp only [List.nodup_cons, List.mem_cons, List.mem_singleton, List.not_mem_nil,
    List.nodup_nil, or_false, not_or, and_true, not_false_eq_true] at hd
  obtain ⟨⟨h01, h02, h03, h04, h05⟩, ⟨h12, h13, h14, h15⟩, ⟨h23, h24, h25⟩, ⟨h34, h35⟩, h45⟩ := hd
  have hF : template_faces FE_WEDGE (a0 :: a1 :: a2 :: a3 :: a4 :: a5 :: rest) =
      [[a0, a1, a2], [a3, a4, a5], [a0, a1, a4, a3], [a1, a2, a5, a4], [a2, a0, a3, a5]] := by
    simp [template_faces, face_node_indices]
  rw [hF]
  refine ⟨sets_nodup_of_pairwise _ ?_, ?_, ?_⟩
  · simp [List.cons_subset, h01, h02, h03, h04, h05, h12, h13, h14, h15, h23, h24, h25, h34, h35, h45, Ne.symm h01,
      Ne.symm h02, Ne.symm h03, Ne.symm h04, Ne.symm h05, Ne.symm h12, Ne.symm h13,
      Ne.symm h14, Ne.symm h15, Ne.symm h23, Ne.symm h24, Ne.symm h25, Ne.symm h34,
      Ne.symm h35, Ne.symm h45]
  · simp [face_boundary_three, face_boundary_four, List.filter_cons, Sym2.eq_iff,
      h01, h02, h03, h04, h05, h12, h13, h14, h15, h23, h24, h25, h34, h35, h45, Ne.symm h01,
      Ne.symm h02, Ne.symm h03, Ne.symm h04, Ne.symm h05, Ne.symm h12, Ne.symm h13,
      Ne.symm h14, Ne.symm h15, Ne.symm h23, Ne.symm h24, Ne.symm h25, Ne.symm h34,
      Ne.symm h35, Ne.symm h45]
  · simp [face_boundary_three, face_boundary_four, Finset.card_insert_eq_ite, Sym2.eq_iff,
      h01, h02, h03, h04, h05, h12, h13, h14, h15, h23, h24, h25, h34, h35, h45, Ne.symm h01,
      Ne.symm h02, Ne.symm h03, Ne.symm h04, Ne.symm h05, Ne.symm h12, Ne.symm h13,
      Ne.symm h14, Ne.symm h15, Ne.symm h23, Ne.symm h24, Ne.symm h25, Ne.symm h34,
      Ne.symm h35, Ne.symm h45]

set_option maxHeartbeats 4000000 in
theorem hexahedron_closed_surface (a0 a1 a2 a3 a4 a5 a6 a7 : Int) (rest : List Int)
    (hd : [a0, a1, a2, a3, a4, a5, a6, a7].Nodup) :
    closed_surface (template_faces FE_HEXAHEDRON (a0 :: a1 :: a2 :: a3 :: a4 :: a5 :: a6 :: a7 :: rest)) 12 := by
  simp only [List.nodup_cons, List.mem_cons, List.mem_singleton, List.not_mem_nil,
    List.nodup_nil, or_false, not_or, and_true, not_false_eq_true] at hd
  obtain ⟨⟨h01, h02, h03, h04, h05, h06, h07⟩, ⟨h12, h13, h14, h15, h16, h17⟩, ⟨h23, h24, h25, h26, h27⟩, ⟨h34, h35, h36, h37⟩, ⟨h45, h46, h47⟩, ⟨h56, h57⟩, h67⟩ := hd
  have hF : template_faces FE_HEXAHEDRON (a0 :: a1 :: a2 :: a3 :: a4 :: a5 :: a6 :: a7 :: rest) =
      [[a0, a1, a2, a3], [a4, a5, a6, a7], [a0, a1, a5, a4], [a2, a3, a7, a6], [a1, a2, a6, a5], [a3, a0, a4, a7]] := by
    simp [template_faces, face_node_indices]
  rw [hF]
  refine ⟨sets_nodup_of_pairwise _ ?_, ?_, ?_⟩
  · simp [List.cons_subset, h01, h02, h03, h04, h05, h06, h07, h12, h13, h14, h15, h16, h17, h23, h24, h25, h26,
      h27, h34, h35, h36, h37, h45, h46, h47, h56, h57, h67, Ne.symm h01, Ne.symm h02,
      Ne.symm h03, Ne.symm h04, Ne.symm h05, Ne.symm h06, Ne.symm h07, Ne.symm h12,
      Ne.symm h13, Ne.symm h14, Ne.symm h15, Ne.symm h16, Ne.symm h17, Ne.symm h23,
      Ne.symm h24, Ne.symm h25, Ne.symm h26, Ne.symm h27, Ne.symm h34, Ne.symm h35,
      Ne.symm h36, Ne.symm h37, Ne.symm h45, Ne.symm h46, Ne.symm h47, Ne.symm h56,
      Ne.symm h57, Ne.symm h67]
  · simp [face_boundary_three, face_boundary_four, List.filter_cons, Sym2.eq_iff,
      h01, h02, h03, h04, h05, h06, h07, h12, h13, h14, h15, h16, h17, h23, h24, h25, h26,
      h27, h34, h35, h36, h37, h45, h46, h47, h56, h57, h67, Ne.symm h01, Ne.symm h02,
      Ne.symm h03, Ne.symm h04, Ne.symm h05, Ne.symm h06, Ne.symm h07, Ne.symm h12,
      Ne.symm h13, Ne.symm h14, Ne.symm h15, Ne.symm h16, Ne.symm h17, Ne.symm h23,
      Ne.symm h24, Ne.symm h25, Ne.symm h26, Ne.symm h27, Ne.symm h34, Ne.symm h35,
      Ne.symm h36, Ne.symm h37, Ne.symm h45, Ne.symm h46, Ne.symm h47, Ne.symm h56,
      Ne.symm h57, Ne.symm h67]
  · simp [face_boundary_three, face_boundary_four, Finset.card_insert_eq_ite, Sym2.eq_iff,
      h01, h02, h03, h04, h05, h06, h07, h12, h13, h14, h15, h16, h17, h23, h24, h25, h26,
      h27, h34, h35, h36, h37, h45, h46, h47, h56, h57, h67, Ne.symm h01, Ne.symm h02,
      Ne.symm h03, Ne.symm h04, Ne.symm h05, Ne.symm h06, Ne.symm h07, Ne.symm h12,
      Ne.symm h13, Ne.symm h14, Ne.symm h15, Ne.symm h16, Ne.symm h17, Ne.symm h23,
      Ne.symm h24, Ne.symm h25, Ne.symm h26, Ne.symm h27, Ne.symm h34, Ne.symm h35,
      Ne.symm h36, Ne.symm h37, Ne.symm h45, Ne.symm h46, Ne.symm h47, Ne.symm h56,
      Ne.symm h57, Ne.symm h67]

/-- C39: for an element whose nodes are pairwise distinct, the template faces that
`get_cell_faces` builds for a tetrahedron, a pyramid, a wedge and a hexahedron form a
closed surface: the faces are pairwise distinct as node sets, every undirected edge of
two cyclically consecutive nodes of a template face lies on exactly two template faces
of the element, and there are 6, 8, 9 and 12 such edges respectively. -/
theorem templates_closed_surface (nodes : List Int) (hd : nodes.Nodup) :
    (nodes.length = 4 → closed_surface (template_faces FE_TETRAHEDRON nodes) 6) ∧
    (nodes.length = 5 → closed_surface (template_faces FE_PYRAMID nodes) 8) ∧
    (nodes.length = 6 → closed_surface (template_faces FE_WEDGE nodes) 9) ∧
    (nodes.length = 8 → closed_surface (template_faces FE_HEXAHEDRON nodes) 12) := by
  refine ⟨?_, ?_, ?_, ?_⟩
  · intro hl
    match nodes, hd, hl with
    | [a0, a1, a2, a3], hd, _ => exact tetrahedron_closed_surface a0 a1 a2 a3 [] hd
  · intro hl
    match nodes, hd, hl with
    | [a0, a1, a2, a3, a4], hd, _ => exact pyramid_closed_surface a0 a1 a2 a3 a4 [] hd
  · intro hl
    match nodes, hd, hl with
    | [a0, a1, a2, a3, a4, a5], hd, _ => exact wedge_closed_surface a0 a1 a2 a3 a4 a5 [] hd
  · intro hl
    match nodes, hd, hl with
    | [a0, a1, a2, a3, a4, a5, a6, a7], hd, _ =>
      exact hexahedron_closed_surface a0 a1 a2 a3 a4 a5 a6 a7 [] hd

theorem templates_closed_surface_witness :
    ([10, 11, 12, 13] : List Int).Nodup ∧
    ([10, 11, 12, 13, 14] : List Int).Nodup ∧
    ([10, 11, 12, 13, 14, 15] : List Int).Nodup ∧
    ([10, 11, 12, 13, 14, 15, 16, 17] : List Int).Nodup ∧
    closed_surface (template_faces FE_TETRAHEDRON [10, 11, 12, 13]) 6 ∧
    closed_surface (template_faces FE_PYRAMID [10, 11, 12, 13, 14]) 8 ∧
    closed_surface (template_faces FE_WEDGE [10, 11, 12, 13, 14, 15]) 9 ∧
    closed_surface (template_faces FE_HEXAHEDRON [10, 11, 12, 13, 14, 15, 16, 17]) 12 :=
  ⟨by decide, by decide, by decide, by decide,
   (templates_closed_surface [10, 11, 12, 13] (by decide)).1 rfl,
   (templates_closed_surface [10, 11, 12, 13, 14] (by decide)).2.1 rfl,
   (templates_closed_surface [10, 11, 12, 13, 14, 15] (by decide)).2.2.1 rfl,
   (templates_closed_surface [10, 11, 12, 13, 14, 15, 16, 17] (by decide)).2.2.2 rfl⟩

end Polyglot
